import Mathlib

/-!
Tourney fixture engine: embedding of `FixtureController.js`.

Shallow embedding of the fixture generation and bracket-progression code of
`Tourney_24/SERVER/Controllers/Organizers/FixtureController.js`, with the
document shape of `Models/Fixture/FixtureModel.js`, and the properties of the
specification proved (or refuted) on it.

Conventions of the embedding
* an `ObjectId` (tournament, event, team, fixture) is a natural number, and
  every id handed to a controller is a valid one;
* a nullable reference or number is an `Option`: `none` is JavaScript `null`
  or a path missing from the stored document;
* JavaScript arrays are lists, `arr[i]` is `arr[i]?`, where the outer `none`
  is `undefined` (index out of range);
* scores are integers, so `Number(score)` is never `NaN`;
* `Math.pow(2, Math.ceil(Math.log2 P))` is computed exactly: `2 ^ Nat.clog 2 P`;
* the fixture collection is a list in scan order; `findOne` returns the first
  match, and a write by `_id` reaches the fixture with that id;
* keys of an update that are `undefined` are not written by
  `findByIdAndUpdate`, and references resolve under `populate`;
* `FixtureModel.js` declares no `phase` path, so `insertMany` stores a
  generated document without its `phase` tag; a stored document may still
  carry a tag (`rr` or `ko`) written by other means, and a query filter on
  `phase` reaches the collection as the controller writes it;
* `insertMany` takes the new ids and the clock as parameters, the random
  shuffle of the knockout branch is a parameter, and the answers of the other
  collections (tournament, event, entrants) are given with the request;
* the time stamps `createdAt` / `updatedAt` are left out.

The file has two parts: the definitions (the embedding, then the vocabulary
used to state the properties), and the theorems.
-/

namespace Tourney

/-! ## Generated documents and round-robin generation (circle algorithm) -/

/-- An `ObjectId`, kept opaque. -/
abbrev Id := Nat

/-- Values of the `phase` tag written by the generators. -/
inductive Phase where
  | rr
  | ko
  deriving DecidableEq

/-- The `status` enumeration of the fixture schema. -/
inductive Status where
  | scheduled
  | ongoing
  | completed
  | cancelled
  deriving DecidableEq

/-- A fixture document as the generators build it, before `insertMany`. -/
structure FixtureDoc where
  tournament : Id
  event : Option Id
  round : Nat
  roundName : String
  matchIndex : Nat
  teamA : Option Id
  teamB : Option Id
  phase : Option Phase
  status : Status
  deriving DecidableEq

/-- The rotation step `const last = arr.pop(); arr.splice(1, 0, last)`:
the last element moves to position 1, position 0 stays. -/
def rotateKeepFirst {α : Type} (arr : List α) : List α :=
  match arr.getLast? with
  | none => []
  | some last =>
    let rest := arr.dropLast
    rest.take 1 ++ last :: rest.drop 1

/-- One pass of the inner loop `for (let i = 0; i < matchesPerRound; i++)`:
pair `arr[i]` with `arr[arr.length - 1 - i]`, skip the pairing when either
side is `null`. -/
def rrRound (tournamentId : Id) (eventId : Option Id) (arr : List (Option Id))
    (round matchesPerRound : Nat) : List FixtureDoc :=
  (List.range matchesPerRound).filterMap fun i =>
    let teamA := arr[i]?
    let teamB := arr[arr.length - 1 - i]?
    if teamA = some none ∨ teamB = some none then none
    else some
      { tournament := tournamentId
        event := eventId
        round := round
        roundName := "Matchday " ++ toString (round + 1)
        matchIndex := i
        teamA := teamA.join
        teamB := teamB.join
        phase := some Phase.rr
        status := Status.scheduled }

/-- The outer loop `for (let round = 0; round < totalRounds; round++)`;
the first argument is the number of rounds still to run. -/
def rrLoop (tournamentId : Id) (eventId : Option Id) (matchesPerRound : Nat) :
    Nat → Nat → List (Option Id) → List FixtureDoc
  | 0, _, _ => []
  | remaining + 1, round, arr =>
    rrRound tournamentId eventId arr round matchesPerRound ++
      rrLoop tournamentId eventId matchesPerRound remaining (round + 1) (rotateKeepFirst arr)

/-- The array the circle algorithm starts from: the participants, plus one
`null` bye when their number is odd. -/
def rrArray (participants : List Id) : List (Option Id) :=
  let arr := participants.map some
  if arr.length % 2 = 1 then arr ++ [none] else arr

/-- The `docs` built by the round-robin branch of `generateFixtures`. -/
def roundRobinDocs (tournamentId : Id) (eventId : Option Id) (participants : List Id) :
    List FixtureDoc :=
  let arr := rrArray participants
  let totalRounds := arr.length - 1
  let matchesPerRound := arr.length / 2
  rrLoop tournamentId eventId matchesPerRound totalRounds 0 arr

/-- The unordered pair of sides of a fixture document. -/
def FixtureDoc.sides (d : FixtureDoc) : Sym2 (Option Id) := s(d.teamA, d.teamB)

/-- Index, in the starting array of length `m + 1`, of the element that stands
at position `p` after `r` rotations: position 0 never moves, the others shift
by one place per round. -/
def circleIdx (m r p : Nat) : Nat :=
  if p = 0 then 0 else if p ≤ r then p + m - r else p - r

/-- Position, in round `r`, of the element that starts at index `p ≥ 1`. -/
def circlePos (m r p : Nat) : Nat := if p + r ≤ m then p + r else p + r - m

/-- The document (if any) emitted in round `r` at pairing index `i`, read off
the starting array `arr` of length `m + 1`. -/
def slotDoc (tournamentId : Id) (eventId : Option Id) (arr : List (Option Id))
    (m r i : Nat) : Option FixtureDoc :=
  let teamA := arr[circleIdx m r i]?
  let teamB := arr[circleIdx m r (m - i)]?
  if teamA = some none ∨ teamB = some none then none
  else some
    { tournament := tournamentId
      event := eventId
      round := r
      roundName := "Matchday " ++ toString (r + 1)
      matchIndex := i
      teamA := teamA.join
      teamB := teamB.join
      phase := some Phase.rr
      status := Status.scheduled }

/-- The record the round-robin loop pushes. -/
def rrDoc (tournamentId : Id) (eventId : Option Id) (r i : Nat) (a b : Option Id) : FixtureDoc :=
  { tournament := tournamentId
    event := eventId
    round := r
    roundName := "Matchday " ++ toString (r + 1)
    matchIndex := i
    teamA := a
    teamB := b
    phase := some Phase.rr
    status := Status.scheduled }

/-- The pairing index that holds the bye in round `r` (odd participant count). -/
def byeSlot (m r : Nat) : Nat := if r = 0 then 0 else min r (m - r)

/-- Number of rounds of the schedule: `N - 1` for even `N`, `N` for odd `N`. -/
def rrTotalRounds (n : Nat) : Nat := if n % 2 = 0 then n - 1 else n

/-! ## Knockout bracket generation -/

/-- Helper of the controller that maps a round index to a readable name. -/
def getRoundName (roundNum totalRounds : Int) : String :=
  let roundsFromEnd := totalRounds - 1 - roundNum
  if roundsFromEnd = 0 then "Final"
  else if roundsFromEnd = 1 then "Semi-Final"
  else if roundsFromEnd = 2 then "Quarter-Final"
  else if roundsFromEnd = 3 then "Round of 16"
  else "Round " ++ toString (roundNum + 1)

/-- `Math.pow(2, Math.ceil(Math.log2(n)))`, computed exactly (`n ≥ 1`). -/
def nextPowerOfTwo (n : Nat) : Nat := 2 ^ Nat.clog 2 n

/-- `while (participants.length < nextPower) participants.push(null)`. -/
def padWithByes (participants : List Id) : List (Option Id) :=
  participants.map some ++
    List.replicate (nextPowerOfTwo participants.length - participants.length) none

/-- One pass of `for (let i = 0; i < current.length; i += 2)`: the pairing
with `i = 2 * j` becomes the fixture with `matchIndex = i / 2 = j`; a side read
past the end of the array is stored as `null` by the schema default. -/
def koRound (tournamentId : Id) (eventId : Option Id) (current : List (Option Id))
    (round : Nat) (roundName : String) : List FixtureDoc :=
  (List.range ((current.length + 1) / 2)).map fun j =>
    { tournament := tournamentId
      event := eventId
      round := round
      roundName := roundName
      matchIndex := j
      teamA := (current[2 * j]?).join
      teamB := (current[2 * j + 1]?).join
      phase := some Phase.ko
      status := Status.scheduled }

/-- The loop `while (current.length > 1)` of `generateFixtures`; the next
round starts from `new Array(current.length / 2).fill(null)` (the lengths met
here are powers of two, so the division is exact). -/
def koLoop (tournamentId : Id) (eventId : Option Id) (totalRounds : Nat)
    (current : List (Option Id)) (round : Nat) : List FixtureDoc :=
  if 1 < current.length then
    koRound tournamentId eventId current round (getRoundName round totalRounds) ++
      koLoop tournamentId eventId totalRounds
        (List.replicate (current.length / 2) none) (round + 1)
  else []
termination_by current.length
decreasing_by
  simp only [List.length_replicate]
  omega

/-- The `docs` built by the knockout branch of `generateFixtures`, from the
participants in the order the random shuffle left them. -/
def knockoutDocs (tournamentId : Id) (eventId : Option Id) (shuffled : List Id) :
    List FixtureDoc :=
  let nextPower := nextPowerOfTwo shuffled.length
  let participants := padWithByes shuffled
  let totalRounds := Nat.log 2 nextPower
  koLoop tournamentId eventId totalRounds participants 0

/-- The loop `while (current.length > 1)` of `generateKnockoutFromStandings`:
rounds are numbered from `startRound`, names come from the relative round. -/
def koLoopFrom (tournamentId : Id) (eventId : Option Id) (startRound totalRoundsKO : Nat)
    (current : List (Option Id)) (relRound : Nat) : List FixtureDoc :=
  if 1 < current.length then
    koRound tournamentId eventId current (startRound + relRound)
        (getRoundName relRound totalRoundsKO) ++
      koLoopFrom tournamentId eventId startRound totalRoundsKO
        (List.replicate (current.length / 2) none) (relRound + 1)
  else []
termination_by current.length
decreasing_by
  simp only [List.length_replicate]
  omega

/-- The `docs` built by `generateKnockoutFromStandings` from the seeded list
`participantsArr` and the first knockout round `startRound`. -/
def knockoutFromStandingsDocs (tournamentId : Id) (eventId : Option Id) (startRound : Nat)
    (participantsArr : List Id) : List FixtureDoc :=
  let nextPow := nextPowerOfTwo participantsArr.length
  let padded := padWithByes participantsArr
  let totalRoundsKO := Nat.log 2 nextPow
  koLoopFrom tournamentId eventId startRound totalRoundsKO padded 0

/-- The bracket position `(round, matchIndex)` of a document. -/
def FixtureDoc.pos (d : FixtureDoc) : Nat × Nat := (d.round, d.matchIndex)

/-- Bracket positions of `rounds` rounds numbered from `start`, the first
round `s` positions from an array of `2 ^ rounds` entries. -/
def bracketPositions (start rounds : Nat) : List (Nat × Nat) :=
  (List.range rounds).flatMap fun s =>
    (List.range (2 ^ (rounds - 1 - s))).map fun x => (start + s, x)

/-- The bracket loop unrolled over the number of rounds still to emit: `j`
rounds from an array `current` of `2 ^ j` entries; round `rel` is stored as
round `start + rel` and named `name rel`. -/
def bracketRounds (tournamentId : Id) (eventId : Option Id) (name : Nat → String)
    (start : Nat) : Nat → List (Option Id) → Nat → List FixtureDoc
  | 0, _, _ => []
  | j + 1, current, rel =>
    koRound tournamentId eventId current (start + rel) (name rel) ++
      bracketRounds tournamentId eventId name start j (List.replicate (2 ^ j) none) (rel + 1)

/-- The bracket `docs`, with rounds `first .. last`, is a binary tree under the
index arithmetic: every fixture before the last round has exactly one parent
at `(round + 1, ⌊matchIndex / 2⌋)`, every fixture after the first round has
exactly the children `2 * matchIndex` and `2 * matchIndex + 1` one round
earlier, the last round is a single fixture and nothing lies beyond it. -/
def BracketTree (docs : List FixtureDoc) (first last : Nat) : Prop :=
  (∀ d ∈ docs, d.round < last →
    (docs.filter fun e =>
      decide (e.round = d.round + 1 ∧ e.matchIndex = d.matchIndex / 2)).length = 1) ∧
  (∀ e ∈ docs, first < e.round →
    ((docs.filter fun d =>
      decide (d.round + 1 = e.round ∧ d.matchIndex / 2 = e.matchIndex)).map
      fun d => d.matchIndex) = [2 * e.matchIndex, 2 * e.matchIndex + 1]) ∧
  (docs.filter fun d => decide (d.round = last)).length = 1 ∧
  (∀ d ∈ docs, first ≤ d.round ∧ d.round ≤ last)

instance (docs : List FixtureDoc) (first last : Nat) :
    Decidable (BracketTree docs first last) := by
  unfold BracketTree; infer_instance

/-! ## Stored fixtures and result entry -/

/-- A stored fixture: the paths of `FixtureSchema`, the `_id`, and the
`phase` tag a stored document may carry although the schema does not declare
it (`none`: no tag, which is what `insertMany` stores). -/
structure Fixture where
  id : Id
  tournament : Id
  event : Option Id
  round : Nat
  roundName : String
  matchIndex : Nat
  teamA : Option Id
  teamB : Option Id
  scheduledAt : Option Nat
  status : Option Status
  scoreA : Option Int
  scoreB : Option Int
  winner : Option Id
  notes : Option String
  phase : Option Phase
  deriving DecidableEq

/-- The fixture collection, in the order `find` and `findOne` scan it. Every
stored fixture has its own `_id`. -/
abbrev Store := List Fixture

/-- The `_id` index of the collection: no two stored fixtures share an id. -/
def Store.WF (store : Store) : Prop := (store.map fun f => f.id).Nodup

instance (store : Store) : Decidable store.WF := by
  unfold Store.WF; infer_instance

/-- A field of a request body: not sent (`undefined`), `null`, or a value. -/
inductive Field (α : Type) where
  | absent
  | null
  | val (a : α)
  deriving DecidableEq

/-- The value a path holds after `$set` of a field that was sent. -/
def Field.assign {α : Type} : Field α → Option α → Option α
  | Field.absent, old => old
  | Field.null, _ => none
  | Field.val a, _ => some a

/-- JavaScript `Number(x)` on a score that was sent: `Number(null)` is `0`. -/
def Field.toNumber : Field Int → Int
  | Field.val n => n
  | _ => 0

/-- JavaScript truthiness of an id-valued field, as an optional id. -/
def Field.truthy {α : Type} : Field α → Option α
  | Field.val a => some a
  | _ => none

/-- The part of `req.body` that `updateFixture` reads: the six allowed
fields, and `teamA` / `teamB`, which the first derivation pass reads. -/
structure UpdateBody where
  status : Field Status := Field.absent
  scoreA : Field Int := Field.absent
  scoreB : Field Int := Field.absent
  winner : Field Id := Field.absent
  scheduledAt : Field Nat := Field.absent
  notes : Field String := Field.absent
  teamA : Field Id := Field.absent
  teamB : Field Id := Field.absent
  deriving DecidableEq

/-- The key `updateData.winner` after the first derivation pass: the winner
sent with the request, or, when both scores were sent without a winner and
differ, `req.body.teamA` or `req.body.teamB`. -/
def updateDataWinner (body : UpdateBody) : Field Id :=
  if body.scoreA ≠ Field.absent ∧ body.scoreB ≠ Field.absent ∧ body.winner = Field.absent then
    let scoreA := body.scoreA.toNumber
    let scoreB := body.scoreB.toNumber
    if scoreA ≠ scoreB then (if scoreA > scoreB then body.teamA else body.teamB)
    else body.winner
  else body.winner

/-- The effect of `findByIdAndUpdate(fixtureId, updateData)` on the fixture:
keys that are `undefined` are not written. -/
def applyUpdateData (body : UpdateBody) (f : Fixture) : Fixture :=
  { f with
    status := body.status.assign f.status
    scoreA := body.scoreA.assign f.scoreA
    scoreB := body.scoreB.assign f.scoreB
    winner := (updateDataWinner body).assign f.winner
    scheduledAt := body.scheduledAt.assign f.scheduledAt
    notes := body.notes.assign f.notes }

/-- `Fixture.findById`. -/
def findById (store : Store) (fixtureId : Id) : Option Fixture :=
  store.find? fun f => f.id = fixtureId

/-- Write to the stored document with the given `_id`. -/
def modifyById (store : Store) (fixtureId : Id) (g : Fixture → Fixture) : Store :=
  store.map fun f => if f.id = fixtureId then g f else f

/-- The second derivation pass: the winner the stored scores give, when the
request left `winnerId` falsy and both stored scores are present and differ.
The outer `none` means the pass does not fire. -/
def secondPass (winnerId : Option Id) (updated : Fixture) : Option (Option Id) :=
  match winnerId, updated.scoreA, updated.scoreB with
  | none, some a, some b =>
    if a ≠ b then some (if a > b then updated.teamA else updated.teamB) else none
  | _, _, _ => none

/-- The filter `nextFilter` of the propagation step. -/
def nextFilter (updated : Fixture) (g : Fixture) : Bool :=
  g.tournament = updated.tournament ∧ g.event = updated.event ∧
    g.round = updated.round + 1 ∧ g.matchIndex = updated.matchIndex / 2

/-- The slot of the next-round fixture the winner is written to. -/
def setSlot (matchIndex : Nat) (winnerId : Id) (g : Fixture) : Fixture :=
  if matchIndex % 2 = 0 then { g with teamA := some winnerId }
  else { g with teamB := some winnerId }

/-- Outcome of `updateFixture`: the `success` flag, the store afterwards, the
fixture sent back, and the value of the local `winnerId` when the
propagation step is reached. -/
structure UpdateResult where
  success : Bool
  store : Store
  fixture : Option Fixture
  winnerId : Option Id
  deriving DecidableEq

/-- The controller `updateFixture`. References are taken to resolve under
`populate`, so a populated side is identified with its id. -/
def updateFixture (store : Store) (fixtureId : Id) (body : UpdateBody) : UpdateResult :=
  match findById store fixtureId with
  | none => { success := false, store := store, fixture := none, winnerId := none }
  | some found =>
    let updated := applyUpdateData body found
    let store₁ := modifyById store fixtureId (applyUpdateData body)
    let winnerId₀ := (updateDataWinner body).truthy
    let derived := secondPass winnerId₀ updated
    let winnerId := match derived with
      | some w => w
      | none => winnerId₀
    let updated₂ := match derived with
      | some w => { updated with winner := w }
      | none => updated
    let store₂ := match derived with
      | some w => modifyById store₁ fixtureId fun f => { f with winner := w }
      | none => store₁
    let store₃ := match winnerId with
      | some w =>
        match store₂.find? (nextFilter updated₂) with
        | some nextFix => modifyById store₂ nextFix.id (setSlot updated₂.matchIndex w)
        | none => store₂
      | none => store₂
    { success := true, store := store₃, fixture := some updated₂, winnerId := winnerId }

/-- What both derivation passes leave stored on the fixture that is updated,
`derived` being the outcome of the second pass. -/
def finishUpdate (body : UpdateBody) (derived : Option (Option Id)) (f : Fixture) : Fixture :=
  match derived with
  | some w => { applyUpdateData body f with winner := w }
  | none => applyUpdateData body f

/-- The winner known to `updateFixture` when it reaches the propagation step:
the one sent or derived from the request, else the one derived from the
stored scores. -/
def knownWinner (body : UpdateBody) (found : Fixture) : Option Id :=
  match secondPass (updateDataWinner body).truthy (applyUpdateData body found) with
  | some w => w
  | none => (updateDataWinner body).truthy

/-- The write `updateFixture` makes to one stored fixture `x`: the update of
the fixture `fixtureId`, then the slot of the propagation target
(`target` is its id and the winner, `matchIndex` that of the updated fixture). -/
def updateStep (fixtureId : Id) (body : UpdateBody) (derived : Option (Option Id))
    (target : Option (Id × Id)) (matchIndex : Nat) (x : Fixture) : Fixture :=
  let y := if x.id = fixtureId then finishUpdate body derived x else x
  match target with
  | some (nextId, w) => if y.id = nextId then setSlot matchIndex w y else y
  | none => y

/-- The propagation target of an update of `found`: id of the first stored
fixture matching `nextFilter`, and the known winner. -/
def propagationTarget (store : Store) (body : UpdateBody) (found : Fixture) : Option (Id × Id) :=
  match knownWinner body found with
  | some w => (store.find? (nextFilter found)).map fun nextFix => (nextFix.id, w)
  | none => none

/-- The winner agrees with the stored scores: whenever both scores are stored
and differ, the stored winner is the side that scored more. -/
def WinnerConsistent (f : Fixture) : Prop :=
  match f.scoreA, f.scoreB with
  | some a, some b => a ≠ b → f.winner = if a > b then f.teamA else f.teamB
  | _, _ => True

instance (f : Fixture) : Decidable (WinnerConsistent f) := by
  unfold WinnerConsistent; split <;> infer_instance

/-- Example store: a first-round fixture at `(0, 3)` between teams `10` and `20`. -/
def sampleMatch : Fixture :=
  { id := 1, tournament := 5, event := some 6, round := 0, roundName := "Semi-Final"
    matchIndex := 3, teamA := some 10, teamB := some 20, scheduledAt := none
    status := some Status.scheduled, scoreA := none, scoreB := none, winner := none
    notes := none, phase := some Phase.ko }

/-- Example store: the next-round fixture at `(1, 1)`, both sides still open. -/
def sampleNext : Fixture :=
  { id := 2, tournament := 5, event := some 6, round := 1, roundName := "Final"
    matchIndex := 1, teamA := none, teamB := none, scheduledAt := none
    status := some Status.scheduled, scoreA := none, scoreB := none, winner := none
    notes := none, phase := some Phase.ko }

/-- The example store. -/
def sampleStore : Store := [sampleMatch, sampleNext]

/-! ## Standings -/

/-- A row of the standings table. -/
structure Standing where
  teamId : Id
  played : Nat
  won : Nat
  draw : Nat
  lost : Nat
  goalsFor : Int
  goalsAgainst : Int
  points : Nat
  deriving DecidableEq

/-- The record `ensure` creates. -/
def Standing.zero (id : Id) : Standing :=
  { teamId := id, played := 0, won := 0, draw := 0, lost := 0, goalsFor := 0
    goalsAgainst := 0, points := 0 }

/-- Goal difference `goalsFor - goalsAgainst`. -/
def Standing.goalDiff (s : Standing) : Int := s.goalsFor - s.goalsAgainst

/-- The helper `ensure(id)`: nothing for a falsy id, else create the record
if the `stats` map has none (new keys come last in `Object.values`). -/
def ensure (stats : List Standing) (id : Option Id) : List Standing :=
  match id with
  | none => stats
  | some i => if stats.any (fun s => s.teamId = i) then stats else stats ++ [Standing.zero i]

/-- The amounts one statement `stats[id].field += n` adds to a record; the
fields it does not name are left as they are (zero is added). -/
structure Delta where
  played : Nat := 0
  won : Nat := 0
  draw : Nat := 0
  lost : Nat := 0
  goalsFor : Int := 0
  goalsAgainst : Int := 0
  points : Nat := 0
  deriving DecidableEq

/-- Field by field sum of two increments. -/
def Delta.plus (x y : Delta) : Delta :=
  { played := x.played + y.played
    won := x.won + y.won
    draw := x.draw + y.draw
    lost := x.lost + y.lost
    goalsFor := x.goalsFor + y.goalsFor
    goalsAgainst := x.goalsAgainst + y.goalsAgainst
    points := x.points + y.points }

/-- A record after an increment. -/
def Standing.add (s : Standing) (x : Delta) : Standing :=
  { s with
    played := s.played + x.played
    won := s.won + x.won
    draw := s.draw + x.draw
    lost := s.lost + x.lost
    goalsFor := s.goalsFor + x.goalsFor
    goalsAgainst := s.goalsAgainst + x.goalsAgainst
    points := s.points + x.points }

/-- Run one statement `stats[id].field += n` on the `stats` map. -/
def bump (stats : List Standing) (op : Id × Delta) : List Standing :=
  stats.map fun s => if s.teamId = op.1 then s.add op.2 else s

/-- The statements `stats[..].field += ..` that `getStandings` runs for a
fixture `a` against `b` scored `sA : sB`, in source order. -/
def increments (a b : Id) (sA sB : Int) : List (Id × Delta) :=
  [(a, { played := 1 }), (b, { played := 1 }),
   (a, { goalsFor := sA }), (a, { goalsAgainst := sB }),
   (b, { goalsFor := sB }), (b, { goalsAgainst := sA })] ++
  (if sA = sB then
    [(a, { draw := 1 }), (b, { draw := 1 }), (a, { points := 1 }), (b, { points := 1 })]
  else if sA > sB then
    [(a, { won := 1 }), (b, { lost := 1 }), (a, { points := 3 })]
  else
    [(b, { won := 1 }), (a, { lost := 1 }), (b, { points := 3 })])

/-- The body of `fixtures.forEach((fx) => ...)` in `getStandings`: skip a
fixture without a result, `ensure` both sides, skip when a side is missing,
then run the increments. -/
def tally (stats : List Standing) (fx : Fixture) : List Standing :=
  match fx.scoreA, fx.scoreB with
  | some sA, some sB =>
    let stats := ensure (ensure stats fx.teamA) fx.teamB
    match fx.teamA, fx.teamB with
    | some a, some b => (increments a b sA sB).foldl bump stats
    | _, _ => stats
  | _, _ => stats

/-- The value of the sort comparator of `getStandings` on `(x, y)`. -/
def standingsCompare (x y : Standing) : Int :=
  if (y.points : Int) ≠ (x.points : Int) then (y.points : Int) - (x.points : Int)
  else y.goalDiff - x.goalDiff

/-- The order the comparator asks for: `x` may stand before `y`. -/
def rankedBefore (x y : Standing) : Prop := standingsCompare x y ≤ 0

instance : DecidableRel rankedBefore := fun x y => by
  unfold rankedBefore; infer_instance

/-- `Object.values(stats).sort(comparator)`: the sort is stable and the
comparator is a consistent ordering, so the result is the stable sort. -/
def sortStandings (stats : List Standing) : List Standing :=
  stats.insertionSort rankedBefore

/-- The standings computed by `getStandings` from the fixtures its query found. -/
def computeStandings (fixtures : List Fixture) : List Standing :=
  sortStandings (fixtures.foldl tally [])

/-- The query filter of `getStandings`: tournament, the event when one is
given, and for an event whose `matchType` is `"round-robin-knockout"` only
fixtures tagged `rr` or without a phase. -/
def standingsFilter (tournamentId : Id) (eventId : Option Id) (matchType : Option String)
    (f : Fixture) : Bool :=
  decide (f.tournament = tournamentId) &&
    (match eventId with
      | some e =>
        decide (f.event = some e) &&
          (if matchType = some "round-robin-knockout" then
            decide (f.phase = some Phase.rr ∨ f.phase = none)
          else true)
      | none => true)

/-- The controller `getStandings`; `matchType` is the match type of the event
document, when the event exists. -/
def getStandings (store : Store) (tournamentId : Id) (eventId : Option Id)
    (matchType : Option String) : List Standing :=
  computeStandings (store.filter (standingsFilter tournamentId eventId matchType))

/-- What one result adds to a side's record: `own` goals scored, `opp`
conceded, three points for a win and one for a draw. -/
def credit (own opp : Int) : Delta :=
  { played := 1
    won := if own > opp then 1 else 0
    draw := if own = opp then 1 else 0
    lost := if own < opp then 1 else 0
    goalsFor := own
    goalsAgainst := opp
    points := if own > opp then 3 else if own = opp then 1 else 0 }

/-- What fixture `fx` adds to the record of participant `p`: one `credit`
for each side of `fx` that `p` occupies, nothing unless both scores and both
teams are present. -/
def fixtureDelta (p : Id) (fx : Fixture) : Delta :=
  match fx.scoreA, fx.scoreB, fx.teamA, fx.teamB with
  | some sA, some sB, some a, some b =>
    (if a = p then credit sA sB else {}).plus (if b = p then credit sB sA else {})
  | _, _, _, _ => {}

/-- Sum of what the fixtures `fs` add to the record of participant `p`. -/
def totalDelta (p : Id) : List Fixture → Delta
  | [] => {}
  | fx :: fs => (fixtureDelta p fx).plus (totalDelta p fs)

/-- The record of participant `p` after the fixtures `fs`. -/
def recordOf (p : Id) (fs : List Fixture) : Standing :=
  (Standing.zero p).add (totalDelta p fs)

/-- Fixture `fx` counts for participant `p`: both scores and both teams are
present and `p` is one of the teams. -/
def countsFor (p : Id) (fx : Fixture) : Bool :=
  fx.scoreA ≠ none ∧ fx.scoreB ≠ none ∧ fx.teamA ≠ none ∧ fx.teamB ≠ none ∧
    (fx.teamA = some p ∨ fx.teamB = some p)

/-- The score of participant `p` in fixture `fx`. -/
def ownScore (p : Id) (fx : Fixture) : Int :=
  if fx.teamA = some p then fx.scoreA.getD 0 else fx.scoreB.getD 0

/-- The score of the opponent of participant `p` in fixture `fx`. -/
def oppScore (p : Id) (fx : Fixture) : Int :=
  if fx.teamA = some p then fx.scoreB.getD 0 else fx.scoreA.getD 0

/-- The record `rec` is the tally of the fixtures of `fs` that count for its
participant: number played, goals for and against, wins, draws, losses, and
three points a win plus one a draw. -/
def RecordMatches (fs : List Fixture) (rec : Standing) : Prop :=
  rec.played = (fs.filter (countsFor rec.teamId)).length ∧
  rec.goalsFor = ((fs.filter (countsFor rec.teamId)).map (ownScore rec.teamId)).sum ∧
  rec.goalsAgainst = ((fs.filter (countsFor rec.teamId)).map (oppScore rec.teamId)).sum ∧
  rec.won = (fs.filter (countsFor rec.teamId)).countP
    (fun fx => ownScore rec.teamId fx > oppScore rec.teamId fx) ∧
  rec.draw = (fs.filter (countsFor rec.teamId)).countP
    (fun fx => ownScore rec.teamId fx = oppScore rec.teamId fx) ∧
  rec.lost = (fs.filter (countsFor rec.teamId)).countP
    (fun fx => ownScore rec.teamId fx < oppScore rec.teamId fx) ∧
  rec.points = 3 * rec.won + 1 * rec.draw

instance (fs : List Fixture) (rec : Standing) : Decidable (RecordMatches fs rec) := by
  unfold RecordMatches; infer_instance

/-- A fixture whose two sides are the same participant, scored 2 - 1. -/
def selfMatch : Fixture :=
  { id := 3, tournament := 5, event := some 6, round := 1, roundName := "Matchday 2"
    matchIndex := 0, teamA := some 10, teamB := some 10, scheduledAt := none
    status := some Status.completed, scoreA := some 2, scoreB := some 1, winner := some 10
    notes := none, phase := some Phase.rr }

/-- Sum of the increments in `ops` addressed to record `k`. -/
def opsTotal (k : Id) : List (Id × Delta) → Delta
  | [] => {}
  | op :: ops => (if op.1 = k then op.2 else {}).plus (opsTotal k ops)

/-- The `stats` map once `getStandings` has run `ensure` for fixture `fx`. -/
def ensured (stats : List Standing) (fx : Fixture) : List Standing :=
  match fx.scoreA, fx.scoreB with
  | some _, some _ => ensure (ensure stats fx.teamA) fx.teamB
  | _, _ => stats

/-- The `stats` map is the table of the fixtures `hist`: one record per key,
each the record of its participant, no results for participants without a
record, and a record for every side of a fixture with a result. -/
def Tracks (stats : List Standing) (hist : List Fixture) : Prop :=
  (stats.map fun s => s.teamId).Nodup ∧
  (∀ s ∈ stats, s = recordOf s.teamId hist) ∧
  (∀ p, p ∉ (stats.map fun s => s.teamId) → totalDelta p hist = {}) ∧
  (∀ fx ∈ hist, fx.scoreA ≠ none → fx.scoreB ≠ none →
    ∀ p, fx.teamA = some p ∨ fx.teamB = some p → p ∈ stats.map fun s => s.teamId)

/-- Example rows with points 6, 6, 3 and goal differences +2, +5, 0. -/
def sampleRows : List Standing :=
  [{ teamId := 1, played := 3, won := 2, draw := 0, lost := 1, goalsFor := 4
     goalsAgainst := 2, points := 6 },
   { teamId := 2, played := 3, won := 2, draw := 0, lost := 1, goalsFor := 7
     goalsAgainst := 2, points := 6 },
   { teamId := 3, played := 3, won := 1, draw := 0, lost := 2, goalsFor := 2
     goalsAgainst := 2, points := 3 }]

instance : IsTotal Standing rankedBefore :=
  ⟨fun x y => by unfold rankedBefore standingsCompare; split_ifs <;> omega⟩

instance : IsTrans Standing rankedBefore :=
  ⟨fun x y z => by unfold rankedBefore standingsCompare; split_ifs <;> omega⟩

/-! ## Seeding, generation on the store and the qualification bridge -/

/-- The seeding loop `while (l <= r)` of `generateKnockoutFromStandings`: push
`qualifiedIds[l]`, then `qualifiedIds[r]` unless `l === r`, and step both
indices (the indices stay in range, so no `undefined` is pushed). -/
def seedLoop (qualifiedIds : List Id) (l : Nat) (r : Int) (participantsArr : List Id) :
    List Id :=
  if (l : Int) ≤ r then
    let arr := participantsArr ++ (qualifiedIds[l]?).toList
    let arr := if (l : Int) ≠ r then arr ++ (qualifiedIds[r.toNat]?).toList else arr
    seedLoop qualifiedIds (l + 1) (r - 1) arr
  else participantsArr
termination_by (r + 1 - l).toNat
decreasing_by omega

/-- The bracket order of the qualifiers: `l = 0`, `r = qualifiedIds.length - 1`. -/
def seedOrder (qualifiedIds : List Id) : List Id :=
  seedLoop qualifiedIds 0 ((qualifiedIds.length : Int) - 1) []

/-- What the seeding loop pushes from index `l` on while `n` seeds remain:
front, back, then the same one step inwards. -/
def weave (q : List Id) (l : Nat) : Nat → List Id
  | 0 => []
  | 1 => (q[l]?).toList
  | n + 2 => (q[l]?).toList ++ (q[l + n + 1]?).toList ++ weave q (l + 1) n

/-- JavaScript `s.includes(pat)`. -/
def includes (s pat : String) : Bool :=
  s.toList.tails.any fun t => pat.toList.isPrefixOf t

/-- JavaScript `s.toLowerCase()`, on ASCII letters. -/
def toLowerCase (s : String) : String := String.mk (s.toList.map Char.toLower)

/-- The paths of an event document the fixture controller reads. -/
structure Event where
  eventType2 : String
  matchType : Option String
  deriving DecidableEq

/-- What the other collections answer to one request: the teams of the
tournament (`none`: tournament not found), the event document (`none`: not
found), and the entrants of the event of either kind. -/
structure Lookups where
  tournamentTeams : Option (List Id)
  event : Option Event
  individuals : List Id
  groups : List Id
  deriving DecidableEq

/-- Outcome of a generation request: the `success` flag, the fixtures sent
back, and the store afterwards. -/
structure GenerateResult where
  success : Bool
  fixtures : List Fixture
  store : Store
  deriving DecidableEq

/-- The stored fixture `insertMany` makes of a document: schema defaults for
the paths the document leaves out, `scheduledAt` the time of insertion, and no
`phase`, a key of the document that is not a path of the schema. -/
def FixtureDoc.toFixture (d : FixtureDoc) (id : Id) (now : Nat) : Fixture :=
  { id := id
    tournament := d.tournament
    event := d.event
    round := d.round
    roundName := d.roundName
    matchIndex := d.matchIndex
    teamA := d.teamA
    teamB := d.teamB
    scheduledAt := some now
    status := some d.status
    scoreA := none
    scoreB := none
    winner := none
    notes := none
    phase := none }

/-- `Fixture.insertMany(docs)`: the document at index `i` gets the new id
`freshId i`. The first argument is the index of the first document. -/
def insertManyFrom (freshId : Nat → Id) (now : Nat) : Nat → List FixtureDoc → List Fixture
  | _, [] => []
  | i, d :: ds => d.toFixture (freshId i) now :: insertManyFrom freshId now (i + 1) ds

/-- `Fixture.insertMany(docs)`. -/
def insertMany (docs : List FixtureDoc) (freshId : Nat → Id) (now : Nat) : List Fixture :=
  insertManyFrom freshId now 0 docs

/-- The filter `{ tournament: tournamentId, ...(eventId ? { event: eventId } : {}) }`. -/
def scopeFilter (tournamentId : Id) (eventId : Option Id) (f : Fixture) : Bool :=
  decide (f.tournament = tournamentId) &&
    (match eventId with
      | some e => decide (f.event = some e)
      | none => true)

/-- The filter `$or: [{ phase: "rr" }, { phase: { $exists: false } }, { phase: null }]`. -/
def rrOrLegacy (f : Fixture) : Bool :=
  decide (f.phase = some Phase.rr) || decide (f.phase = none)

/-- `Fixture.deleteMany(filter)`. -/
def deleteMany (store : Store) (filter : Fixture → Bool) : Store :=
  store.filter fun f => !filter f

/-- The participants `generateFixtures` works with: the entrants of the event
by its kind, else the teams of the tournament; `none` when an event id is
given and the event is not found. -/
def resolveParticipants (eventId : Option Id) (env : Lookups) (teams : List Id) :
    Option (List Id) :=
  let fromEvent : Option (List Id) :=
    match eventId with
    | some _ =>
      match env.event with
      | none => none
      | some event =>
        if event.eventType2 = "individual" then some env.individuals
        else if event.eventType2 = "group" then some env.groups
        else some []
    | none => some []
  fromEvent.map fun participants => if participants.length = 0 then teams else participants

/-- The value `evtMatchType`: the match type of the event in lower case. -/
def evtMatchType (eventId : Option Id) (env : Lookups) : Option String :=
  match eventId with
  | some _ => (env.event.bind fun event => event.matchType).map toLowerCase
  | none => none

/-- The flag `isRoundRobin`. -/
def isRoundRobin (eventId : Option Id) (env : Lookups) : Bool :=
  match evtMatchType eventId env with
  | some m => includes m "round-robin"
  | none => false

/-- The flag `isHybridRRKO`. -/
def isHybridRRKO (eventId : Option Id) (env : Lookups) : Bool :=
  decide (evtMatchType eventId env = some "round-robin-knockout")

/-- The controller `generateFixtures`. `shuffle` is what the sort with the
random comparator makes of the participants in this call, `freshId` and `now`
the ids and the clock `insertMany` uses. -/
def generateFixtures (store : Store) (tournamentId : Id) (eventId : Option Id) (force : Bool)
    (env : Lookups) (shuffle : List Id → List Id) (freshId : Nat → Id) (now : Nat) :
    GenerateResult :=
  match env.tournamentTeams with
  | none => { success := false, fixtures := [], store := store }
  | some teams =>
    match resolveParticipants eventId env teams with
    | none => { success := false, fixtures := [], store := store }
    | some participants =>
      if participants.length < 2 then { success := false, fixtures := [], store := store }
      else if isRoundRobin eventId env then
        let store₁ :=
          if force then
            deleteMany store fun f =>
              scopeFilter tournamentId eventId f && decide (f.phase = some Phase.ko)
          else store
        let store₂ := deleteMany store₁ fun f => scopeFilter tournamentId eventId f && rrOrLegacy f
        let insert := fun (store₃ : Store) =>
          let created :=
            insertMany (roundRobinDocs tournamentId eventId participants) freshId now
          ({ success := true, fixtures := created, store := store₃ ++ created } : GenerateResult)
        if isHybridRRKO eventId env then
          let existingRRFixtures := store₂.filter fun f =>
            decide (f.tournament = tournamentId) && decide (f.event = eventId) &&
              decide (f.phase = some Phase.rr)
          if existingRRFixtures.length > 0 then
            if !force then
              { success := true, fixtures := existingRRFixtures, store := store₂ }
            else
              insert (deleteMany store₂ fun f =>
                decide (f.tournament = tournamentId) && decide (f.event = eventId) &&
                  decide (f.phase = some Phase.rr))
          else insert store₂
        else insert (deleteMany store₂ (scopeFilter tournamentId eventId))
      else
        let store₁ := deleteMany store (scopeFilter tournamentId eventId)
        let created :=
          insertMany (knockoutDocs tournamentId eventId (shuffle participants)) freshId now
        { success := true, fixtures := created, store := store₁ ++ created }

/-- A stored fixture without what `insertMany` generates: the `_id` and the
insertion time. -/
def Fixture.content (f : Fixture) : Fixture := { f with id := 0, scheduledAt := none }

/-- Fixture `f` lies in the scope `(tournamentId, eventId)`. -/
def inScope (tournamentId : Id) (eventId : Option Id) (f : Fixture) : Bool :=
  decide (f.tournament = tournamentId) && decide (f.event = eventId)

/-- Within one phase the fixtures have pairwise different `(round, matchIndex)`. -/
def UniqueIndex (fixtures : List Fixture) : Prop :=
  fixtures.Pairwise fun f g =>
    f.phase = g.phase → ¬ (f.round = g.round ∧ f.matchIndex = g.matchIndex)

instance (fixtures : List Fixture) : Decidable (UniqueIndex fixtures) := by
  unfold UniqueIndex; infer_instance

/-- The statements `stats[..].field += ..` of the standings computed inside
`generateKnockoutFromStandings`, in source order. -/
def bridgeIncrements (a b : Id) (sA sB : Int) : List (Id × Delta) :=
  [(a, { played := 1 }), (b, { played := 1 }),
   (a, { goalsFor := sA }), (a, { goalsAgainst := sB }),
   (b, { goalsFor := sB }), (b, { goalsAgainst := sA })] ++
  (if sA = sB then
    [(a, { draw := 1 }), (b, { draw := 1 }), (a, { points := 1 }), (b, { points := 1 })]
  else if sA > sB then
    [(a, { won := 1 }), (b, { lost := 1 }), (a, { points := 3 })]
  else
    [(b, { won := 1 }), (a, { lost := 1 }), (b, { points := 3 })])

/-- The body of `rrFixtures.forEach((fx) => ...)` in
`generateKnockoutFromStandings`. -/
def bridgeTally (stats : List Standing) (fx : Fixture) : List Standing :=
  match fx.scoreA, fx.scoreB with
  | some sA, some sB =>
    let stats := ensure (ensure stats fx.teamA) fx.teamB
    match fx.teamA, fx.teamB with
    | some a, some b => (bridgeIncrements a b sA sB).foldl bump stats
    | _, _ => stats
  | _, _ => stats

/-- The value of the one-line comparator
`y.points - x.points || (y.goalsFor - y.goalsAgainst) - (x.goalsFor - x.goalsAgainst)`. -/
def bridgeCompare (x y : Standing) : Int :=
  if (y.points : Int) - (x.points : Int) ≠ 0 then (y.points : Int) - (x.points : Int)
  else (y.goalsFor - y.goalsAgainst) - (x.goalsFor - x.goalsAgainst)

/-- The order the one-line comparator asks for. -/
def bridgeBefore (x y : Standing) : Prop := bridgeCompare x y ≤ 0

instance : DecidableRel bridgeBefore := fun x y => by
  unfold bridgeBefore; infer_instance

/-- The ranked list `standings` of `generateKnockoutFromStandings`. -/
def bridgeStandings (rrFixtures : List Fixture) : List Standing :=
  (rrFixtures.foldl bridgeTally []).insertionSort bridgeBefore

/-- The query `rrFixtures`: fixtures of the event tagged `rr` or without a phase. -/
def rrFixturesOf (store : Store) (tournamentId eventId : Id) : List Fixture :=
  store.filter fun f =>
    decide (f.tournament = tournamentId) && decide (f.event = some eventId) && rrOrLegacy f

/-- The query `lastRR`: of the fixtures of the event tagged `rr`, the first one
with the highest round. -/
def lastRR (store : Store) (tournamentId eventId : Id) : Option Fixture :=
  (store.filter fun f =>
      decide (f.tournament = tournamentId) && decide (f.event = some eventId) &&
        decide (f.phase = some Phase.rr)).foldl
    (fun best f =>
      match best with
      | none => some f
      | some b => if f.round > b.round then some f else some b)
    none

/-- The value `startRound`. -/
def startRoundOf (store : Store) (tournamentId eventId : Id) : Nat :=
  match lastRR store tournamentId eventId with
  | some f => f.round + 1
  | none => 0

/-- The hybrid test of `generateKnockoutFromStandings`:
`event.matchType?.includes("round-robin") && event.matchType?.includes("knockout")`. -/
def isRRKO (event : Event) : Bool :=
  match event.matchType with
  | some m => includes m "round-robin" && includes m "knockout"
  | none => false

/-- The controller `generateKnockoutFromStandings`; `event` is the event
document (`none`: not found), `qualifiers` the number of qualifiers asked for. -/
def generateKnockoutFromStandings (store : Store) (tournamentId eventId : Id)
    (qualifiers : Nat) (event : Option Event) (freshId : Nat → Id) (now : Nat) :
    GenerateResult :=
  match event with
  | none => { success := false, fixtures := [], store := store }
  | some event =>
    if !isRRKO event then { success := false, fixtures := [], store := store }
    else
      let rrFixtures := rrFixturesOf store tournamentId eventId
      if rrFixtures.length = 0 then { success := false, fixtures := [], store := store }
      else
        let standings := bridgeStandings rrFixtures
        let qualifiedIds := (standings.take qualifiers).map fun s => s.teamId
        if qualifiedIds.length < 2 then { success := false, fixtures := [], store := store }
        else
          let startRound := startRoundOf store tournamentId eventId
          let store₁ := deleteMany store fun f =>
            decide (f.tournament = tournamentId) && decide (f.event = some eventId) &&
              decide (f.round ≥ startRound) && decide (f.phase = some Phase.ko)
          let participantsArr := seedOrder qualifiedIds
          let created :=
            insertMany
              (knockoutFromStandingsDocs tournamentId (some eventId) startRound participantsArr)
              freshId now
          { success := true, fixtures := created, store := store₁ ++ created }

/-- Example event: a hybrid event of individual entrants. -/
def hybridEvent : Event := { eventType2 := "individual", matchType := some "round-robin-knockout" }

/-- Example lookups: tournament `5` without teams of its own, the hybrid event
with the two entrants `1` and `2`. -/
def hybridEnv : Lookups :=
  { tournamentTeams := some [], event := some hybridEvent, individuals := [1, 2], groups := [] }

/-- Example: the round-robin fixture of entrants `1` and `2` in tournament `5`,
event `6`, with the result 2 : 1 entered. -/
def rrPlayed : Fixture :=
  { id := 100, tournament := 5, event := some 6, round := 0, roundName := "Matchday 1"
    matchIndex := 0, teamA := some 1, teamB := some 2, scheduledAt := some 0
    status := some Status.completed, scoreA := some 2, scoreB := some 1, winner := some 1
    notes := none, phase := some Phase.rr }

/-- Example: a scored fixture of tournament `5`, event `6`, without a `phase`
(a legacy record). -/
def legacyFixture (id round : Nat) (teamA teamB : Id) (scoreA scoreB : Int) : Fixture :=
  { id := id, tournament := 5, event := some 6, round := round
    roundName := "Matchday " ++ toString (round + 1)
    matchIndex := 0, teamA := some teamA, teamB := some teamB, scheduledAt := some 0
    status := some Status.completed, scoreA := some scoreA, scoreB := some scoreB
    winner := none, notes := none, phase := none }

/-- Example store: a played round robin of three entrants over the rounds
`0, 1, 2`, stored without `phase`. -/
def legacyStore : Store :=
  [legacyFixture 100 0 1 2 2 0, legacyFixture 101 1 3 1 0 1, legacyFixture 102 2 2 3 1 1]

/-- Example: a scored knockout fixture of tournament `5`, event `6`. -/
def koPlayed : Fixture :=
  { id := 300, tournament := 5, event := some 6, round := 1, roundName := "Final"
    matchIndex := 0, teamA := some 1, teamB := some 2, scheduledAt := some 0
    status := some Status.completed, scoreA := some 0, scoreB := some 4, winner := some 2
    notes := none, phase := some Phase.ko }

/-- The documents a successful `generateFixtures` inserts. -/
def generatedDocs (tournamentId : Id) (eventId : Option Id) (env : Lookups)
    (participants : List Id) (shuffle : List Id → List Id) : List FixtureDoc :=
  if isRoundRobin eventId env then roundRobinDocs tournamentId eventId participants
  else knockoutDocs tournamentId eventId (shuffle participants)

/-! ## Examples and vocabulary for repeated requests, bracket contents and the tables -/

/-- Example store: the example fixture at `(0, 3)` with the result 3 : 1 entered
and team `20` named the winner, and the next-round fixture holding `20`. -/
def awardedStore : Store :=
  [{ sampleMatch with scoreA := some 3, scoreB := some 1, winner := some 20 },
   { sampleNext with teamB := some 20 }]

/-- Example: a round-robin fixture of tournament `5`, event `6`, as `insertMany`
stores it. -/
def rrFixture (id round matchIndex : Nat) (teamA teamB : Id) (scoreA scoreB : Option Int) :
    Fixture :=
  { id := id, tournament := 5, event := some 6, round := round
    roundName := "Matchday " ++ toString (round + 1)
    matchIndex := matchIndex, teamA := some teamA, teamB := some teamB, scheduledAt := some 0
    status := some Status.scheduled, scoreA := scoreA, scoreB := scoreB
    winner := none, notes := none, phase := none }

/-- Example store: the round robin of the entrants `1, 2, 3` with two results
entered and the fixture `2 v 3` still to play. -/
def partialStore : Store :=
  [rrFixture 100 0 1 2 3 none none, rrFixture 101 1 0 1 3 (some 1) (some 0),
   rrFixture 102 2 0 1 2 (some 2) (some 0)]

/-- Example lookups: a round-robin event with the four entrants `1, 2, 3, 4`. -/
def rrEnv : Lookups :=
  { tournamentTeams := some []
    event := some { eventType2 := "individual", matchType := some "round-robin" }
    individuals := [1, 2, 3, 4], groups := [] }

/-- Example store: the round-robin schedule `generateFixtures` makes of the
four entrants, with the ids `100 .. 105`. -/
def rrSchedule : Store :=
  [rrFixture 100 0 0 1 4 none none, rrFixture 101 0 1 2 3 none none,
   rrFixture 102 1 0 1 3 none none, rrFixture 103 1 1 4 2 none none,
   rrFixture 104 2 0 1 2 none none, rrFixture 105 2 1 3 4 none none]

/-- The stored fixture `f` is the meeting of `p` and `q`, in either order. -/
def meets (p q : Id) (f : Fixture) : Bool :=
  (decide (f.teamA = some p) && decide (f.teamB = some q)) ||
    (decide (f.teamA = some q) && decide (f.teamB = some p))

/-- Example: the played round-robin fixture `rrPlayed` as a stored document
without a `phase`. -/
def rrPlayedLegacy : Fixture := { rrPlayed with phase := none }

/-- Example store: the played round robin `legacyStore` followed by the Final
`1 v 3` of its two best entrants at round `0`, with the id `200`. -/
def bridgedStore : Store :=
  legacyStore ++
    [{ id := 200, tournament := 5, event := some 6, round := 0, roundName := "Final"
       matchIndex := 0, teamA := some 1, teamB := some 3, scheduledAt := some 9
       status := some Status.scheduled, scoreA := none, scoreB := none, winner := none
       notes := none, phase := none }]

/-- Participant `p` is a side of the document `d`. -/
def FixtureDoc.hasSide (p : Id) (d : FixtureDoc) : Bool :=
  decide (d.teamA = some p) || decide (d.teamB = some p)

/-- The round names of the bracket `docs` with last round `last` agree with the
round sizes: one name per round, "Final" names the last round and only it, and
the rounds named "Final", "Semi-Final", "Quarter-Final" and "Round of 16" hold
1, 2, 4 and 8 fixtures. -/
def RoundNamesMatch (docs : List FixtureDoc) (last : Nat) : Prop :=
  (∀ d ∈ docs, ∀ e ∈ docs, d.round = e.round → d.roundName = e.roundName) ∧
  (∀ d ∈ docs, d.round ≤ last) ∧
  (∀ d ∈ docs, d.roundName = "Final" ↔ d.round = last) ∧
  (docs.filter fun e => decide (e.round = last)).length = 1 ∧
  (∀ d ∈ docs, d.roundName = "Final" →
    (docs.filter fun e => decide (e.round = d.round)).length = 1) ∧
  (∀ d ∈ docs, d.roundName = "Semi-Final" →
    (docs.filter fun e => decide (e.round = d.round)).length = 2) ∧
  (∀ d ∈ docs, d.roundName = "Quarter-Final" →
    (docs.filter fun e => decide (e.round = d.round)).length = 4) ∧
  (∀ d ∈ docs, d.roundName = "Round of 16" →
    (docs.filter fun e => decide (e.round = d.round)).length = 8)

instance (docs : List FixtureDoc) (last : Nat) : Decidable (RoundNamesMatch docs last) := by
  unfold RoundNamesMatch; infer_instance

/-- The increment keeps `played = won + draw + lost` and
`points = 3 * won + draw`. -/
def Delta.Balanced (x : Delta) : Prop :=
  x.played = x.won + x.draw + x.lost ∧ x.points = 3 * x.won + x.draw

/-- Participant `p` has a record after the fixtures `fs`: it is a side of a
fixture with both scores entered. -/
def hasRecord (p : Id) (fs : List Fixture) : Prop :=
  ∃ fx ∈ fs, fx.scoreA ≠ none ∧ fx.scoreB ≠ none ∧ (fx.teamA = some p ∨ fx.teamB = some p)

/-- Position, in round `r`, of the element that starts at index `x` of the
circle array of length `m + 1`. -/
def roundPos (m r x : Nat) : Nat := if x = 0 then 0 else circlePos m r x

/-- The pairing index, in round `r`, of the element that starts at index `x`:
position `p` is paired in slot `p` or `m - p`. -/
def slotOf (m r x : Nat) : Nat :=
  if 2 * roundPos m r x < m then roundPos m r x else m - roundPos m r x

/-- Number of fixtures of round `r` in `docs` that participant `p` takes part in. -/
def appearances (docs : List FixtureDoc) (r : Nat) (p : Id) : Nat :=
  ((docs.filter fun d => decide (d.round = r)).filter (FixtureDoc.hasSide p)).length

/-! ## Theorems: round-robin schedule -/

theorem rotateKeepFirst_cons {α : Type} (a : α) (t : List α) :
    rotateKeepFirst (a :: t) = a :: t.rotate (t.length - 1) := by
  cases t with
  | nil => simp [rotateKeepFirst]
  | cons b u =>
    have hlen : (b :: u).length - 1 ≤ (b :: u).length := Nat.sub_le _ _
    rw [List.rotate_eq_drop_append_take hlen, ← List.dropLast_eq_take]
    have hd : List.drop ((b :: u).length - 1) (b :: u) = [(b :: u).getLast (by simp)] := by
      rw [List.drop_eq_getElem_cons (by simp), List.getLast_eq_getElem]
      simp
    rw [hd]
    simp [rotateKeepFirst, List.getLast?_eq_getLast]

theorem rrLoop_eq (tid : Id) (eid : Option Id) (k : Nat) (a : Option Id) (t : List (Option Id)) :
    ∀ (c r : Nat), r + c ≤ t.length →
      rrLoop tid eid k c r (a :: t.rotate (t.length - r)) =
        (List.range' r c).flatMap fun r' => rrRound tid eid (a :: t.rotate (t.length - r')) r' k := by
  intro c
  induction c with
  | zero => intro r _; simp [rrLoop]
  | succ c ih =>
    intro r hr
    have hrot : rotateKeepFirst (a :: t.rotate (t.length - r)) = a :: t.rotate (t.length - (r + 1)) := by
      rw [rotateKeepFirst_cons, List.rotate_rotate, List.length_rotate]
      congr 1
      rw [← List.rotate_mod]
      have : (t.length - r + (t.length - 1)) % t.length = (t.length - (r + 1)) % t.length := by
        have h1 : t.length - r + (t.length - 1) = (t.length - (r + 1)) + t.length := by omega
        rw [h1, Nat.add_mod_right]
      rw [this, List.rotate_mod]
    rw [rrLoop, hrot, ih (r + 1) (by omega)]
    simp [List.range'_succ]

theorem getElem?_round {α : Type} (a : α) (t : List α) (r p : Nat)
    (hr : r ≤ t.length) (hp : p ≤ t.length) :
    (a :: t.rotate (t.length - r))[p]? = (a :: t)[circleIdx t.length r p]? := by
  cases p with
  | zero => simp [circleIdx]
  | succ j =>
    have hj : j < t.length := hp
    rw [List.getElem?_cons_succ, List.getElem?_rotate hj]
    by_cases hjr : j + 1 ≤ r
    · have h1 : (j + (t.length - r)) % t.length = j + (t.length - r) :=
        Nat.mod_eq_of_lt (by omega)
      have h2 : circleIdx t.length r (j + 1) = (j + (t.length - r)) + 1 := by
        simp [circleIdx, hjr]; omega
      rw [h1, h2, List.getElem?_cons_succ]
    · have h1 : (j + (t.length - r)) % t.length = j - r := by
        have : j + (t.length - r) = (j - r) + t.length := by omega
        rw [this, Nat.add_mod_right]
        exact Nat.mod_eq_of_lt (by omega)
      have h2 : circleIdx t.length r (j + 1) = (j - r) + 1 := by
        simp [circleIdx, hjr]; omega
      rw [h1, h2, List.getElem?_cons_succ]

theorem circleIdx_spec (m r p : Nat) (hr : r ≤ m) (_hp : p ≤ m) :
    (p = 0 ∧ circleIdx m r p = 0) ∨ (0 < p ∧ p ≤ r ∧ circleIdx m r p + r = p + m) ∨
      (r < p ∧ circleIdx m r p + r = p) := by
  unfold circleIdx; split_ifs <;> omega

theorem circleIdx_inj (k r r' i i' : Nat) (hk : 1 ≤ k) (hr : r < 2 * k - 1) (hr' : r' < 2 * k - 1)
    (hi : i < k) (hi' : i' < k)
    (h : (circleIdx (2 * k - 1) r i = circleIdx (2 * k - 1) r' i' ∧
          circleIdx (2 * k - 1) r (2 * k - 1 - i) = circleIdx (2 * k - 1) r' (2 * k - 1 - i')) ∨
         (circleIdx (2 * k - 1) r i = circleIdx (2 * k - 1) r' (2 * k - 1 - i') ∧
          circleIdx (2 * k - 1) r (2 * k - 1 - i) = circleIdx (2 * k - 1) r' i')) :
    r = r' ∧ i = i' := by
  have h1 := circleIdx_spec (2 * k - 1) r i (by omega) (by omega)
  have h2 := circleIdx_spec (2 * k - 1) r (2 * k - 1 - i) (by omega) (by omega)
  have h3 := circleIdx_spec (2 * k - 1) r' i' (by omega) (by omega)
  have h4 := circleIdx_spec (2 * k - 1) r' (2 * k - 1 - i') (by omega) (by omega)
  generalize circleIdx (2 * k - 1) r i = a at *
  generalize circleIdx (2 * k - 1) r (2 * k - 1 - i) = b at *
  generalize circleIdx (2 * k - 1) r' i' = c at *
  generalize circleIdx (2 * k - 1) r' (2 * k - 1 - i') = d at *
  omega

theorem circleIdx_le (m r p : Nat) (hr : r ≤ m) (hp : p ≤ m) : circleIdx m r p ≤ m := by
  unfold circleIdx; split_ifs <;> omega

theorem circleIdx_ne (k r i : Nat) (hk : 1 ≤ k) (hr : r < 2 * k - 1) (hi : i < k) :
    circleIdx (2 * k - 1) r i ≠ circleIdx (2 * k - 1) r (2 * k - 1 - i) := by
  have h1 := circleIdx_spec (2 * k - 1) r i (by omega) (by omega)
  have h2 := circleIdx_spec (2 * k - 1) r (2 * k - 1 - i) (by omega) (by omega)
  omega

theorem circleIdx_circlePos (m r p : Nat) (hp1 : 1 ≤ p) (hp : p ≤ m) (hr : r < m) :
    circleIdx m r (circlePos m r p) = p := by
  unfold circleIdx circlePos; split_ifs <;> omega

/-- Every pair of indices is met in some slot of the circle schedule. -/
theorem circleIdx_surj (k p q : Nat) (hk : 1 ≤ k) (hpq : p < q) (hq : q ≤ 2 * k - 1) :
    ∃ r i, r < 2 * k - 1 ∧ i < k ∧
      ((circleIdx (2 * k - 1) r i = p ∧ circleIdx (2 * k - 1) r (2 * k - 1 - i) = q) ∨
       (circleIdx (2 * k - 1) r i = q ∧ circleIdx (2 * k - 1) r (2 * k - 1 - i) = p)) := by
  by_cases hp : p = 0
  · refine ⟨2 * k - 1 - q, 0, by omega, by omega, Or.inl ?_⟩
    subst hp
    refine ⟨by simp [circleIdx], ?_⟩
    unfold circleIdx; split_ifs <;> omega
  · -- both indices lie in the rotating part
    obtain ⟨r, hr, hsum⟩ : ∃ r, r < 2 * k - 1 ∧
        (2 * r + p + q = 2 * k - 1 ∨ 2 * r + p + q = 2 * (2 * k - 1) ∨
          2 * r + p + q = 3 * (2 * k - 1)) := by
      by_cases hpar : (p + q) % 2 = 0
      · exact ⟨(2 * (2 * k - 1) - (p + q)) / 2, by omega, by omega⟩
      · by_cases hs : p + q ≤ 2 * k - 1
        · exact ⟨(2 * k - 1 - (p + q)) / 2, by omega, by omega⟩
        · exact ⟨(3 * (2 * k - 1) - (p + q)) / 2, by omega, by omega⟩
    have hcp := circleIdx_circlePos (2 * k - 1) r p (by omega) (by omega) hr
    have hcq := circleIdx_circlePos (2 * k - 1) r q (by omega) hq hr
    have hxy : circlePos (2 * k - 1) r p + circlePos (2 * k - 1) r q = 2 * k - 1 := by
      unfold circlePos; split_ifs <;> omega
    by_cases hxk : circlePos (2 * k - 1) r p < k
    · refine ⟨r, circlePos (2 * k - 1) r p, hr, hxk, Or.inl ⟨hcp, ?_⟩⟩
      have hy' : 2 * k - 1 - circlePos (2 * k - 1) r p = circlePos (2 * k - 1) r q := by omega
      rw [hy', hcq]
    · refine ⟨r, circlePos (2 * k - 1) r q, hr, by omega, Or.inr ⟨hcq, ?_⟩⟩
      have hx' : 2 * k - 1 - circlePos (2 * k - 1) r q = circlePos (2 * k - 1) r p := by omega
      rw [hx', hcp]

theorem rrRound_rotate (tid : Id) (eid : Option Id) (k : Nat) (a : Option Id)
    (t : List (Option Id)) (r : Nat) (hk : k ≤ t.length) (hr : r ≤ t.length) :
    rrRound tid eid (a :: t.rotate (t.length - r)) r k =
      (List.range k).filterMap (slotDoc tid eid (a :: t) t.length r) := by
  unfold rrRound
  apply List.filterMap_congr
  intro i hi
  have hi' : i < k := List.mem_range.mp hi
  have hlen : (a :: t.rotate (t.length - r)).length - 1 - i = t.length - i := by
    simp [List.length_rotate]
  simp only [hlen, slotDoc]
  rw [getElem?_round a t r i hr (by omega), getElem?_round a t r (t.length - i) hr (by omega)]

/-- Closed form of the round-robin loop: round `r` reads the starting array
through `circleIdx`. -/
theorem rrLoop_closed (tid : Id) (eid : Option Id) (arr : List (Option Id)) (k : Nat)
    (hk : 1 ≤ k) (hlen : arr.length = 2 * k) :
    rrLoop tid eid k (2 * k - 1) 0 arr =
      (List.range (2 * k - 1)).flatMap fun r =>
        (List.range k).filterMap (slotDoc tid eid arr (2 * k - 1) r) := by
  match arr, hlen with
  | [], hlen => simp at hlen; omega
  | a :: t, hlen =>
    have ht : t.length = 2 * k - 1 := by simp at hlen; omega
    have h0 : a :: t = a :: t.rotate (t.length - 0) := by simp [List.rotate_length]
    conv_lhs => rw [h0, ← ht]
    rw [rrLoop_eq tid eid k a t t.length 0 (by omega), List.range_eq_range', ← ht]
    apply List.flatMap_congr
    intro r hr
    have hr' : r < t.length := by
      have := List.mem_range'.mp hr
      omega
    exact rrRound_rotate tid eid k a t r (by omega) (by omega)

theorem rrArray_length (ps : List Id) : (rrArray ps).length = ps.length + ps.length % 2 := by
  unfold rrArray
  simp only [List.length_map]
  split_ifs with h <;> simp <;> omega

theorem rrArray_getElem?_lt (ps : List Id) (j : Nat) (hj : j < ps.length) :
    (rrArray ps)[j]? = some (some ps[j]) := by
  unfold rrArray
  simp only [List.length_map]
  split_ifs with h
  · rw [List.getElem?_append_left (by simpa using hj)]; simp [hj]
  · simp [hj]

theorem rrArray_getElem?_null (ps : List Id) (j : Nat) :
    (rrArray ps)[j]? = some none ↔ ps.length % 2 = 1 ∧ j = ps.length := by
  by_cases hj : j < ps.length
  · rw [rrArray_getElem?_lt ps j hj]; simp; omega
  · unfold rrArray
    simp only [List.length_map]
    split_ifs with h
    · rw [List.getElem?_append_right (by simpa using hj)]
      simp only [List.length_map]
      by_cases hj' : j = ps.length
      · simp [hj', h]
      · have : j - ps.length ≠ 0 := by omega
        constructor
        · intro h'
          rcases hjj : j - ps.length with _ | n
          · omega
          · rw [hjj] at h'; simp at h'
        · intro h'; omega
    · have : (List.map some ps)[j]? = none := by
        apply List.getElem?_eq_none; simp; omega
      rw [this]; simp; omega

theorem roundRobinDocs_closed (tid : Id) (eid : Option Id) (ps : List Id) (hN : 2 ≤ ps.length) :
    roundRobinDocs tid eid ps =
      (List.range ((rrArray ps).length - 1)).flatMap fun r =>
        (List.range ((rrArray ps).length / 2)).filterMap
          (slotDoc tid eid (rrArray ps) ((rrArray ps).length - 1) r) := by
  have hl := rrArray_length ps
  have h2 : (rrArray ps).length = 2 * ((rrArray ps).length / 2) := by omega
  have h1 : (rrArray ps).length - 1 = 2 * ((rrArray ps).length / 2) - 1 := by omega
  unfold roundRobinDocs
  simp only
  rw [h1]
  exact rrLoop_closed tid eid (rrArray ps) _ (by omega) h2

theorem slotDoc_rrArray (tid : Id) (eid : Option Id) (ps : List Id) (hN : 2 ≤ ps.length)
    (r i : Nat) (hr : r ≤ (rrArray ps).length - 1) (hi : i ≤ (rrArray ps).length - 1) :
    slotDoc tid eid (rrArray ps) ((rrArray ps).length - 1) r i =
      if circleIdx ((rrArray ps).length - 1) r i < ps.length ∧
          circleIdx ((rrArray ps).length - 1) r ((rrArray ps).length - 1 - i) < ps.length then
        some (rrDoc tid eid r i ps[circleIdx ((rrArray ps).length - 1) r i]?
          ps[circleIdx ((rrArray ps).length - 1) r ((rrArray ps).length - 1 - i)]?)
      else none := by
  have hl := rrArray_length ps
  unfold slotDoc
  generalize hm : (rrArray ps).length - 1 = m at *
  have hp := circleIdx_le m r i hr hi
  have hq := circleIdx_le m r (m - i) hr (by omega)
  generalize circleIdx m r i = p at *
  generalize circleIdx m r (m - i) = q at *
  have key : ∀ j, j ≤ m → (j < ps.length ∧ (rrArray ps)[j]? = some ps[j]?) ∨
      (¬ j < ps.length ∧ (rrArray ps)[j]? = some none) := by
    intro j hj
    by_cases hjl : j < ps.length
    · left; exact ⟨hjl, by rw [rrArray_getElem?_lt ps j hjl]; simp [hjl]⟩
    · right; exact ⟨hjl, (rrArray_getElem?_null ps j).mpr (by omega)⟩
  rcases key p hp with ⟨hpl, hpe⟩ | ⟨hpl, hpe⟩ <;> rcases key q hq with ⟨hql, hqe⟩ | ⟨hql, hqe⟩
  · simp [hpe, hqe, hpl, hql, rrDoc]
  · simp [hpe, hqe, hpl, hql]
  · simp [hpe, hqe, hpl, hql]
  · simp [hpe, hqe, hpl, hql]

theorem length_filterMap_of_isSome {α β : Type} (f : α → Option β) (l : List α)
    (h : ∀ a ∈ l, (f a).isSome) : (l.filterMap f).length = l.length := by
  induction l with
  | nil => rfl
  | cons a l ih =>
    have ha := h a (List.mem_cons_self a l)
    obtain ⟨b, hb⟩ := Option.isSome_iff_exists.mp ha
    rw [List.filterMap_cons_some hb]
    simp [ih (fun x hx => h x (List.mem_cons_of_mem a hx))]

theorem length_filterMap_skip_one {α β : Type} (f : α → Option β) (l : List α) (a₀ : α)
    (hnd : l.Nodup) (hmem : a₀ ∈ l) (h : ∀ a ∈ l, f a = none ↔ a = a₀) :
    (l.filterMap f).length + 1 = l.length := by
  induction l with
  | nil => simp at hmem
  | cons a l ih =>
    rw [List.nodup_cons] at hnd
    by_cases ha : a = a₀
    · subst ha
      have hnone : f a = none := (h a (List.mem_cons_self a l)).mpr rfl
      rw [List.filterMap_cons_none hnone]
      rw [length_filterMap_of_isSome f l]
      · simp
      · intro x hx
        have hxa : x ≠ a := fun e => hnd.1 (e ▸ hx)
        have := (h x (List.mem_cons_of_mem a hx)).not.mpr hxa
        exact Option.ne_none_iff_isSome.mp this
    · have hsome : f a ≠ none := (h a (List.mem_cons_self a l)).not.mpr ha
      obtain ⟨b, hb⟩ := Option.ne_none_iff_exists'.mp hsome
      rw [List.filterMap_cons_some hb]
      have hmem' : a₀ ∈ l := by
        rcases List.mem_cons.mp hmem with e | e
        · exact absurd e.symm ha
        · exact e
      have := ih hnd.2 hmem' (fun x hx => h x (List.mem_cons_of_mem a hx))
      simp only [List.length_cons]
      omega

theorem circleIdx_bye (k r i : Nat) (hk : 1 ≤ k) (hr : r < 2 * k - 1) (hi : i < k) :
    (circleIdx (2 * k - 1) r i = 2 * k - 1 ∨ circleIdx (2 * k - 1) r (2 * k - 1 - i) = 2 * k - 1) ↔
      i = byeSlot (2 * k - 1) r := by
  unfold circleIdx byeSlot
  split_ifs <;> omega

theorem byeSlot_lt (k r : Nat) (hk : 1 ≤ k) (_hr : r < 2 * k - 1) : byeSlot (2 * k - 1) r < k := by
  unfold byeSlot
  split_ifs <;> omega

/-- Every round of the schedule stores `⌊N / 2⌋` fixtures. -/
theorem rrRound_length (tid : Id) (eid : Option Id) (ps : List Id) (hN : 2 ≤ ps.length)
    (r : Nat) (hr : r < (rrArray ps).length - 1) :
    ((List.range ((rrArray ps).length / 2)).filterMap
      (slotDoc tid eid (rrArray ps) ((rrArray ps).length - 1) r)).length = ps.length / 2 := by
  have hl := rrArray_length ps
  by_cases hpar : ps.length % 2 = 0
  · rw [length_filterMap_of_isSome]
    · simp; omega
    · intro i hi
      have hi' := List.mem_range.mp hi
      rw [slotDoc_rrArray tid eid ps hN r i (by omega) (by omega)]
      have h1 := circleIdx_le ((rrArray ps).length - 1) r i (by omega) (by omega)
      have h2 := circleIdx_le ((rrArray ps).length - 1) r ((rrArray ps).length - 1 - i)
        (by omega) (by omega)
      rw [if_pos ⟨by omega, by omega⟩]
      rfl
  · have hskip := length_filterMap_skip_one
      (slotDoc tid eid (rrArray ps) ((rrArray ps).length - 1) r)
      (List.range ((rrArray ps).length / 2)) (byeSlot ((rrArray ps).length - 1) r)
      (List.nodup_range _) ?_ ?_
    · simp at hskip; omega
    · have hk : (rrArray ps).length - 1 = 2 * ((rrArray ps).length / 2) - 1 := by omega
      rw [hk, List.mem_range]
      exact byeSlot_lt _ r (by omega) (by omega)
    · intro i hi
      have hi' := List.mem_range.mp hi
      rw [slotDoc_rrArray tid eid ps hN r i (by omega) (by omega)]
      have hk : (rrArray ps).length - 1 = 2 * ((rrArray ps).length / 2) - 1 := by omega
      have hb := circleIdx_bye ((rrArray ps).length / 2) r i (by omega) (by omega) hi'
      rw [← hk] at hb
      have h1 := circleIdx_le ((rrArray ps).length - 1) r i (by omega) (by omega)
      have h2 := circleIdx_le ((rrArray ps).length - 1) r ((rrArray ps).length - 1 - i)
        (by omega) (by omega)
      rw [← hb]
      have hm : (rrArray ps).length - 1 = ps.length := by omega
      constructor
      · intro h
        by_contra hcon
        rw [if_pos ⟨by omega, by omega⟩] at h
        exact Option.some_ne_none _ h
      · intro h
        rw [if_neg (by omega)]

theorem slotDoc_round (tid : Id) (eid : Option Id) (arr : List (Option Id)) (m r i : Nat)
    (d : FixtureDoc) (h : slotDoc tid eid arr m r i = some d) :
    d.round = r ∧ d.matchIndex = i := by
  unfold slotDoc at h
  simp only at h
  split_ifs at h
  cases h
  exact ⟨rfl, rfl⟩

theorem filter_round_flatMap (g : Nat → List FixtureDoc)
    (hg : ∀ r, ∀ d ∈ g r, d.round = r) (n r₀ : Nat) :
    ((List.range n).flatMap g).filter (fun d => d.round = r₀) = if r₀ < n then g r₀ else [] := by
  induction n with
  | zero => simp
  | succ n ih =>
    rw [List.range_succ, List.flatMap_append, List.filter_append, ih]
    simp only [List.flatMap_cons, List.flatMap_nil, List.append_nil]
    by_cases h : r₀ = n
    · subst h
      have : List.filter (fun d => decide (d.round = r₀)) (g r₀) = g r₀ := by
        rw [List.filter_eq_self]
        intro d hd
        simpa using hg r₀ d hd
      simp [this]
    · have : List.filter (fun d => decide (d.round = r₀)) (g n) = [] := by
        rw [List.filter_eq_nil_iff]
        intro d hd
        have := hg n d hd
        simp; omega
      rw [this]
      by_cases h' : r₀ < n
      · simp [h', Nat.lt_succ_of_lt h']
      · have : ¬ r₀ < n + 1 := by omega
        simp [h', this]

theorem roundRobinDocs_filter_round (tid : Id) (eid : Option Id) (ps : List Id)
    (hN : 2 ≤ ps.length) (r : Nat) :
    (roundRobinDocs tid eid ps).filter (fun d => d.round = r) =
      if r < (rrArray ps).length - 1 then
        (List.range ((rrArray ps).length / 2)).filterMap
          (slotDoc tid eid (rrArray ps) ((rrArray ps).length - 1) r)
      else [] := by
  rw [roundRobinDocs_closed tid eid ps hN]
  apply filter_round_flatMap
  intro r' d hd
  obtain ⟨i, _, hi⟩ := List.mem_filterMap.mp hd
  exact (slotDoc_round _ _ _ _ _ _ _ hi).1

theorem rrTotalRounds_eq (ps : List Id) : (rrArray ps).length - 1 = rrTotalRounds ps.length := by
  have := rrArray_length ps
  unfold rrTotalRounds
  split_ifs <;> omega

theorem mem_roundRobinDocs (tid : Id) (eid : Option Id) (ps : List Id) (hN : 2 ≤ ps.length)
    (d : FixtureDoc) :
    d ∈ roundRobinDocs tid eid ps ↔
      ∃ r i, r < (rrArray ps).length - 1 ∧ i < (rrArray ps).length / 2 ∧
        slotDoc tid eid (rrArray ps) ((rrArray ps).length - 1) r i = some d := by
  rw [roundRobinDocs_closed tid eid ps hN]
  simp only [List.mem_flatMap, List.mem_filterMap, List.mem_range]
  constructor
  · rintro ⟨r, hr, i, hi, h⟩; exact ⟨r, i, hr, hi, h⟩
  · rintro ⟨r, i, hr, hi, h⟩; exact ⟨r, hr, i, hi, h⟩

/-- What a stored slot holds: two participants read through `circleIdx`. -/
theorem slotDoc_some (tid : Id) (eid : Option Id) (ps : List Id) (hN : 2 ≤ ps.length)
    (r i : Nat) (hr : r < (rrArray ps).length - 1) (hi : i < (rrArray ps).length / 2)
    (d : FixtureDoc)
    (h : slotDoc tid eid (rrArray ps) ((rrArray ps).length - 1) r i = some d) :
    ∃ p q, p = circleIdx ((rrArray ps).length - 1) r i ∧
      q = circleIdx ((rrArray ps).length - 1) r ((rrArray ps).length - 1 - i) ∧
      p < ps.length ∧ q < ps.length ∧ d = rrDoc tid eid r i ps[p]? ps[q]? := by
  have hl := rrArray_length ps
  rw [slotDoc_rrArray tid eid ps hN r i (by omega) (by omega)] at h
  split_ifs at h with hc
  exact ⟨_, _, rfl, rfl, hc.1, hc.2, (Option.some.inj h).symm⟩

theorem slot_sides_inj (tid : Id) (eid : Option Id) (ps : List Id) (hN : 2 ≤ ps.length)
    (hnd : ps.Nodup) (r r' i i' : Nat)
    (hr : r < (rrArray ps).length - 1) (hr' : r' < (rrArray ps).length - 1)
    (hi : i < (rrArray ps).length / 2) (hi' : i' < (rrArray ps).length / 2)
    (d d' : FixtureDoc)
    (h : slotDoc tid eid (rrArray ps) ((rrArray ps).length - 1) r i = some d)
    (h' : slotDoc tid eid (rrArray ps) ((rrArray ps).length - 1) r' i' = some d')
    (hs : d.sides = d'.sides) : r = r' ∧ i = i' := by
  have hl := rrArray_length ps
  obtain ⟨p, q, hp, hq, hpl, hql, rfl⟩ := slotDoc_some tid eid ps hN r i hr hi d h
  obtain ⟨p', q', hp', hq', hpl', hql', rfl⟩ := slotDoc_some tid eid ps hN r' i' hr' hi' d' h'
  have hk : (rrArray ps).length - 1 = 2 * ((rrArray ps).length / 2) - 1 := by omega
  rw [hk] at hp hq hp' hq'
  simp only [FixtureDoc.sides, rrDoc, Sym2.eq_iff] at hs
  apply circleIdx_inj ((rrArray ps).length / 2) r r' i i' (by omega) (by omega) (by omega) hi hi'
  rw [← hp, ← hq, ← hp', ← hq']
  rcases hs with ⟨h1, h2⟩ | ⟨h1, h2⟩
  · exact Or.inl ⟨List.getElem?_inj hpl hnd h1, List.getElem?_inj hql hnd h2⟩
  · exact Or.inr ⟨List.getElem?_inj hpl hnd h1, List.getElem?_inj hql hnd h2⟩

/-- No two stored fixtures of the schedule have the same unordered pair of sides. -/
theorem roundRobinDocs_pairwise (tid : Id) (eid : Option Id) (ps : List Id)
    (hN : 2 ≤ ps.length) (hnd : ps.Nodup) :
    (roundRobinDocs tid eid ps).Pairwise fun d d' => d.sides ≠ d'.sides := by
  rw [roundRobinDocs_closed tid eid ps hN, List.pairwise_flatMap]
  constructor
  · intro r hr
    rw [List.pairwise_filterMap]
    apply (List.nodup_range _).pairwise_of_forall_ne
    intro i hi i' hi' hne d hd d' hd' hs
    exact hne (slot_sides_inj tid eid ps hN hnd r r i i' (List.mem_range.mp hr)
      (List.mem_range.mp hr) (List.mem_range.mp hi) (List.mem_range.mp hi') d d' hd hd' hs).2
  · apply (List.nodup_range _).pairwise_of_forall_ne
    intro r hr r' hr' hne d hd d' hd' hs
    obtain ⟨i, hi, hd⟩ := List.mem_filterMap.mp hd
    obtain ⟨i', hi', hd'⟩ := List.mem_filterMap.mp hd'
    exact hne (slot_sides_inj tid eid ps hN hnd r r' i i' (List.mem_range.mp hr)
      (List.mem_range.mp hr') (List.mem_range.mp hi) (List.mem_range.mp hi') d d' hd hd' hs).1

/-- Any two distinct participants meet in some stored fixture. -/
theorem roundRobinDocs_meet (tid : Id) (eid : Option Id) (ps : List Id)
    (hN : 2 ≤ ps.length) (x y : Id) (hx : x ∈ ps) (hy : y ∈ ps) (hxy : x ≠ y) :
    ∃ d ∈ roundRobinDocs tid eid ps, d.sides = s(some x, some y) := by
  have hl := rrArray_length ps
  obtain ⟨p, hp, rfl⟩ := List.mem_iff_getElem.mp hx
  obtain ⟨q, hq, rfl⟩ := List.mem_iff_getElem.mp hy
  have hpq : p ≠ q := fun e => hxy (by subst e; rfl)
  have hk : (rrArray ps).length - 1 = 2 * ((rrArray ps).length / 2) - 1 := by omega
  obtain ⟨r, i, hr, hi, hcase⟩ : ∃ r i, r < (rrArray ps).length - 1 ∧
      i < (rrArray ps).length / 2 ∧
      ((circleIdx ((rrArray ps).length - 1) r i = p ∧
        circleIdx ((rrArray ps).length - 1) r ((rrArray ps).length - 1 - i) = q) ∨
       (circleIdx ((rrArray ps).length - 1) r i = q ∧
        circleIdx ((rrArray ps).length - 1) r ((rrArray ps).length - 1 - i) = p)) := by
    rw [hk]
    rcases Nat.lt_or_gt_of_ne hpq with hlt | hgt
    · obtain ⟨r, i, hr, hi, h⟩ := circleIdx_surj ((rrArray ps).length / 2) p q (by omega) hlt
        (by omega)
      exact ⟨r, i, hr, hi, h⟩
    · obtain ⟨r, i, hr, hi, h⟩ := circleIdx_surj ((rrArray ps).length / 2) q p (by omega) hgt
        (by omega)
      exact ⟨r, i, hr, hi, h.symm⟩
  have hslot := slotDoc_rrArray tid eid ps hN r i (by omega) (by omega)
  rcases hcase with ⟨h1, h2⟩ | ⟨h1, h2⟩
  · rw [h1, h2, if_pos ⟨hp, hq⟩] at hslot
    refine ⟨_, (mem_roundRobinDocs tid eid ps hN _).mpr ⟨r, i, hr, hi, hslot⟩, ?_⟩
    simp [FixtureDoc.sides, rrDoc, hp, hq]
  · rw [h1, h2, if_pos ⟨hq, hp⟩] at hslot
    refine ⟨_, (mem_roundRobinDocs tid eid ps hN _).mpr ⟨r, i, hr, hi, hslot⟩, ?_⟩
    simp [FixtureDoc.sides, rrDoc, hp, hq, Sym2.eq_swap]

theorem length_filter_eq_one {α : Type} (p : α → Bool) (l : List α)
    (hpw : l.Pairwise fun a b => ¬ (p a = true ∧ p b = true))
    (hex : ∃ a ∈ l, p a = true) : (l.filter p).length = 1 := by
  induction l with
  | nil => simp at hex
  | cons a l ih =>
    rw [List.pairwise_cons] at hpw
    by_cases ha : p a = true
    · have hnone : l.filter p = [] := by
        rw [List.filter_eq_nil_iff]
        intro b hb hpb
        exact hpw.1 b hb ⟨ha, hpb⟩
      simp [List.filter_cons, ha, hnone]
    · obtain ⟨b, hb, hpb⟩ := hex
      have hbl : b ∈ l := by
        rcases List.mem_cons.mp hb with e | e
        · subst e; exact absurd hpb ha
        · exact e
      simp [List.filter_cons, ha, ih hpw.2 ⟨b, hbl, hpb⟩]

theorem length_flatMap_const {α β : Type} (f : α → List β) (l : List α) (c : Nat)
    (h : ∀ a ∈ l, (f a).length = c) : (l.flatMap f).length = l.length * c := by
  induction l with
  | nil => simp
  | cons a l ih =>
    rw [List.flatMap_cons, List.length_append, h a (List.mem_cons_self a l),
      ih (fun x hx => h x (List.mem_cons_of_mem a hx)), List.length_cons]
    ring

theorem roundRobinDocs_length (tid : Id) (eid : Option Id) (ps : List Id) (hN : 2 ≤ ps.length) :
    (roundRobinDocs tid eid ps).length = ps.length * (ps.length - 1) / 2 := by
  rw [roundRobinDocs_closed tid eid ps hN]
  rw [length_flatMap_const _ _ (ps.length / 2)
    (fun r hr => rrRound_length tid eid ps hN r (List.mem_range.mp hr))]
  rw [List.length_range, rrTotalRounds_eq]
  unfold rrTotalRounds
  rcases Nat.even_or_odd' ps.length with ⟨j, hj | hj⟩
  · have h1 : ps.length % 2 = 0 := by omega
    rw [if_pos h1, hj]
    have h2 : 2 * j / 2 = j := by omega
    rw [h2, Nat.mul_assoc, Nat.mul_div_cancel_left _ (by norm_num : 0 < 2)]
    ring
  · have h1 : ¬ ps.length % 2 = 0 := by omega
    rw [if_neg h1, hj]
    have h2 : (2 * j + 1) / 2 = j := by omega
    have h3 : 2 * j + 1 - 1 = 2 * j := by omega
    rw [h2, h3, ← Nat.mul_assoc, Nat.mul_comm (2 * j + 1) 2, Nat.mul_assoc,
      Nat.mul_div_cancel_left _ (by norm_num : 0 < 2)]

/-- C1, round-robin completeness. For every list of `N ≥ 2` pairwise distinct
participants the round-robin branch of `generateFixtures` emits exactly
`N * (N - 1) / 2` fixtures, every unordered pair of distinct participants is the
pair of sides of exactly one emitted fixture, and no emitted fixture has a
`null` side or twice the same side. -/
theorem roundRobin_complete (tid : Id) (eid : Option Id) (ps : List Id)
    (hN : 2 ≤ ps.length) (hnd : ps.Nodup) :
    (roundRobinDocs tid eid ps).length = ps.length * (ps.length - 1) / 2 ∧
    (∀ x ∈ ps, ∀ y ∈ ps, x ≠ y →
      ((roundRobinDocs tid eid ps).filter fun d =>
        (d.teamA = some x ∧ d.teamB = some y) ∨ (d.teamA = some y ∧ d.teamB = some x)).length
        = 1) ∧
    (∀ d ∈ roundRobinDocs tid eid ps,
      d.teamA ≠ none ∧ d.teamB ≠ none ∧ d.teamA ≠ d.teamB) := by
  refine ⟨roundRobinDocs_length tid eid ps hN, ?_, ?_⟩
  · intro x hx y hy hxy
    apply length_filter_eq_one
    · refine (roundRobinDocs_pairwise tid eid ps hN hnd).imp ?_
      intro d d' hne hboth
      apply hne
      have e1 : d.sides = s(some x, some y) := by
        have := hboth.1
        simp only [decide_eq_true_eq] at this
        simpa [FixtureDoc.sides, Sym2.eq_iff] using this
      have e2 : d'.sides = s(some x, some y) := by
        have := hboth.2
        simp only [decide_eq_true_eq] at this
        simpa [FixtureDoc.sides, Sym2.eq_iff] using this
      rw [e1, e2]
    · obtain ⟨d, hd, hs⟩ := roundRobinDocs_meet tid eid ps hN x y hx hy hxy
      refine ⟨d, hd, ?_⟩
      simp only [decide_eq_true_eq]
      simpa [FixtureDoc.sides, Sym2.eq_iff] using hs
  · intro d hd
    obtain ⟨r, i, hr, hi, h⟩ := (mem_roundRobinDocs tid eid ps hN d).mp hd
    obtain ⟨p, q, hp, hq, hpl, hql, rfl⟩ := slotDoc_some tid eid ps hN r i hr hi d h
    have hl := rrArray_length ps
    have hk : (rrArray ps).length - 1 = 2 * ((rrArray ps).length / 2) - 1 := by omega
    have hne := circleIdx_ne ((rrArray ps).length / 2) r i (by omega) (by omega) hi
    rw [← hk, ← hp, ← hq] at hne
    refine ⟨by simp [rrDoc, hpl], by simp [rrDoc, hql], ?_⟩
    intro heq
    exact hne (List.getElem?_inj hpl hnd heq)

/-- The completeness theorem applied to three participants. -/
theorem roundRobin_complete_witness :
    2 ≤ [1, 2, 3].length ∧ [1, 2, 3].Nodup ∧
    (roundRobinDocs 7 none [1, 2, 3]).length = [1, 2, 3].length * ([1, 2, 3].length - 1) / 2 ∧
    (∀ x ∈ [1, 2, 3], ∀ y ∈ [1, 2, 3], x ≠ y →
      ((roundRobinDocs 7 none [1, 2, 3]).filter fun d =>
        (d.teamA = some x ∧ d.teamB = some y) ∨ (d.teamA = some y ∧ d.teamB = some x)).length
        = 1) ∧
    (∀ d ∈ roundRobinDocs 7 none [1, 2, 3],
      d.teamA ≠ none ∧ d.teamB ≠ none ∧ d.teamA ≠ d.teamB) :=
  ⟨by decide, by decide, roundRobin_complete 7 none [1, 2, 3] (by decide) (by decide)⟩

/-- C2, round-robin round count. For every participant list of size `N ≥ 2` the
round values of the emitted fixtures are exactly `0 .. N - 2` for even `N` and
`0 .. N - 1` for odd `N` (`rrTotalRounds N` rounds), every round holds
`⌊N / 2⌋` fixtures, and four participants give three rounds of two matches. -/
theorem roundRobin_round_values (tid : Id) (eid : Option Id) (ps : List Id) (hN : 2 ≤ ps.length) :
    ((roundRobinDocs tid eid ps).map fun d => d.round).toFinset =
        Finset.range (rrTotalRounds ps.length) ∧
      (∀ r, r < rrTotalRounds ps.length →
        ((roundRobinDocs tid eid ps).filter fun d => d.round = r).length = ps.length / 2) ∧
      ((roundRobinDocs tid eid [1, 2, 3, 4]).map fun d => (d.round, d.matchIndex)) =
        [(0, 0), (0, 1), (1, 0), (1, 1), (2, 0), (2, 1)] := by
  have hlen : ∀ r, r < rrTotalRounds ps.length →
      ((roundRobinDocs tid eid ps).filter fun d => d.round = r).length = ps.length / 2 := by
    intro r hr
    rw [← rrTotalRounds_eq] at hr
    rw [roundRobinDocs_filter_round tid eid ps hN r, if_pos hr]
    exact rrRound_length tid eid ps hN r hr
  refine ⟨?_, hlen, rfl⟩
  ext r
  simp only [List.mem_toFinset, List.mem_map, Finset.mem_range]
  constructor
  · rintro ⟨d, hd, rfl⟩
    by_contra hcon
    have hf := roundRobinDocs_filter_round tid eid ps hN d.round
    rw [rrTotalRounds_eq, if_neg hcon] at hf
    have : d ∈ (roundRobinDocs tid eid ps).filter (fun d' => d'.round = d.round) := by
      simp [List.mem_filter, hd]
    rw [hf] at this
    simp at this
  · intro hr
    have h := hlen r hr
    have hpos : 0 < ((roundRobinDocs tid eid ps).filter fun d => d.round = r).length := by
      rw [h]; omega
    obtain ⟨d, hd⟩ := List.exists_mem_of_length_pos hpos
    rw [List.mem_filter] at hd
    exact ⟨d, hd.1, by simpa using hd.2⟩

/-- The round-count theorem applied to three participants. -/
theorem roundRobin_round_values_witness :
    2 ≤ [1, 2, 3].length ∧
    ((roundRobinDocs 7 none [1, 2, 3]).map fun d => d.round).toFinset =
      Finset.range (rrTotalRounds [1, 2, 3].length) ∧
    ∀ r, r < rrTotalRounds [1, 2, 3].length →
      ((roundRobinDocs 7 none [1, 2, 3]).filter fun d => d.round = r).length
        = [1, 2, 3].length / 2 :=
  ⟨by decide, (roundRobin_round_values 7 none [1, 2, 3] (by decide)).1,
    (roundRobin_round_values 7 none [1, 2, 3] (by decide)).2.1⟩

/-! ## Theorems: knockout bracket -/

theorem koLoopFrom_eq (tid : Id) (eid : Option Id) (start total : Nat) :
    ∀ (j : Nat) (current : List (Option Id)) (rel : Nat), current.length = 2 ^ j →
      koLoopFrom tid eid start total current rel =
        bracketRounds tid eid (fun r => getRoundName r total) start j current rel := by
  intro j
  induction j with
  | zero =>
    intro current rel h
    rw [koLoopFrom, if_neg (by simp at h; omega)]
    rfl
  | succ j ih =>
    intro current rel h
    have h2 : current.length / 2 = 2 ^ j := by rw [h, pow_succ]; omega
    have h1 : 1 < current.length := by
      have := (Nat.one_le_two_pow : 1 ≤ 2 ^ j)
      rw [h, pow_succ]; omega
    rw [koLoopFrom, if_pos h1, h2, ih _ _ (by simp)]
    rfl

theorem koLoop_eq (tid : Id) (eid : Option Id) (total : Nat) :
    ∀ (j : Nat) (current : List (Option Id)) (round : Nat), current.length = 2 ^ j →
      koLoop tid eid total current round =
        bracketRounds tid eid (fun r => getRoundName r total) 0 j current round := by
  intro j
  induction j with
  | zero =>
    intro current round h
    rw [koLoop, if_neg (by simp at h; omega)]
    rfl
  | succ j ih =>
    intro current round h
    have h2 : current.length / 2 = 2 ^ j := by rw [h, pow_succ]; omega
    have h1 : 1 < current.length := by
      have := (Nat.one_le_two_pow : 1 ≤ 2 ^ j)
      rw [h, pow_succ]; omega
    rw [koLoop, if_pos h1, h2, ih _ _ (by simp)]
    simp [bracketRounds]

theorem padWithByes_length (ps : List Id) :
    (padWithByes ps).length = 2 ^ Nat.clog 2 ps.length := by
  have := Nat.le_pow_clog (by norm_num : 1 < 2) ps.length
  simp [padWithByes, nextPowerOfTwo]
  omega

theorem knockoutFromStandingsDocs_closed (tid : Id) (eid : Option Id) (start : Nat)
    (ps : List Id) :
    knockoutFromStandingsDocs tid eid start ps =
      bracketRounds tid eid (fun r => getRoundName r (Nat.clog 2 ps.length)) start
        (Nat.clog 2 ps.length) (padWithByes ps) 0 := by
  unfold knockoutFromStandingsDocs
  simp only [nextPowerOfTwo, Nat.log_pow (by norm_num : 1 < 2)]
  exact koLoopFrom_eq tid eid start _ _ _ 0 (padWithByes_length ps)

theorem knockoutDocs_closed (tid : Id) (eid : Option Id) (ps : List Id) :
    knockoutDocs tid eid ps =
      bracketRounds tid eid (fun r => getRoundName r (Nat.clog 2 ps.length)) 0
        (Nat.clog 2 ps.length) (padWithByes ps) 0 := by
  unfold knockoutDocs
  simp only [nextPowerOfTwo, Nat.log_pow (by norm_num : 1 < 2)]
  exact koLoop_eq tid eid _ _ _ 0 (padWithByes_length ps)

theorem bracketPositions_succ (start j : Nat) :
    bracketPositions start (j + 1) =
      (List.range (2 ^ j)).map (fun x => (start, x)) ++ bracketPositions (start + 1) j := by
  unfold bracketPositions
  rw [List.range_succ_eq_map, List.flatMap_cons, List.flatMap_map]
  congr 1
  apply List.flatMap_congr
  intro s _
  have h1 : j + 1 - 1 - (s + 1) = j - 1 - s := by omega
  have h2 : start + (s + 1) = start + 1 + s := by omega
  simp only [Function.comp, h1, h2]

theorem bracketRounds_pos (tid : Id) (eid : Option Id) (name : Nat → String) (start : Nat) :
    ∀ (j : Nat) (current : List (Option Id)) (rel : Nat), current.length = 2 ^ j →
      (bracketRounds tid eid name start j current rel).map FixtureDoc.pos =
        bracketPositions (start + rel) j := by
  intro j
  induction j with
  | zero => intro current rel _; simp [bracketRounds, bracketPositions]
  | succ j ih =>
    intro current rel h
    have hlen : (current.length + 1) / 2 = 2 ^ j := by rw [h, pow_succ]; omega
    rw [bracketRounds, List.map_append, ih _ _ (by simp), bracketPositions_succ]
    congr 1
    simp [koRound, hlen, FixtureDoc.pos, Function.comp_def]

theorem mem_bracketPositions (start k r x : Nat) :
    (r, x) ∈ bracketPositions start k ↔
      start ≤ r ∧ r < start + k ∧ x < 2 ^ (k - 1 - (r - start)) := by
  unfold bracketPositions
  simp only [List.mem_flatMap, List.mem_map, List.mem_range, Prod.mk.injEq]
  constructor
  · rintro ⟨s, hs, y, hy, rfl, rfl⟩
    refine ⟨by omega, by omega, ?_⟩
    have : start + s - start = s := by omega
    rwa [this]
  · rintro ⟨h1, h2, h3⟩
    refine ⟨r - start, by omega, x, h3, by omega, rfl⟩

theorem bracketPositions_nodup (start k : Nat) : (bracketPositions start k).Nodup := by
  unfold bracketPositions
  rw [List.nodup_flatMap]
  constructor
  · intro s _
    exact (List.nodup_range _).map (fun a b h => by simpa using h)
  · apply (List.nodup_range _).pairwise_of_forall_ne
    intro s _ s' _ hne
    simp only [Function.onFun, List.disjoint_left, List.mem_map, List.mem_range]
    rintro p ⟨x, _, rfl⟩ ⟨y, _, h⟩
    simp at h
    omega

theorem bracketPositions_filter_round (start k r : Nat) :
    (bracketPositions start k).filter (fun p => p.1 = r) =
      if start ≤ r ∧ r < start + k then
        (List.range (2 ^ (k - 1 - (r - start)))).map fun x => (r, x)
      else [] := by
  induction k generalizing start with
  | zero => simp [bracketPositions]
  | succ k ih =>
    rw [bracketPositions_succ, List.filter_append, ih]
    by_cases h : r = start
    · subst h
      have h1 : List.filter (fun p : Nat × Nat => decide (p.1 = r))
          ((List.range (2 ^ k)).map fun x => (r, x)) = (List.range (2 ^ k)).map fun x => (r, x) := by
        rw [List.filter_eq_self]
        intro p hp
        obtain ⟨x, _, rfl⟩ := List.mem_map.mp hp
        simp
      rw [h1, if_neg (by omega), if_pos (by omega)]
      simp
    · have h1 : List.filter (fun p : Nat × Nat => decide (p.1 = r))
          ((List.range (2 ^ k)).map fun x => (start, x)) = [] := by
        rw [List.filter_eq_nil_iff]
        intro p hp
        obtain ⟨x, _, rfl⟩ := List.mem_map.mp hp
        simp; omega
      rw [h1, List.nil_append]
      by_cases h2 : start + 1 ≤ r ∧ r < start + 1 + k
      · rw [if_pos h2, if_pos (by omega)]
        have : k - 1 - (r - (start + 1)) = k + 1 - 1 - (r - start) := by omega
        rw [this]
      · rw [if_neg h2, if_neg (by omega)]

theorem filter_pos_map (docs : List FixtureDoc) (q : Nat × Nat → Bool) :
    (docs.filter fun d => q d.pos).map FixtureDoc.pos = (docs.map FixtureDoc.pos).filter q := by
  rw [List.filter_map]; rfl

theorem docs_round_matchIndex (docs : List FixtureDoc) (start k r : Nat)
    (h : docs.map FixtureDoc.pos = bracketPositions start k) :
    ((docs.filter fun d => d.round = r).map fun d => d.matchIndex) =
      if start ≤ r ∧ r < start + k then List.range (2 ^ (k - 1 - (r - start))) else [] := by
  have h1 := filter_pos_map docs (fun p => decide (p.1 = r))
  rw [h, bracketPositions_filter_round] at h1
  have h2 : ((docs.filter fun d => d.round = r).map fun d => d.matchIndex) =
      ((docs.filter fun d => decide (d.pos.1 = r)).map FixtureDoc.pos).map Prod.snd := by
    rw [List.map_map]; rfl
  rw [h2, h1]
  split_ifs
  · rw [List.map_map]; simp [Function.comp_def]
  · rfl

theorem docs_count_pos (docs : List FixtureDoc) (start k r x : Nat)
    (h : docs.map FixtureDoc.pos = bracketPositions start k)
    (hmem : start ≤ r ∧ r < start + k ∧ x < 2 ^ (k - 1 - (r - start))) :
    (docs.filter fun e => decide (e.round = r ∧ e.matchIndex = x)).length = 1 := by
  have h1 := filter_pos_map docs (fun p => decide (p.1 = r ∧ p.2 = x))
  have h2 : (docs.filter fun e => decide (e.round = r ∧ e.matchIndex = x)).length =
      ((docs.filter fun d => decide (d.pos.1 = r ∧ d.pos.2 = x)).map FixtureDoc.pos).length := by
    rw [List.length_map]; rfl
  rw [h2, h1, h]
  apply length_filter_eq_one
  · refine (bracketPositions_nodup start k).imp ?_
    rintro ⟨a, b⟩ ⟨c, d⟩ hne ⟨hab, hcd⟩
    simp only [decide_eq_true_eq] at hab hcd
    apply hne
    rw [Prod.mk.injEq]
    exact ⟨hab.1.trans hcd.1.symm, hab.2.trans hcd.2.symm⟩
  · exact ⟨(r, x), (mem_bracketPositions start k r x).mpr hmem, by simp⟩

theorem range_filter_half (n j : Nat) (hj : j < n) :
    (List.range (2 * n)).filter (fun x => decide (x / 2 = j)) = [2 * j, 2 * j + 1] := by
  induction n with
  | zero => omega
  | succ n ih =>
    have hr : List.range (2 * (n + 1)) = List.range (2 * n) ++ [2 * n, 2 * n + 1] := by
      have : 2 * (n + 1) = 2 * n + 1 + 1 := by ring
      rw [this, List.range_succ, List.range_succ]; simp
    rw [hr, List.filter_append]
    by_cases hjn : j < n
    · rw [ih hjn]
      have h1 : ¬ (2 * n / 2 = j) := by omega
      have h2 : ¬ ((2 * n + 1) / 2 = j) := by omega
      simp [List.filter_cons, h1, h2]
      omega
    · have hjn' : j = n := by omega
      subst hjn'
      have h0 : (List.range (2 * j)).filter (fun x => decide (x / 2 = j)) = [] := by
        rw [List.filter_eq_nil_iff]
        intro x hx
        have := List.mem_range.mp hx
        simp; omega
      have h1 : 2 * j / 2 = j := by omega
      have h2 : (2 * j + 1) / 2 = j := by omega
      simp [List.filter_cons, h0, h1, h2]

theorem bracketTree_of_pos (docs : List FixtureDoc) (start k : Nat) (hk : 1 ≤ k)
    (h : docs.map FixtureDoc.pos = bracketPositions start k) :
    BracketTree docs start (start + k - 1) := by
  have hmem : ∀ d ∈ docs, start ≤ d.round ∧ d.round < start + k ∧
      d.matchIndex < 2 ^ (k - 1 - (d.round - start)) := by
    intro d hd
    have : d.pos ∈ bracketPositions start k := by
      rw [← h]; exact List.mem_map_of_mem _ hd
    exact (mem_bracketPositions start k d.round d.matchIndex).mp this
  have hpow : ∀ r, start ≤ r → r + 1 < start + k →
      2 ^ (k - 1 - (r - start)) = 2 * 2 ^ (k - 1 - (r + 1 - start)) := by
    intro r h1 h2
    have : k - 1 - (r - start) = (k - 1 - (r + 1 - start)) + 1 := by omega
    rw [this, pow_succ]; ring
  refine ⟨?_, ?_, ?_, ?_⟩
  · intro d hd hlast
    obtain ⟨h1, h2, h3⟩ := hmem d hd
    apply docs_count_pos docs start k _ _ h
    refine ⟨by omega, by omega, ?_⟩
    rw [hpow d.round h1 (by omega)] at h3
    omega
  · intro e he hfirst
    obtain ⟨r, her⟩ : ∃ r, e.round = r + 1 := ⟨e.round - 1, by omega⟩
    have hr : start ≤ r := by omega
    obtain ⟨h1, h2, h3⟩ := hmem e he
    rw [her] at h2 h3
    have hsplit : (docs.filter fun d =>
          decide (d.round + 1 = e.round ∧ d.matchIndex / 2 = e.matchIndex)) =
        (docs.filter fun d => decide (d.round = r)).filter
          (fun d => decide (d.matchIndex / 2 = e.matchIndex)) := by
      rw [List.filter_filter]
      apply List.filter_congr
      intro d _
      have hiff : d.round + 1 = e.round ↔ d.round = r := by omega
      simp [hiff, Bool.and_comm]
    have hmap : (((docs.filter fun d => decide (d.round = r)).filter
          (fun d => decide (d.matchIndex / 2 = e.matchIndex))).map fun d => d.matchIndex) =
        ((docs.filter fun d => decide (d.round = r)).map fun d => d.matchIndex).filter
          (fun x => decide (x / 2 = e.matchIndex)) := by
      rw [List.filter_map]; rfl
    rw [hsplit, hmap, docs_round_matchIndex docs start k r h, if_pos ⟨hr, by omega⟩,
      hpow r hr h2]
    exact range_filter_half _ _ h3
  · have := docs_round_matchIndex docs start k (start + k - 1) h
    rw [if_pos ⟨by omega, by omega⟩] at this
    have hz : k - 1 - (start + k - 1 - start) = 0 := by omega
    rw [hz] at this
    have hl := congrArg List.length this
    simpa using hl
  · intro d hd
    obtain ⟨h1, h2, _⟩ := hmem d hd
    exact ⟨h1, by omega⟩

/-- Bracket positions of the documents `generateFixtures` builds. -/
theorem knockoutDocs_pos (tid : Id) (eid : Option Id) (ps : List Id) :
    (knockoutDocs tid eid ps).map FixtureDoc.pos =
      bracketPositions 0 (Nat.clog 2 ps.length) := by
  rw [knockoutDocs_closed]
  have := bracketRounds_pos tid eid (fun r => getRoundName r (Nat.clog 2 ps.length)) 0
    (Nat.clog 2 ps.length) (padWithByes ps) 0 (padWithByes_length ps)
  simpa using this

/-- Bracket positions of the documents `generateKnockoutFromStandings` builds. -/
theorem knockoutFromStandingsDocs_pos (tid : Id) (eid : Option Id) (start : Nat)
    (ps : List Id) :
    (knockoutFromStandingsDocs tid eid start ps).map FixtureDoc.pos =
      bracketPositions start (Nat.clog 2 ps.length) := by
  rw [knockoutFromStandingsDocs_closed]
  have := bracketRounds_pos tid eid (fun r => getRoundName r (Nat.clog 2 ps.length)) start
    (Nat.clog 2 ps.length) (padWithByes ps) 0 (padWithByes_length ps)
  simpa using this

/-- C3, knockout bracket shape. For every participant list of length `P ≥ 2`,
with `k = ⌈log2 P⌉`, both knockout builders emit exactly `k` rounds: relative
round `r < k` holds the fixtures with `matchIndex` exactly
`0 .. 2 ^ (k - 1 - r) - 1`, later rounds hold none (and the bridge emits nothing
before `startRound`), so round 0 has `2 ^ k / 2` fixtures and the last round
one; five participants give 4, 2 and 1 fixtures and the Final is round 2. -/
theorem knockout_bracket_shape (tid : Id) (eid : Option Id) (ps : List Id)
    (hP : 2 ≤ ps.length) :
    (∀ r, ((knockoutDocs tid eid ps).filter fun d => d.round = r).map (fun d => d.matchIndex) =
      if r < Nat.clog 2 ps.length then List.range (2 ^ (Nat.clog 2 ps.length - 1 - r))
      else []) ∧
    (∀ start r,
      ((knockoutFromStandingsDocs tid eid start ps).filter fun d => d.round = start + r).map
          (fun d => d.matchIndex) =
        if r < Nat.clog 2 ps.length then List.range (2 ^ (Nat.clog 2 ps.length - 1 - r))
        else []) ∧
    (∀ start, ∀ d ∈ knockoutFromStandingsDocs tid eid start ps, start ≤ d.round) ∧
    ((knockoutDocs tid eid ps).filter fun d => d.round = 0).length
      = 2 ^ Nat.clog 2 ps.length / 2 ∧
    ((knockoutDocs tid eid ps).filter fun d => d.round = Nat.clog 2 ps.length - 1).length = 1 ∧
    ((knockoutDocs tid eid [1, 2, 3, 4, 5]).map fun d => (d.round, d.matchIndex, d.roundName)) =
      [(0, 0, "Quarter-Final"), (0, 1, "Quarter-Final"), (0, 2, "Quarter-Final"),
       (0, 3, "Quarter-Final"), (1, 0, "Semi-Final"), (1, 1, "Semi-Final"), (2, 0, "Final")] := by
  have hk : 1 ≤ Nat.clog 2 ps.length := Nat.clog_pos (by norm_num) hP
  have hpos := knockoutDocs_pos tid eid ps
  have hposFrom := fun start => knockoutFromStandingsDocs_pos tid eid start ps
  have hround : ∀ r, ((knockoutDocs tid eid ps).filter fun d => d.round = r).map
      (fun d => d.matchIndex) =
      if r < Nat.clog 2 ps.length then List.range (2 ^ (Nat.clog 2 ps.length - 1 - r))
      else [] := by
    intro r
    have := docs_round_matchIndex _ 0 (Nat.clog 2 ps.length) r hpos
    simpa using this
  refine ⟨hround, ?_, ?_, ?_, ?_, ?_⟩
  · intro start r
    have := docs_round_matchIndex _ start (Nat.clog 2 ps.length) (start + r) (hposFrom start)
    simpa using this
  · intro start d hd
    have : d.pos ∈ bracketPositions start (Nat.clog 2 ps.length) := by
      rw [← hposFrom start]; exact List.mem_map_of_mem _ hd
    exact ((mem_bracketPositions start _ d.round d.matchIndex).mp this).1
  · have h := congrArg List.length (hround 0)
    rw [if_pos (by omega)] at h
    simp only [List.length_map, List.length_range] at h
    rw [h]
    have : Nat.clog 2 ps.length = (Nat.clog 2 ps.length - 1 - 0) + 1 := by omega
    conv_rhs => rw [this, pow_succ]
    simp
  · have h := congrArg List.length (hround (Nat.clog 2 ps.length - 1))
    rw [if_pos (by omega)] at h
    simp only [List.length_map, List.length_range] at h
    rw [h]
    have : Nat.clog 2 ps.length - 1 - (Nat.clog 2 ps.length - 1) = 0 := by omega
    rw [this]; rfl
  · have h5 : Nat.clog 2 [1, 2, 3, 4, 5].length = 3 := by simp [Nat.clog]
    rw [knockoutDocs_closed, h5]
    unfold padWithByes nextPowerOfTwo
    rw [h5]
    rfl

/-- The bracket-shape theorem applied to three participants. -/
theorem knockout_bracket_shape_witness :
    2 ≤ [1, 2, 3].length ∧
    (∀ r, ((knockoutDocs 7 none [1, 2, 3]).filter fun d => d.round = r).map
        (fun d => d.matchIndex) =
      if r < Nat.clog 2 [1, 2, 3].length then
        List.range (2 ^ (Nat.clog 2 [1, 2, 3].length - 1 - r))
      else []) ∧
    ((knockoutDocs 7 none [1, 2, 3]).filter fun d =>
      d.round = Nat.clog 2 [1, 2, 3].length - 1).length = 1 :=
  ⟨by decide, (knockout_bracket_shape 7 none [1, 2, 3] (by decide)).1,
    (knockout_bracket_shape 7 none [1, 2, 3] (by decide)).2.2.2.2.1⟩

/-- C4, the bracket is a binary tree by index arithmetic. In the bracket of
either knockout builder, for `P ≥ 2` participants, every fixture at
`(r, m)` before the last round has exactly one fixture at `(r + 1, ⌊m / 2⌋)`,
every fixture at `(r + 1, j)` has exactly the children `(r, 2 j)` and
`(r, 2 j + 1)`, the last round is a single fixture and no fixture lies beyond
it (`BracketTree`). -/
theorem knockout_bracket_tree (tid : Id) (eid : Option Id) (ps : List Id)
    (hP : 2 ≤ ps.length) :
    BracketTree (knockoutDocs tid eid ps) 0 (Nat.clog 2 ps.length - 1) ∧
    ∀ start, BracketTree (knockoutFromStandingsDocs tid eid start ps) start
      (start + Nat.clog 2 ps.length - 1) := by
  have hk : 1 ≤ Nat.clog 2 ps.length := Nat.clog_pos (by norm_num) hP
  constructor
  · have := bracketTree_of_pos _ 0 _ hk (knockoutDocs_pos tid eid ps)
    simpa using this
  · intro start
    exact bracketTree_of_pos _ start _ hk (knockoutFromStandingsDocs_pos tid eid start ps)

/-- The binary-tree theorem applied to five participants. -/
theorem knockout_bracket_tree_witness :
    2 ≤ [1, 2, 3, 4, 5].length ∧
    BracketTree (knockoutDocs 7 none [1, 2, 3, 4, 5]) 0 (Nat.clog 2 [1, 2, 3, 4, 5].length - 1) ∧
    ∀ start, BracketTree (knockoutFromStandingsDocs 7 none start [1, 2, 3, 4, 5]) start
      (start + Nat.clog 2 [1, 2, 3, 4, 5].length - 1) :=
  ⟨by decide, knockout_bracket_tree 7 none [1, 2, 3, 4, 5] (by decide)⟩

/-! ## Theorems: result entry and propagation -/

theorem Field.assign_assign {α : Type} (x : Field α) (o : Option α) :
    x.assign (x.assign o) = x.assign o := by
  cases x <;> rfl

theorem applyUpdateData_pos (body : UpdateBody) (f : Fixture) :
    (applyUpdateData body f).id = f.id ∧ (applyUpdateData body f).tournament = f.tournament ∧
    (applyUpdateData body f).event = f.event ∧ (applyUpdateData body f).round = f.round ∧
    (applyUpdateData body f).matchIndex = f.matchIndex ∧
    (applyUpdateData body f).teamA = f.teamA ∧ (applyUpdateData body f).teamB = f.teamB :=
  ⟨rfl, rfl, rfl, rfl, rfl, rfl, rfl⟩

theorem finishUpdate_pos (body : UpdateBody) (d : Option (Option Id)) (f : Fixture) :
    (finishUpdate body d f).id = f.id ∧ (finishUpdate body d f).tournament = f.tournament ∧
    (finishUpdate body d f).event = f.event ∧ (finishUpdate body d f).round = f.round ∧
    (finishUpdate body d f).matchIndex = f.matchIndex ∧
    (finishUpdate body d f).teamA = f.teamA ∧ (finishUpdate body d f).teamB = f.teamB := by
  cases d <;> exact ⟨rfl, rfl, rfl, rfl, rfl, rfl, rfl⟩

theorem setSlot_pos (m : Nat) (w : Id) (f : Fixture) :
    (setSlot m w f).id = f.id ∧ (setSlot m w f).tournament = f.tournament ∧
    (setSlot m w f).event = f.event ∧ (setSlot m w f).round = f.round ∧
    (setSlot m w f).matchIndex = f.matchIndex := by
  unfold setSlot; split_ifs <;> exact ⟨rfl, rfl, rfl, rfl, rfl⟩

theorem updateStep_pos (fid : Id) (body : UpdateBody) (d : Option (Option Id))
    (t : Option (Id × Id)) (m : Nat) (x : Fixture) :
    (updateStep fid body d t m x).id = x.id ∧
    (updateStep fid body d t m x).tournament = x.tournament ∧
    (updateStep fid body d t m x).event = x.event ∧
    (updateStep fid body d t m x).round = x.round ∧
    (updateStep fid body d t m x).matchIndex = x.matchIndex := by
  have hf := finishUpdate_pos body d x
  unfold updateStep
  rcases t with _ | ⟨nid, w⟩
  · simp only
    split_ifs
    · exact ⟨hf.1, hf.2.1, hf.2.2.1, hf.2.2.2.1, hf.2.2.2.2.1⟩
    · exact ⟨rfl, rfl, rfl, rfl, rfl⟩
  · simp only
    split_ifs <;>
      simp only [(setSlot_pos m w _).1, (setSlot_pos m w _).2.1, (setSlot_pos m w _).2.2.1,
        (setSlot_pos m w _).2.2.2.1, (setSlot_pos m w _).2.2.2.2, hf.1, hf.2.1, hf.2.2.1,
        hf.2.2.2.1, hf.2.2.2.2.1, and_self]

theorem nextFilter_congr (u u' g g' : Fixture)
    (hu : u'.tournament = u.tournament ∧ u'.event = u.event ∧ u'.round = u.round ∧
      u'.matchIndex = u.matchIndex)
    (hg : g'.tournament = g.tournament ∧ g'.event = g.event ∧ g'.round = g.round ∧
      g'.matchIndex = g.matchIndex) :
    nextFilter u' g' = nextFilter u g := by
  unfold nextFilter
  rw [hu.1, hu.2.1, hu.2.2.1, hu.2.2.2, hg.1, hg.2.1, hg.2.2.1, hg.2.2.2]

theorem find?_map_of_pres (store : Store) (p : Fixture → Bool) (h : Fixture → Fixture)
    (hp : ∀ x, p (h x) = p x) : (store.map h).find? p = (store.find? p).map h := by
  rw [List.find?_map]
  have : p ∘ h = p := funext hp
  rw [this]

theorem modifyById_finish (store : Store) (fid : Id) (body : UpdateBody) (w : Option Id) :
    modifyById (modifyById store fid (applyUpdateData body)) fid
      (fun f => { f with winner := w }) =
      store.map fun x => if x.id = fid then finishUpdate body (some w) x else x := by
  simp only [modifyById, List.map_map]
  apply List.map_congr_left
  intro x _
  simp only [Function.comp]
  by_cases hx : x.id = fid
  · simp [hx, finishUpdate, applyUpdateData]
  · simp [hx]

theorem find?_next_finish (store : Store) (fid : Id) (body : UpdateBody)
    (d : Option (Option Id)) (f : Fixture) :
    (store.map fun x => if x.id = fid then finishUpdate body d x else x).find?
      (nextFilter (finishUpdate body d f)) =
      (store.find? (nextFilter f)).map
        fun x => if x.id = fid then finishUpdate body d x else x := by
  rw [find?_map_of_pres]
  · have : nextFilter (finishUpdate body d f) = nextFilter f := by
      funext g
      exact nextFilter_congr f _ g g (by simp [finishUpdate_pos]) (by simp)
    rw [this]
  · intro x
    apply nextFilter_congr
    · simp
    · split_ifs
      · simp [finishUpdate_pos]
      · simp

/-- Propagation written fixture by fixture. -/
theorem propagate_eq (store : Store) (fid : Id) (body : UpdateBody)
    (d : Option (Option Id)) (f : Fixture) (kw : Option Id) :
    (match kw with
      | some w =>
        match (store.map fun x => if x.id = fid then finishUpdate body d x else x).find?
            (nextFilter (finishUpdate body d f)) with
        | some nextFix =>
          modifyById (store.map fun x => if x.id = fid then finishUpdate body d x else x)
            nextFix.id (setSlot (finishUpdate body d f).matchIndex w)
        | none => store.map fun x => if x.id = fid then finishUpdate body d x else x
      | none => store.map fun x => if x.id = fid then finishUpdate body d x else x) =
    store.map (updateStep fid body d
      (match kw with
        | some w => (store.find? (nextFilter f)).map fun nextFix => (nextFix.id, w)
        | none => none) f.matchIndex) := by
  rw [find?_next_finish]
  cases kw with
  | none =>
    simp only
    apply List.map_congr_left
    intro x _
    simp [updateStep]
  | some w =>
    simp only
    cases hn : store.find? (nextFilter f) with
    | none =>
      simp only [Option.map_none']
      apply List.map_congr_left
      intro x _
      simp [updateStep]
    | some nf =>
      simp only [Option.map_some', modifyById, List.map_map]
      apply List.map_congr_left
      intro x _
      have hid : (if nf.id = fid then finishUpdate body d nf else nf).id = nf.id := by
        split_ifs
        · exact (finishUpdate_pos body d nf).1
        · rfl
      simp only [Function.comp, updateStep, hid, (finishUpdate_pos body d f).2.2.2.2.1]

/-- The store `updateFixture` leaves is the old store rewritten fixture by
fixture through `updateStep`. -/
theorem updateFixture_store (store : Store) (fid : Id) (body : UpdateBody) (f : Fixture)
    (hf : findById store fid = some f) :
    (updateFixture store fid body).store =
      store.map (updateStep fid body
        (secondPass (updateDataWinner body).truthy (applyUpdateData body f))
        (propagationTarget store body f) f.matchIndex) ∧
    (updateFixture store fid body).winnerId = knownWinner body f ∧
    (updateFixture store fid body).success = true ∧
    (updateFixture store fid body).fixture = some (finishUpdate body
        (secondPass (updateDataWinner body).truthy (applyUpdateData body f)) f) := by
  unfold updateFixture propagationTarget knownWinner
  rw [hf]
  simp only
  cases hd : secondPass (updateDataWinner body).truthy (applyUpdateData body f) with
  | none =>
    simp only
    refine ⟨?_, trivial, trivial, rfl⟩
    exact propagate_eq store fid body none f _
  | some w =>
    simp only
    refine ⟨?_, trivial, trivial, rfl⟩
    rw [modifyById_finish]
    exact propagate_eq store fid body (some w) f _

theorem findById_some (store : Store) (fid : Id) (f : Fixture) (h : findById store fid = some f) :
    f ∈ store ∧ f.id = fid := by
  unfold findById at h
  exact ⟨List.mem_of_find?_eq_some h, by simpa using List.find?_some h⟩

theorem Store.WF.unique {store : Store} (hwf : store.WF) {f g : Fixture}
    (hf : f ∈ store) (hg : g ∈ store) (h : f.id = g.id) : f = g :=
  List.inj_on_of_nodup_map hwf hf hg h

theorem findById_of_mem (store : Store) (hwf : store.WF) (f : Fixture) (hf : f ∈ store) :
    findById store f.id = some f := by
  cases h : findById store f.id with
  | none =>
    unfold findById at h
    have := List.find?_eq_none.mp h f hf
    simp at this
  | some g =>
    obtain ⟨hg, hid⟩ := findById_some store f.id g h
    rw [hwf.unique hg hf hid]

theorem next_id_ne (store : Store) (hwf : store.WF) (fid : Id) (f nf : Fixture)
    (hf : findById store fid = some f) (hn : store.find? (nextFilter f) = some nf) :
    nf.id ≠ fid := by
  intro h
  obtain ⟨hfm, hfid⟩ := findById_some store fid f hf
  have hnm := List.mem_of_find?_eq_some hn
  have hnf := List.find?_some hn
  have heq : nf = f := hwf.unique hnm hfm (h.trans hfid.symm)
  subst heq
  simp [nextFilter] at hnf

theorem findById_map (store : Store) (h : Fixture → Fixture) (hid : ∀ x, (h x).id = x.id)
    (i : Id) : findById (store.map h) i = (findById store i).map h := by
  unfold findById
  apply find?_map_of_pres
  intro x
  rw [hid x]

theorem propagationTarget_ne (store : Store) (hwf : store.WF) (fid : Id) (body : UpdateBody)
    (f : Fixture) (hf : findById store fid = some f) (nid w : Id)
    (ht : propagationTarget store body f = some (nid, w)) : nid ≠ fid := by
  unfold propagationTarget at ht
  cases hk : knownWinner body f with
  | none => rw [hk] at ht; simp at ht
  | some w' =>
    rw [hk] at ht
    simp only at ht
    cases hn : store.find? (nextFilter f) with
    | none => rw [hn] at ht; simp at ht
    | some nf =>
      rw [hn] at ht
      simp only [Option.map_some', Option.some.injEq, Prod.mk.injEq] at ht
      rw [← ht.1]
      exact next_id_ne store hwf fid f nf hf hn

theorem updateStep_found (fid : Id) (body : UpdateBody) (d : Option (Option Id))
    (t : Option (Id × Id)) (m : Nat) (f : Fixture) (hid : f.id = fid)
    (ht : ∀ nid w, t = some (nid, w) → nid ≠ fid) :
    updateStep fid body d t m f = finishUpdate body d f := by
  unfold updateStep
  rcases t with _ | ⟨nid, w⟩
  · simp [hid]
  · have hne := ht nid w rfl
    have : (finishUpdate body d f).id ≠ nid := by
      rw [(finishUpdate_pos body d f).1, hid]; exact fun e => hne e.symm
    simp [hid, this]

/-- C5, propagation target and slot. When `updateFixture` on a stored fixture `f`
at `(r, m)` reaches its propagation step with a known winner `w` (sent with the
request or derived by either pass) and the store holds a fixture at
`(r + 1, ⌊m / 2⌋)` of the same tournament and event, then the fixture `findOne`
returns there is left with `teamA = w` for even `m` and `teamB = w` for odd `m`;
a winner on `(0, 3)` sets `teamB` of `(1, 1)`. -/
theorem propagation_target (store : Store) (fid : Id) (body : UpdateBody) (f : Fixture) (w : Id)
    (hwf : store.WF) (hf : findById store fid = some f)
    (hw : (updateFixture store fid body).winnerId = some w)
    (hex : ∃ g ∈ store, nextFilter f g = true) :
    ∃ nf, store.find? (nextFilter f) = some nf ∧
      findById (updateFixture store fid body).store nf.id = some (setSlot f.matchIndex w nf) ∧
      (updateFixture store fid body).store.find? (nextFilter f) =
        some (setSlot f.matchIndex w nf) ∧
      (setSlot f.matchIndex w nf).tournament = f.tournament ∧
      (setSlot f.matchIndex w nf).event = f.event ∧
      (setSlot f.matchIndex w nf).round = f.round + 1 ∧
      (setSlot f.matchIndex w nf).matchIndex = f.matchIndex / 2 ∧
      (f.matchIndex % 2 = 0 → (setSlot f.matchIndex w nf).teamA = some w) ∧
      (f.matchIndex % 2 = 1 → (setSlot f.matchIndex w nf).teamB = some w) ∧
      (f.round = 0 → f.matchIndex = 3 →
        (setSlot f.matchIndex w nf).round = 1 ∧ (setSlot f.matchIndex w nf).matchIndex = 1 ∧
        (setSlot f.matchIndex w nf).teamB = some w) := by
  obtain ⟨g, hg, hgn⟩ := hex
  cases hn : store.find? (nextFilter f) with
  | none => exact absurd hgn (by simpa using List.find?_eq_none.mp hn g hg)
  | some nf =>
    obtain ⟨hstore, hwin, _, _⟩ := updateFixture_store store fid body f hf
    rw [hw] at hwin
    have htarget : propagationTarget store body f = some (nf.id, w) := by
      unfold propagationTarget
      rw [← hwin, hn]; rfl
    have hne := next_id_ne store hwf fid f nf hf hn
    have hstep : updateStep fid body
        (secondPass (updateDataWinner body).truthy (applyUpdateData body f))
        (propagationTarget store body f) f.matchIndex nf = setSlot f.matchIndex w nf := by
      rw [htarget]
      simp [updateStep, hne]
    have hnf := List.find?_some hn
    have hpos : nf.tournament = f.tournament ∧ nf.event = f.event ∧ nf.round = f.round + 1 ∧
        nf.matchIndex = f.matchIndex / 2 := by
      simpa [nextFilter] using hnf
    have hsp := setSlot_pos f.matchIndex w nf
    refine ⟨nf, rfl, ?_, ?_, ?_, ?_, ?_, ?_, ?_, ?_, ?_⟩
    · rw [hstore, findById_map _ _ (fun x => (updateStep_pos _ _ _ _ _ x).1),
        findById_of_mem store hwf nf (List.mem_of_find?_eq_some hn), Option.map_some', hstep]
    · rw [hstore, find?_map_of_pres, hn, Option.map_some', hstep]
      intro x
      have hx := updateStep_pos fid body
        (secondPass (updateDataWinner body).truthy (applyUpdateData body f))
        (propagationTarget store body f) f.matchIndex x
      exact nextFilter_congr f f x _ ⟨rfl, rfl, rfl, rfl⟩ ⟨hx.2.1, hx.2.2.1, hx.2.2.2.1, hx.2.2.2.2⟩
    · rw [hsp.2.1]; exact hpos.1
    · rw [hsp.2.2.1]; exact hpos.2.1
    · rw [hsp.2.2.2.1]; exact hpos.2.2.1
    · rw [hsp.2.2.2.2]; exact hpos.2.2.2
    · intro h; simp [setSlot, h]
    · intro h; simp [setSlot, h]
    · intro h0 h3
      rw [hsp.2.2.2.1, hsp.2.2.2.2, hpos.2.2.1, hpos.2.2.2, h0, h3]
      refine ⟨rfl, rfl, ?_⟩
      simp [setSlot]

/-- The propagation theorem applied to the example store and a request
naming team `20` the winner of the fixture at `(0, 3)`. -/
theorem propagation_target_witness :
    sampleStore.WF ∧ findById sampleStore 1 = some sampleMatch ∧
    ∃ nf, sampleStore.find? (nextFilter sampleMatch) = some nf ∧
      findById (updateFixture sampleStore 1 { winner := Field.val 20 }).store nf.id =
        some (setSlot sampleMatch.matchIndex 20 nf) ∧
      (updateFixture sampleStore 1 { winner := Field.val 20 }).store.find?
        (nextFilter sampleMatch) = some (setSlot sampleMatch.matchIndex 20 nf) ∧
      (setSlot sampleMatch.matchIndex 20 nf).tournament = sampleMatch.tournament ∧
      (setSlot sampleMatch.matchIndex 20 nf).event = sampleMatch.event ∧
      (setSlot sampleMatch.matchIndex 20 nf).round = sampleMatch.round + 1 ∧
      (setSlot sampleMatch.matchIndex 20 nf).matchIndex = sampleMatch.matchIndex / 2 ∧
      (sampleMatch.matchIndex % 2 = 0 → (setSlot sampleMatch.matchIndex 20 nf).teamA = some 20) ∧
      (sampleMatch.matchIndex % 2 = 1 → (setSlot sampleMatch.matchIndex 20 nf).teamB = some 20) ∧
      (sampleMatch.round = 0 → sampleMatch.matchIndex = 3 →
        (setSlot sampleMatch.matchIndex 20 nf).round = 1 ∧
        (setSlot sampleMatch.matchIndex 20 nf).matchIndex = 1 ∧
        (setSlot sampleMatch.matchIndex 20 nf).teamB = some 20) :=
  ⟨by decide, by decide,
    propagation_target sampleStore 1 { winner := Field.val 20 } sampleMatch 20
      (by decide) (by decide) (by decide) ⟨sampleNext, by decide, by decide⟩⟩

/-- C6, the code at the failing input. A request with scores 3 : 1, no winner
and a stray `teamA = 99` on the fixture of teams `10` and `20` succeeds and
leaves the stored winner `99`, taken from the request body by the first
derivation pass, and writes `99` to the next round; the stored `teamA` is
`10`. -/
theorem winner_derived_from_body_sides :
    (updateFixture sampleStore 1
        { scoreA := Field.val 3, scoreB := Field.val 1, teamA := Field.val 99 }).success = true ∧
    ((findById (updateFixture sampleStore 1
        { scoreA := Field.val 3, scoreB := Field.val 1, teamA := Field.val 99 }).store 1).map
      fun f => (f.scoreA, f.scoreB, f.teamA, f.teamB, f.winner)) =
      some (some 3, some 1, some 10, some 20, some 99) ∧
    ((findById (updateFixture sampleStore 1
        { scoreA := Field.val 3, scoreB := Field.val 1, teamA := Field.val 99 }).store 2).map
      fun f => f.teamB) = some (some 99) := by
  decide

/-- C7 as stated fails. The request `scoreA = 3, scoreB = 1, winner = teamB`
on the fixture of teams `10` and `20` succeeds and leaves a fixture whose
stored scores differ while its winner is not the higher-scoring side. -/
theorem winner_consistency_counterexample :
    (updateFixture sampleStore 1
        { scoreA := Field.val 3, scoreB := Field.val 1, winner := Field.val 20 }).success = true ∧
    ¬ ∀ g ∈ (updateFixture sampleStore 1
        { scoreA := Field.val 3, scoreB := Field.val 1, winner := Field.val 20 }).store,
      WinnerConsistent g := by
  decide

theorem updateDataWinner_plain (body : UpdateBody) (hw : ∀ w, body.winner ≠ Field.val w)
    (hA : body.teamA = Field.absent) (hB : body.teamB = Field.absent) :
    (updateDataWinner body).truthy = none := by
  unfold updateDataWinner
  rcases hbw : body.winner with _ | _ | w
  · simp only [hA, hB]
    split_ifs <;> rfl
  · simp [Field.truthy]
  · exact absurd hbw (hw w)

theorem winnerConsistent_finish (body : UpdateBody) (f : Fixture)
    (ht : (updateDataWinner body).truthy = none) :
    WinnerConsistent (finishUpdate body
      (secondPass (updateDataWinner body).truthy (applyUpdateData body f)) f) := by
  rw [ht]
  unfold secondPass
  rcases ha : (applyUpdateData body f).scoreA with _ | a
  · simp only [finishUpdate]
    unfold WinnerConsistent
    rw [ha]
    trivial
  · rcases hb : (applyUpdateData body f).scoreB with _ | b
    · simp only [finishUpdate]
      unfold WinnerConsistent
      rw [ha, hb]
      trivial
    · simp only
      by_cases hab : a = b
      · simp only [hab, ne_eq, not_true_eq_false, if_false, finishUpdate]
        unfold WinnerConsistent
        rw [ha, hb]
        intro hne
        exact absurd hab hne
      · simp only [ne_eq, hab, not_false_eq_true, if_true, finishUpdate]
        unfold WinnerConsistent
        simp only [ha, hb]
        intro _
        trivial

/-- C7 amended. After a successful `updateFixture` whose request names no
winner (or `null`) and carries no `teamA` / `teamB`, the stored fixture agrees
with its scores: two stored unequal scores give the higher-scoring side as
stored winner. A winner named in the request is stored as the winner whatever
the scores. -/
theorem winner_consistency_amended (store : Store) (fid : Id) (body : UpdateBody) (f : Fixture)
    (hwf : store.WF) (hf : findById store fid = some f) :
    (updateFixture store fid body).success = true ∧
    ((∀ w, body.winner ≠ Field.val w) → body.teamA = Field.absent →
      body.teamB = Field.absent →
      ∃ g, findById (updateFixture store fid body).store fid = some g ∧ WinnerConsistent g) ∧
    (∀ w, body.winner = Field.val w →
      ∃ g, findById (updateFixture store fid body).store fid = some g ∧ g.winner = some w) := by
  obtain ⟨hstore, _, hsucc, _⟩ := updateFixture_store store fid body f hf
  have hfound : findById (updateFixture store fid body).store fid =
      some (finishUpdate body
        (secondPass (updateDataWinner body).truthy (applyUpdateData body f)) f) := by
    rw [hstore, findById_map _ _ (fun x => (updateStep_pos _ _ _ _ _ x).1), hf, Option.map_some',
      updateStep_found _ _ _ _ _ f (findById_some store fid f hf).2
        (fun nid w ht => propagationTarget_ne store hwf fid body f hf nid w ht)]
  refine ⟨hsucc, ?_, ?_⟩
  · intro hw hA hB
    exact ⟨_, hfound, winnerConsistent_finish body f (updateDataWinner_plain body hw hA hB)⟩
  · intro w hw
    refine ⟨_, hfound, ?_⟩
    have h1 : updateDataWinner body = Field.val w := by
      unfold updateDataWinner
      simp [hw]
    rw [h1]
    simp [Field.truthy, secondPass, finishUpdate, applyUpdateData, h1, Field.assign]

/-- The amended consistency theorem applied to the example store and a
request with scores 3 : 1. -/
theorem winner_consistency_amended_witness :
    sampleStore.WF ∧ findById sampleStore 1 = some sampleMatch ∧
    (updateFixture sampleStore 1 { scoreA := Field.val 3, scoreB := Field.val 1 }).success
      = true ∧
    ((∀ w, ({ scoreA := Field.val 3, scoreB := Field.val 1 } : UpdateBody).winner ≠ Field.val w) →
      ({ scoreA := Field.val 3, scoreB := Field.val 1 } : UpdateBody).teamA = Field.absent →
      ({ scoreA := Field.val 3, scoreB := Field.val 1 } : UpdateBody).teamB = Field.absent →
      ∃ g, findById (updateFixture sampleStore 1
          { scoreA := Field.val 3, scoreB := Field.val 1 }).store 1 = some g ∧
        WinnerConsistent g) ∧
    (∀ w, ({ scoreA := Field.val 3, scoreB := Field.val 1 } : UpdateBody).winner = Field.val w →
      ∃ g, findById (updateFixture sampleStore 1
          { scoreA := Field.val 3, scoreB := Field.val 1 }).store 1 = some g ∧
        g.winner = some w) :=
  ⟨by decide, by decide,
    winner_consistency_amended sampleStore 1 { scoreA := Field.val 3, scoreB := Field.val 1 }
      sampleMatch (by decide) (by decide)⟩

theorem applyUpdateData_idem (body : UpdateBody) (x : Fixture) :
    applyUpdateData body (applyUpdateData body x) = applyUpdateData body x := by
  simp [applyUpdateData, Field.assign_assign]

theorem finishUpdate_idem (body : UpdateBody) (d : Option (Option Id)) (x : Fixture) :
    finishUpdate body d (finishUpdate body d x) = finishUpdate body d x := by
  cases d with
  | none => exact applyUpdateData_idem body x
  | some w => simp [finishUpdate, applyUpdateData, Field.assign_assign]

theorem setSlot_idem (m : Nat) (w : Id) (x : Fixture) :
    setSlot m w (setSlot m w x) = setSlot m w x := by
  unfold setSlot; split_ifs <;> rfl

theorem updateStep_idem (fid : Id) (body : UpdateBody) (d : Option (Option Id))
    (t : Option (Id × Id)) (m : Nat) (ht : ∀ nid w, t = some (nid, w) → nid ≠ fid)
    (x : Fixture) :
    updateStep fid body d t m (updateStep fid body d t m x) = updateStep fid body d t m x := by
  by_cases hx : x.id = fid
  · rw [updateStep_found fid body d t m x hx ht,
      updateStep_found fid body d t m _ ((finishUpdate_pos body d x).1.trans hx) ht,
      finishUpdate_idem]
  · rcases t with _ | ⟨nid, w⟩
    · simp [updateStep, hx]
    · by_cases hn : x.id = nid
      · subst hn
        have h1 : updateStep fid body d (some (x.id, w)) m x = setSlot m w x := by
          simp [updateStep, hx]
        have h2 : (setSlot m w x).id = x.id := (setSlot_pos m w x).1
        rw [h1]
        simp [updateStep, h2, hx, setSlot_idem]
      · simp [updateStep, hx, hn]

theorem secondPass_congr (t : Option Id) (u u' : Fixture)
    (h : u'.scoreA = u.scoreA ∧ u'.scoreB = u.scoreB ∧ u'.teamA = u.teamA ∧ u'.teamB = u.teamB) :
    secondPass t u' = secondPass t u := by
  unfold secondPass
  rw [h.1, h.2.1, h.2.2.1, h.2.2.2]

theorem applyUpdateData_finish_scores (body : UpdateBody) (d : Option (Option Id))
    (f : Fixture) :
    (applyUpdateData body (finishUpdate body d f)).scoreA = (applyUpdateData body f).scoreA ∧
    (applyUpdateData body (finishUpdate body d f)).scoreB = (applyUpdateData body f).scoreB ∧
    (applyUpdateData body (finishUpdate body d f)).teamA = (applyUpdateData body f).teamA ∧
    (applyUpdateData body (finishUpdate body d f)).teamB = (applyUpdateData body f).teamB := by
  cases d <;> simp [finishUpdate, applyUpdateData, Field.assign_assign]

theorem updateFixture_not_found (store : Store) (fid : Id) (body : UpdateBody)
    (h : findById store fid = none) : (updateFixture store fid body).store = store := by
  unfold updateFixture
  rw [h]

/-- C8, update idempotence. Applying `updateFixture` twice in a row with the
same fixture id and the same request leaves the same store as applying it
once. -/
theorem updateFixture_idempotent (store : Store) (fid : Id) (body : UpdateBody)
    (hwf : store.WF) :
    (updateFixture (updateFixture store fid body).store fid body).store =
      (updateFixture store fid body).store := by
  cases hf : findById store fid with
  | none =>
    rw [updateFixture_not_found store fid body hf, updateFixture_not_found store fid body hf]
  | some f =>
    obtain ⟨hstore, _, _, _⟩ := updateFixture_store store fid body f hf
    have hne : ∀ nid w, propagationTarget store body f = some (nid, w) → nid ≠ fid :=
      fun nid w ht => propagationTarget_ne store hwf fid body f hf nid w ht
    generalize hd : secondPass (updateDataWinner body).truthy (applyUpdateData body f) = d
      at hstore
    generalize ht : propagationTarget store body f = t at hstore hne
    have hid : ∀ x, (updateStep fid body d t f.matchIndex x).id = x.id :=
      fun x => (updateStep_pos _ _ _ _ _ x).1
    have hf' : findById (updateFixture store fid body).store fid =
        some (finishUpdate body d f) := by
      rw [hstore, findById_map _ _ hid, hf, Option.map_some',
        updateStep_found _ _ _ _ _ f (findById_some store fid f hf).2 hne]
    obtain ⟨hstore', _, _, _⟩ :=
      updateFixture_store (updateFixture store fid body).store fid body _ hf'
    have hd' : secondPass (updateDataWinner body).truthy
        (applyUpdateData body (finishUpdate body d f)) = d := by
      rw [secondPass_congr _ _ _ (applyUpdateData_finish_scores body d f), hd]
    have hkw : knownWinner body (finishUpdate body d f) = knownWinner body f := by
      unfold knownWinner
      rw [hd', hd]
    have hnext : nextFilter (finishUpdate body d f) = nextFilter f := by
      funext g
      exact nextFilter_congr f _ g g (by simp [finishUpdate_pos]) (by simp)
    have ht' : propagationTarget (updateFixture store fid body).store body
        (finishUpdate body d f) = t := by
      rw [← ht]
      unfold propagationTarget
      rw [hkw, hnext, hstore, find?_map_of_pres]
      · cases knownWinner body f with
        | none => rfl
        | some w =>
          simp only [Option.map_map]
          congr 1
          funext x
          simp only [Function.comp, hid]
      · intro x
        have hx := updateStep_pos fid body d t f.matchIndex x
        exact nextFilter_congr f f x _ ⟨rfl, rfl, rfl, rfl⟩
          ⟨hx.2.1, hx.2.2.1, hx.2.2.2.1, hx.2.2.2.2⟩
    rw [hstore', hd', ht', (finishUpdate_pos body d f).2.2.2.2.1, hstore, List.map_map]
    apply List.map_congr_left
    intro x _
    exact updateStep_idem fid body d t f.matchIndex hne x

/-- The idempotence theorem applied to the example store and a request with
scores 3 : 1. -/
theorem updateFixture_idempotent_witness :
    sampleStore.WF ∧
    (updateFixture (updateFixture sampleStore 1
        { scoreA := Field.val 3, scoreB := Field.val 1 }).store 1
        { scoreA := Field.val 3, scoreB := Field.val 1 }).store =
      (updateFixture sampleStore 1 { scoreA := Field.val 3, scoreB := Field.val 1 }).store :=
  ⟨by decide,
    updateFixture_idempotent sampleStore 1 { scoreA := Field.val 3, scoreB := Field.val 1 }
      (by decide)⟩

/-! ## Theorems: standings -/

theorem Delta.plus_assoc (x y z : Delta) : (x.plus y).plus z = x.plus (y.plus z) := by
  simp [Delta.plus, add_assoc]

theorem Delta.plus_zero (x : Delta) : x.plus {} = x := by
  simp [Delta.plus]

theorem Delta.zero_plus (x : Delta) : Delta.plus {} x = x := by
  simp [Delta.plus]

theorem Standing.add_add (s : Standing) (x y : Delta) : (s.add x).add y = s.add (x.plus y) := by
  simp [Standing.add, Delta.plus, add_assoc]

theorem Standing.add_zero (s : Standing) : s.add {} = s := by
  simp [Standing.add]

theorem Standing.add_teamId (s : Standing) (x : Delta) : (s.add x).teamId = s.teamId := rfl

theorem foldl_bump (ops : List (Id × Delta)) (stats : List Standing) :
    ops.foldl bump stats = stats.map fun s => s.add (opsTotal s.teamId ops) := by
  induction ops generalizing stats with
  | nil => simp [opsTotal, Standing.add_zero]
  | cons op ops ih =>
    rw [List.foldl_cons, ih, bump, List.map_map]
    apply List.map_congr_left
    intro s _
    simp only [Function.comp, opsTotal]
    by_cases h : s.teamId = op.1
    · simp only [h, if_true, Standing.add_teamId, Standing.add_add]
    · have h' : ¬ op.1 = s.teamId := fun e => h e.symm
      simp only [h, h', if_false, Delta.zero_plus]

theorem opsTotal_increments (a b : Id) (sA sB : Int) (k : Id) :
    opsTotal k (increments a b sA sB) =
      (if a = k then credit sA sB else {}).plus (if b = k then credit sB sA else {}) := by
  unfold increments
  by_cases h1 : sA = sB
  · subst h1
    by_cases ha : a = k <;> by_cases hb : b = k <;>
      simp [opsTotal, ha, hb, Delta.plus, credit]
  · by_cases h2 : sA > sB
    · have h3 : ¬ sB > sA := by omega
      have h4 : ¬ sB = sA := fun e => h1 e.symm
      have h5 : ¬ sA < sB := by omega
      have h6 : sB < sA := h2
      by_cases ha : a = k <;> by_cases hb : b = k <;>
        simp [opsTotal, ha, hb, Delta.plus, credit, h1, h2, h3, h4, h5, h6]
    · have h3 : sB > sA := by omega
      have h4 : ¬ sB = sA := fun e => h1 e.symm
      have h5 : sA < sB := by omega
      have h6 : ¬ sB < sA := by omega
      by_cases ha : a = k <;> by_cases hb : b = k <;>
        simp [opsTotal, ha, hb, Delta.plus, credit, h1, h2, h3, h4, h5, h6]

theorem tally_eq (stats : List Standing) (fx : Fixture) :
    tally stats fx =
      (ensured stats fx).map fun s => s.add (fixtureDelta s.teamId fx) := by
  unfold tally ensured fixtureDelta
  rcases hA : fx.scoreA with _ | sA
  · simp [Standing.add_zero]
  · rcases hB : fx.scoreB with _ | sB
    · simp [Standing.add_zero]
    · rcases ha : fx.teamA with _ | a
      · simp [Standing.add_zero]
      · rcases hb : fx.teamB with _ | b
        · simp [Standing.add_zero]
        · simp only
          rw [foldl_bump]
          apply List.map_congr_left
          intro s _
          rw [opsTotal_increments]

theorem mem_keys_ensure (stats : List Standing) (o : Option Id) (p : Id) :
    p ∈ (ensure stats o).map (fun s => s.teamId) ↔
      p ∈ stats.map (fun s => s.teamId) ∨ o = some p := by
  unfold ensure
  rcases o with _ | i
  · simp
  · simp only
    by_cases h : (stats.any fun s => decide (s.teamId = i)) = true
    · rw [if_pos h]
      constructor
      · exact Or.inl
      · rintro (h' | h')
        · exact h'
        · cases h'
          rw [List.any_eq_true] at h
          obtain ⟨s, hs, hsi⟩ := h
          exact List.mem_map.mpr ⟨s, hs, by simpa using hsi⟩
    · rw [if_neg h]
      simp [Standing.zero, eq_comm]

theorem nodup_keys_ensure (stats : List Standing) (o : Option Id)
    (h : (stats.map fun s => s.teamId).Nodup) :
    ((ensure stats o).map fun s => s.teamId).Nodup := by
  unfold ensure
  rcases o with _ | i
  · exact h
  · simp only
    by_cases hany : (stats.any fun s => decide (s.teamId = i)) = true
    · rw [if_pos hany]; exact h
    · rw [if_neg hany, List.map_append, List.nodup_append]
      refine ⟨h, by simp, ?_⟩
      intro p hp hp'
      simp only [List.map_cons, List.map_nil, List.mem_singleton, Standing.zero] at hp'
      subst hp'
      apply hany
      rw [List.any_eq_true]
      obtain ⟨s, hs, hsp⟩ := List.mem_map.mp hp
      exact ⟨s, hs, by simpa using hsp⟩

theorem mem_ensure (stats : List Standing) (o : Option Id) (s : Standing)
    (hs : s ∈ ensure stats o) :
    s ∈ stats ∨ (s = Standing.zero s.teamId ∧ s.teamId ∉ stats.map fun t => t.teamId) := by
  unfold ensure at hs
  rcases o with _ | i
  · exact Or.inl hs
  · simp only at hs
    by_cases hany : (stats.any fun s => decide (s.teamId = i)) = true
    · rw [if_pos hany] at hs; exact Or.inl hs
    · rw [if_neg hany, List.mem_append] at hs
      rcases hs with hs | hs
      · exact Or.inl hs
      · right
        simp only [List.mem_singleton] at hs
        subst hs
        refine ⟨rfl, ?_⟩
        intro hp
        apply hany
        rw [List.any_eq_true]
        obtain ⟨t, ht, htp⟩ := List.mem_map.mp hp
        exact ⟨t, ht, by simpa [Standing.zero] using htp⟩

theorem mem_keys_ensured (stats : List Standing) (fx : Fixture) (p : Id) :
    p ∈ (ensured stats fx).map (fun s => s.teamId) ↔
      p ∈ stats.map (fun s => s.teamId) ∨
        (fx.scoreA ≠ none ∧ fx.scoreB ≠ none ∧ (fx.teamA = some p ∨ fx.teamB = some p)) := by
  unfold ensured
  rcases hA : fx.scoreA with _ | sA
  · simp
  · rcases hB : fx.scoreB with _ | sB
    · simp
    · simp only [mem_keys_ensure]
      simp [or_assoc]

theorem nodup_keys_ensured (stats : List Standing) (fx : Fixture)
    (h : (stats.map fun s => s.teamId).Nodup) :
    ((ensured stats fx).map fun s => s.teamId).Nodup := by
  unfold ensured
  split
  · exact nodup_keys_ensure _ _ (nodup_keys_ensure _ _ h)
  · exact h

theorem mem_ensured (stats : List Standing) (fx : Fixture) (s : Standing)
    (hs : s ∈ ensured stats fx) :
    s ∈ stats ∨ (s = Standing.zero s.teamId ∧ s.teamId ∉ stats.map fun t => t.teamId) := by
  unfold ensured at hs
  split at hs
  · rcases mem_ensure _ _ s hs with h | ⟨h1, h2⟩
    · exact mem_ensure _ _ s h
    · right
      refine ⟨h1, fun hp => h2 ?_⟩
      exact (mem_keys_ensure _ _ _).mpr (Or.inl hp)
  · exact Or.inl hs

theorem totalDelta_append (p : Id) (hist : List Fixture) (fx : Fixture) :
    totalDelta p (hist ++ [fx]) = (totalDelta p hist).plus (fixtureDelta p fx) := by
  induction hist with
  | nil => simp [totalDelta, Delta.plus_zero, Delta.zero_plus]
  | cons g hist ih => simp [totalDelta, ih, Delta.plus_assoc]

theorem fixtureDelta_of_not_side (p : Id) (fx : Fixture)
    (h : ¬ (fx.scoreA ≠ none ∧ fx.scoreB ≠ none ∧ (fx.teamA = some p ∨ fx.teamB = some p))) :
    fixtureDelta p fx = {} := by
  unfold fixtureDelta
  rcases hA : fx.scoreA with _ | sA
  · rfl
  · rcases hB : fx.scoreB with _ | sB
    · rfl
    · rcases ha : fx.teamA with _ | a
      · rfl
      · rcases hb : fx.teamB with _ | b
        · rfl
        · simp only [hA, hB, ha, hb, ne_eq, not_false_eq_true, Option.some.injEq, true_and,
            reduceCtorEq] at h
          have h1 : ¬ a = p := fun e => h (Or.inl e)
          have h2 : ¬ b = p := fun e => h (Or.inr e)
          simp [h1, h2, Delta.plus]

theorem tracks_step (stats : List Standing) (hist : List Fixture) (fx : Fixture)
    (h : Tracks stats hist) : Tracks (tally stats fx) (hist ++ [fx]) := by
  obtain ⟨h1, h2, h3, h4⟩ := h
  have hkeys : (tally stats fx).map (fun s => s.teamId) =
      (ensured stats fx).map fun s => s.teamId := by
    rw [tally_eq, List.map_map]
    rfl
  refine ⟨?_, ?_, ?_, ?_⟩
  · rw [hkeys]; exact nodup_keys_ensured stats fx h1
  · intro s' hs'
    rw [tally_eq] at hs'
    obtain ⟨s, hs, rfl⟩ := List.mem_map.mp hs'
    have hrec : s = recordOf s.teamId hist := by
      rcases mem_ensured stats fx s hs with hold | ⟨hz, hnew⟩
      · exact h2 s hold
      · unfold recordOf
        rw [h3 _ hnew, Standing.add_zero]
        exact hz
    rw [Standing.add_teamId]
    unfold recordOf
    rw [totalDelta_append, ← Standing.add_add]
    congr 1
  · intro p hp
    rw [hkeys, mem_keys_ensured] at hp
    rw [totalDelta_append, h3 p (fun hin => hp (Or.inl hin)),
      fixtureDelta_of_not_side p fx (fun hside => hp (Or.inr hside))]
    rfl
  · intro g hg hA hB p hside
    rw [hkeys, mem_keys_ensured]
    rcases List.mem_append.mp hg with hg | hg
    · exact Or.inl (h4 g hg hA hB p hside)
    · simp only [List.mem_singleton] at hg
      subst hg
      exact Or.inr ⟨hA, hB, hside⟩

theorem tracks_foldl (fs : List Fixture) :
    ∀ (stats : List Standing) (hist : List Fixture), Tracks stats hist →
      Tracks (fs.foldl tally stats) (hist ++ fs) := by
  induction fs with
  | nil => intro stats hist h; simpa using h
  | cons fx fs ih =>
    intro stats hist h
    have := ih (tally stats fx) (hist ++ [fx]) (tracks_step stats hist fx h)
    simpa using this

theorem tracks_nil : Tracks [] [] := by
  refine ⟨by simp, by simp, ?_, by simp⟩
  intro p _
  rfl

theorem tracks_all (fs : List Fixture) : Tracks (fs.foldl tally []) fs := by
  simpa using tracks_foldl fs [] [] tracks_nil

theorem fixtureDelta_of_distinct (p : Id) (fx : Fixture)
    (hns : ¬ (fx.teamA = some p ∧ fx.teamB = some p)) :
    fixtureDelta p fx =
      if countsFor p fx = true then credit (ownScore p fx) (oppScore p fx) else {} := by
  unfold fixtureDelta countsFor ownScore oppScore
  rcases hA : fx.scoreA with _ | sA
  · simp
  · rcases hB : fx.scoreB with _ | sB
    · simp
    · rcases ha : fx.teamA with _ | a
      · simp
      · rcases hb : fx.teamB with _ | b
        · simp
        · rw [ha, hb] at hns
          by_cases h1 : a = p
          · have h2 : ¬ b = p := fun e => hns ⟨by rw [h1], by rw [e]⟩
            simp [h1, h2, Delta.plus_zero]
          · by_cases h2 : b = p
            · simp [h1, h2, Delta.zero_plus]
            · simp [h1, h2, Delta.plus]

theorem totalDelta_fields (p : Id) (fs : List Fixture)
    (hns : ∀ fx ∈ fs, ¬ (fx.teamA = some p ∧ fx.teamB = some p)) :
    (totalDelta p fs).played = (fs.filter (countsFor p)).length ∧
    (totalDelta p fs).goalsFor = ((fs.filter (countsFor p)).map (ownScore p)).sum ∧
    (totalDelta p fs).goalsAgainst = ((fs.filter (countsFor p)).map (oppScore p)).sum ∧
    (totalDelta p fs).won =
      (fs.filter (countsFor p)).countP (fun fx => ownScore p fx > oppScore p fx) ∧
    (totalDelta p fs).draw =
      (fs.filter (countsFor p)).countP (fun fx => ownScore p fx = oppScore p fx) ∧
    (totalDelta p fs).lost =
      (fs.filter (countsFor p)).countP (fun fx => ownScore p fx < oppScore p fx) ∧
    (totalDelta p fs).points = 3 * (totalDelta p fs).won + 1 * (totalDelta p fs).draw := by
  induction fs with
  | nil => simp [totalDelta]
  | cons fx fs ih =>
    obtain ⟨i1, i2, i3, i4, i5, i6, i7⟩ := ih (fun g hg => hns g (List.mem_cons_of_mem fx hg))
    have hd := fixtureDelta_of_distinct p fx (hns fx (List.mem_cons_self fx fs))
    by_cases hc : countsFor p fx = true
    · rw [if_pos hc] at hd
      simp only [totalDelta, hd, Delta.plus, credit, List.filter_cons, hc, if_true,
        List.length_cons, List.map_cons, List.sum_cons, List.countP_cons, i1, i2, i3, i4, i5, i6]
      refine ⟨by omega, trivial, trivial, ?_, ?_, ?_, ?_⟩
      · by_cases h : ownScore p fx > oppScore p fx <;> simp [h] <;> omega
      · by_cases h : ownScore p fx = oppScore p fx <;> simp [h] <;> omega
      · by_cases h : ownScore p fx < oppScore p fx <;> simp [h] <;> omega
      · rw [← i4, ← i5, i7]
        by_cases h : ownScore p fx > oppScore p fx
        · have h' : ¬ ownScore p fx = oppScore p fx := by omega
          simp [h, h']; omega
        · by_cases h' : ownScore p fx = oppScore p fx
          · simp [h']; omega
          · simp [h, h']
    · rw [if_neg hc] at hd
      simp only [totalDelta, hd, Delta.zero_plus, List.filter_cons, hc]
      exact ⟨i1, i2, i3, i4, i5, i6, i7⟩

theorem recordMatches_recordOf (p : Id) (fs : List Fixture)
    (hns : ∀ fx ∈ fs, ¬ (fx.teamA = some p ∧ fx.teamB = some p)) :
    RecordMatches fs (recordOf p fs) := by
  obtain ⟨i1, i2, i3, i4, i5, i6, i7⟩ := totalDelta_fields p fs hns
  unfold RecordMatches
  simp only [recordOf, Standing.add, Standing.zero, Nat.zero_add, Int.zero_add]
  exact ⟨i1, i2, i3, i4, i5, i6, i7⟩

theorem mem_computeStandings (fs : List Fixture) (rec : Standing) :
    rec ∈ computeStandings fs ↔ rec ∈ fs.foldl tally [] := by
  unfold computeStandings sortStandings
  exact (List.perm_insertionSort rankedBefore _).mem_iff

/-- C9 as stated fails. For the single fixture of participant `10` against
itself, scored 2 : 1, the record of `10` is not the tally of the fixtures that
count for it: the fixture is entered once for each side (played 2, goals 3 : 3). -/
theorem standings_self_match_counted_twice :
    ¬ ∀ rec ∈ computeStandings [selfMatch], RecordMatches [selfMatch] rec := by
  decide

/-- C9 amended. For every fixture list in which no fixture has the same
participant on both sides, every record of the standings is the tally of the
fixtures with both scores and both teams present that its participant takes
part in (played, goals for and against, won, draw, lost, points = 3 won + draw);
there is one record per participant, a record for every side of a fixture with
a result, and a fixture with a `null` score changes no record. -/
theorem standings_accumulation (fs : List Fixture)
    (hns : ∀ fx ∈ fs, ∀ p, ¬ (fx.teamA = some p ∧ fx.teamB = some p)) :
    (∀ rec ∈ computeStandings fs, RecordMatches fs rec) ∧
    ((computeStandings fs).map fun s => s.teamId).Nodup ∧
    (∀ fx ∈ fs, fx.scoreA ≠ none → fx.scoreB ≠ none →
      ∀ p, fx.teamA = some p ∨ fx.teamB = some p →
        ∃ rec ∈ computeStandings fs, rec.teamId = p) ∧
    (∀ stats fx, fx.scoreA = none ∨ fx.scoreB = none → tally stats fx = stats) := by
  obtain ⟨h1, h2, _, h4⟩ := tracks_all fs
  refine ⟨?_, ?_, ?_, ?_⟩
  · intro rec hrec
    rw [mem_computeStandings] at hrec
    rw [h2 rec hrec]
    exact recordMatches_recordOf rec.teamId fs (fun fx hfx => hns fx hfx rec.teamId)
  · have hperm : (computeStandings fs).Perm (fs.foldl tally []) := by
      unfold computeStandings sortStandings
      exact List.perm_insertionSort rankedBefore _
    exact (hperm.map _).nodup_iff.mpr h1
  · intro fx hfx hA hB p hside
    obtain ⟨rec, hrec, hp⟩ := List.mem_map.mp (h4 fx hfx hA hB p hside)
    exact ⟨rec, (mem_computeStandings fs rec).mpr hrec, hp⟩
  · intro stats fx hnull
    unfold tally
    rcases hnull with h | h
    · rw [h]
    · rw [h]
      cases fx.scoreA <;> rfl

/-- The accumulation theorem applied to one fixture of two different teams. -/
theorem standings_accumulation_witness :
    (∀ fx ∈ [{ selfMatch with teamB := some 20 }], ∀ p,
      ¬ (fx.teamA = some p ∧ fx.teamB = some p)) ∧
    ∀ rec ∈ computeStandings [{ selfMatch with teamB := some 20 }],
      RecordMatches [{ selfMatch with teamB := some 20 }] rec :=
  ⟨by simp [selfMatch],
    (standings_accumulation [{ selfMatch with teamB := some 20 }] (by simp [selfMatch])).1⟩

theorem rankedBefore_iff (x y : Standing) :
    rankedBefore x y ↔
      x.points > y.points ∨ (x.points = y.points ∧ x.goalDiff ≥ y.goalDiff) := by
  unfold rankedBefore standingsCompare
  split_ifs with h <;> omega

/-- C10, standings ranking order. In the list `getStandings` returns, a record
placed before another has more points, or equal points and a goal difference at
least as large; rows with points 6, 6, 3 and goal differences +2, +5, 0 rank as
goal difference +5, then +2, then the row with 3 points. -/
theorem standings_ranking (fs : List Fixture) :
    (computeStandings fs).Pairwise
      (fun x y => x.points > y.points ∨ (x.points = y.points ∧ x.goalDiff ≥ y.goalDiff)) ∧
    (∀ store tournamentId eventId matchType,
      (getStandings store tournamentId eventId matchType).Pairwise
        (fun x y => x.points > y.points ∨ (x.points = y.points ∧ x.goalDiff ≥ y.goalDiff))) ∧
    ((sortStandings sampleRows).map fun s => (s.teamId, s.points, s.goalDiff)) =
      [(2, 6, 5), (1, 6, 2), (3, 3, 0)] := by
  have key : ∀ l : List Fixture, (computeStandings l).Pairwise
      (fun x y => x.points > y.points ∨ (x.points = y.points ∧ x.goalDiff ≥ y.goalDiff)) := by
    intro l
    have h : List.Sorted rankedBefore (computeStandings l) :=
      List.sorted_insertionSort rankedBefore _
    exact List.Pairwise.imp (fun {x y} hxy => (rankedBefore_iff x y).mp hxy) h
  exact ⟨key fs, fun store t e m => key _, by decide⟩

/-! ## Theorems: seeding and round names -/

theorem seedLoop_eq (q : List Id) :
    ∀ (n l : Nat) (r : Int) (out : List Id), (r + 1 - (l : Int)).toNat = n →
      seedLoop q l r out = out ++ weave q l n := by
  intro n
  induction n using Nat.strong_induction_on with
  | _ n ih =>
    intro l r out h
    rw [seedLoop]
    match n, h with
    | 0, h =>
      have : ¬ (l : Int) ≤ r := by omega
      simp [this, weave]
    | 1, h =>
      have h1 : (l : Int) ≤ r := by omega
      have h2 : ¬ (l : Int) ≠ r := by omega
      simp only [h1, h2, if_true, if_false]
      rw [ih 0 (by omega) (l + 1) (r - 1) _ (by omega)]
      simp [weave]
    | n + 2, h =>
      have h1 : (l : Int) ≤ r := by omega
      have h2 : (l : Int) ≠ r := by omega
      have h3 : r.toNat = l + n + 1 := by omega
      simp only [h1, h2, if_true, ne_eq, not_false_eq_true, h3]
      rw [ih n (by omega) (l + 1) (r - 1) _ (by omega)]
      simp [weave, List.append_assoc]

theorem seedOrder_eq (q : List Id) : seedOrder q = weave q 0 q.length := by
  unfold seedOrder
  rw [seedLoop_eq q q.length 0 _ [] (by omega)]
  simp

theorem weave_length (q : List Id) :
    ∀ (n l : Nat), l + n ≤ q.length → (weave q l n).length = n := by
  intro n
  induction n using Nat.strong_induction_on with
  | _ n ih =>
    intro l h
    match n, h with
    | 0, _ => simp [weave]
    | 1, h =>
      have hl : l < q.length := by omega
      simp [weave, List.getElem?_eq_getElem hl]
    | n + 2, h =>
      have hl : l < q.length := by omega
      have hr : l + n + 1 < q.length := by omega
      simp [weave, List.getElem?_eq_getElem hl, List.getElem?_eq_getElem hr,
        ih n (by omega) (l + 1) (by omega)]

theorem weave_getElem? (q : List Id) :
    ∀ (n l i : Nat), l + n ≤ q.length →
      (2 * i + 1 < n →
        (weave q l n)[2 * i]? = q[l + i]? ∧ (weave q l n)[2 * i + 1]? = q[l + n - 1 - i]?) ∧
      (2 * i + 1 = n → (weave q l n)[2 * i]? = q[l + i]?) := by
  intro n
  induction n using Nat.strong_induction_on with
  | _ n ih =>
    intro l i h
    match n, h with
    | 0, _ => exact ⟨fun h => by omega, fun h => by omega⟩
    | 1, h =>
      have hl : l < q.length := by omega
      refine ⟨fun h => by omega, fun h => ?_⟩
      have hi : i = 0 := by omega
      subst hi
      simp [weave, List.getElem?_eq_getElem hl]
    | n + 2, h =>
      have hl : l < q.length := by omega
      have hr : l + n + 1 < q.length := by omega
      have hw : weave q l (n + 2) = q[l] :: q[l + n + 1] :: weave q (l + 1) n := by
        simp [weave, List.getElem?_eq_getElem hl, List.getElem?_eq_getElem hr]
      rw [hw]
      cases i with
      | zero =>
        refine ⟨fun _ => ⟨?_, ?_⟩, fun h => by omega⟩
        · simp [List.getElem?_eq_getElem hl]
        · have e : l + (n + 2) - 1 - 0 = l + n + 1 := by omega
          rw [e, List.getElem?_eq_getElem hr]
          simp
      | succ i =>
        have := ih n (by omega) (l + 1) i (by omega)
        have e1 : 2 * (i + 1) = 2 * i + 1 + 1 := by ring
        have e2 : 2 * (i + 1) + 1 = 2 * i + 1 + 1 + 1 := by ring
        have e3 : l + 1 + i = l + (i + 1) := by ring
        rw [e1, List.getElem?_cons_succ, List.getElem?_cons_succ, ← e3]
        refine ⟨fun h2 => ?_, fun h2 => ?_⟩
        · have h3 := this.1 (by omega)
          refine ⟨h3.1, ?_⟩
          rw [List.getElem?_cons_succ, List.getElem?_cons_succ, h3.2]
          congr 1
          omega
        · exact this.2 (by omega)

theorem weave_perm (q : List Id) :
    ∀ (n l : Nat), l + n ≤ q.length → (weave q l n).Perm ((q.drop l).take n) := by
  intro n
  induction n using Nat.strong_induction_on with
  | _ n ih =>
    intro l h
    match n, h with
    | 0, _ => simp [weave]
    | 1, h =>
      have hl : l < q.length := by omega
      rw [List.drop_eq_getElem_cons hl, List.take_succ_cons, List.take_zero]
      simp [weave, List.getElem?_eq_getElem hl]
    | n + 2, h =>
      have hl : l < q.length := by omega
      have hr : l + n + 1 < q.length := by omega
      have hw : weave q l (n + 2) = q[l] :: q[l + n + 1] :: weave q (l + 1) n := by
        simp [weave, List.getElem?_eq_getElem hl, List.getElem?_eq_getElem hr]
      have hlen : n < (q.drop (l + 1)).length := by simp; omega
      have ht : (q.drop l).take (n + 2) =
          q[l] :: (((q.drop (l + 1)).take n) ++ [q[l + n + 1]]) := by
        rw [List.drop_eq_getElem_cons hl, List.take_succ_cons, List.take_succ]
        congr 2
        rw [List.getElem?_drop, List.getElem?_eq_getElem (by omega)]
        simp only [Option.toList]
        congr 2
        omega
      rw [hw, ht]
      refine List.Perm.cons _ ?_
      refine (List.Perm.cons _ (ih n (by omega) (l + 1) (by omega))).trans ?_
      exact (List.perm_append_singleton _ _).symm

/-- C11, qualification seeding. For a ranked list `seed` of `K ≥ 2` qualifiers
the seeding loop of `generateKnockoutFromStandings` returns a list of length
`K` that is a permutation of `seed`, with `out[2i] = seed[i]` and
`out[2i+1] = seed[K-1-i]` for every `i < ⌊K/2⌋` and, for odd `K`, the middle
seed in the last place; `[1,2,3,4]` becomes `[1,4,2,3]`, and the first round of
the bracket built from it pairs `1 v 4` and `2 v 3`. -/
theorem seeding_order (tid : Id) (eid : Option Id) (start : Nat) (seed : List Id)
    (hK : 2 ≤ seed.length) :
    (seedOrder seed).length = seed.length ∧ (seedOrder seed).Perm seed ∧
    (∀ i, i < seed.length / 2 →
      (seedOrder seed)[2 * i]? = seed[i]? ∧
      (seedOrder seed)[2 * i + 1]? = seed[seed.length - 1 - i]?) ∧
    (seed.length % 2 = 1 → (seedOrder seed)[seed.length - 1]? = seed[seed.length / 2]?) ∧
    seedOrder [1, 2, 3, 4] = [1, 4, 2, 3] ∧
    (((knockoutFromStandingsDocs tid eid start (seedOrder [1, 2, 3, 4])).filter
        fun d => d.round = start).map fun d => (d.matchIndex, d.teamA, d.teamB)) =
      [(0, some 1, some 4), (1, some 2, some 3)] := by
  have h4 : seedOrder [1, 2, 3, 4] = [1, 4, 2, 3] := by
    rw [seedOrder_eq]; rfl
  refine ⟨?_, ?_, ?_, ?_, h4, ?_⟩
  · rw [seedOrder_eq]; exact weave_length seed _ 0 (by omega)
  · rw [seedOrder_eq]
    have := weave_perm seed seed.length 0 (by omega)
    simpa using this
  · intro i hi
    rw [seedOrder_eq]
    have := (weave_getElem? seed seed.length 0 i (by omega)).1 (by omega)
    simpa using this
  · intro hodd
    rw [seedOrder_eq]
    have := (weave_getElem? seed seed.length 0 (seed.length / 2) (by omega)).2 (by omega)
    have e : 2 * (seed.length / 2) = seed.length - 1 := by omega
    rw [e] at this
    simpa using this
  · rw [h4]
    have h5 : Nat.clog 2 [1, 4, 2, 3].length = 2 := by simp [Nat.clog]
    rw [knockoutFromStandingsDocs_closed, h5]
    unfold padWithByes nextPowerOfTwo
    rw [h5]
    simp [bracketRounds, koRound, List.range_succ, List.filter_cons]

/-- The seeding theorem applied to three qualifiers. -/
theorem seeding_order_witness :
    2 ≤ [5, 6, 7].length ∧
    (seedOrder [5, 6, 7]).length = [5, 6, 7].length ∧ (seedOrder [5, 6, 7]).Perm [5, 6, 7] ∧
    (∀ i, i < [5, 6, 7].length / 2 →
      (seedOrder [5, 6, 7])[2 * i]? = [5, 6, 7][i]? ∧
      (seedOrder [5, 6, 7])[2 * i + 1]? = [5, 6, 7][[5, 6, 7].length - 1 - i]?) ∧
    ([5, 6, 7].length % 2 = 1 →
      (seedOrder [5, 6, 7])[[5, 6, 7].length - 1]? = [5, 6, 7][[5, 6, 7].length / 2]?) :=
  ⟨by decide, (seeding_order 0 none 0 [5, 6, 7] (by decide)).1,
    (seeding_order 0 none 0 [5, 6, 7] (by decide)).2.1,
    (seeding_order 0 none 0 [5, 6, 7] (by decide)).2.2.1,
    (seeding_order 0 none 0 [5, 6, 7] (by decide)).2.2.2.1⟩

/-- C12, round naming. The name `getRoundName round totalRounds` is decided by
`totalRounds - 1 - round`: the values `0`, `1`, `2`, `3` give "Final",
"Semi-Final", "Quarter-Final" and "Round of 16", any other value gives
"Round " followed by `round + 1`; `(0, 4)` gives "Round of 16", `(3, 4)` gives
"Final" and `(0, 3)` gives "Quarter-Final". -/
theorem getRoundName_table (round totalRounds : Int) :
    getRoundName round totalRounds =
      (if totalRounds - 1 - round = 0 then "Final"
       else if totalRounds - 1 - round = 1 then "Semi-Final"
       else if totalRounds - 1 - round = 2 then "Quarter-Final"
       else if totalRounds - 1 - round = 3 then "Round of 16"
       else "Round " ++ toString (round + 1)) ∧
    getRoundName round (round + 1) = "Final" ∧
    getRoundName round (round + 2) = "Semi-Final" ∧
    getRoundName round (round + 3) = "Quarter-Final" ∧
    getRoundName round (round + 4) = "Round of 16" ∧
    getRoundName 0 4 = "Round of 16" ∧ getRoundName 3 4 = "Final" ∧
    getRoundName 0 3 = "Quarter-Final" ∧ getRoundName 0 5 = "Round 1" := by
  refine ⟨rfl, ?_, ?_, ?_, ?_, by decide, by decide, by decide, by decide⟩
  · unfold getRoundName
    simp
  · unfold getRoundName
    have h0 : ¬ (round + 2 - 1 - round = 0) := by omega
    have h1 : round + 2 - 1 - round = 1 := by omega
    simp only [h0, h1, if_true, if_false]
    simp
  · unfold getRoundName
    have h0 : ¬ (round + 3 - 1 - round = 0) := by omega
    have h1 : ¬ (round + 3 - 1 - round = 1) := by omega
    have h2 : round + 3 - 1 - round = 2 := by omega
    simp only [h0, h1, h2, if_true, if_false]
    simp
  · unfold getRoundName
    have h0 : ¬ (round + 4 - 1 - round = 0) := by omega
    have h1 : ¬ (round + 4 - 1 - round = 1) := by omega
    have h2 : ¬ (round + 4 - 1 - round = 2) := by omega
    have h3 : round + 4 - 1 - round = 3 := by omega
    simp only [h0, h1, h2, h3, if_true, if_false]
    simp

/-! ## Theorems: generation on the store -/

theorem isRoundRobin_event (eventId : Option Id) (env : Lookups)
    (h : isRoundRobin eventId env = true) : ∃ e, eventId = some e := by
  cases eventId with
  | none => simp [isRoundRobin, evtMatchType] at h
  | some e => exact ⟨e, rfl⟩

theorem scopeFilter_some (tid e : Id) (f : Fixture) :
    scopeFilter tid (some e) f = (decide (f.tournament = tid) && decide (f.event = some e)) := rfl

/-- After the erasure of the round-robin branch no round-robin fixture of the
scope is left, so the hybrid check finds none. -/
theorem existingRR_after_erasure (store : Store) (tid e : Id) :
    ((deleteMany store fun f => scopeFilter tid (some e) f && rrOrLegacy f).filter fun f =>
      decide (f.tournament = tid) && decide (f.event = some e) &&
        decide (f.phase = some Phase.rr)) = [] := by
  unfold deleteMany
  rw [List.filter_filter, List.filter_eq_nil_iff]
  intro f _
  simp only [scopeFilter_some, rrOrLegacy]
  cases decide (f.tournament = tid) <;> cases decide (f.event = some e) <;>
    cases decide (f.phase = some Phase.rr) <;> simp

/-- Without `force`, the round-robin branch on a hybrid event erases the
round-robin and legacy fixtures of the scope and inserts a new schedule. -/
theorem generateFixtures_hybrid (store : Store) (tid e : Id) (env : Lookups)
    (teams ps : List Id) (shuffle : List Id → List Id) (freshId : Nat → Id) (now : Nat)
    (ht : env.tournamentTeams = some teams)
    (hp : resolveParticipants (some e) env teams = some ps) (h2 : 2 ≤ ps.length)
    (hrr : isRoundRobin (some e) env = true) (hh : isHybridRRKO (some e) env = true) :
    generateFixtures store tid (some e) false env shuffle freshId now =
      { success := true
        fixtures := insertMany (roundRobinDocs tid (some e) ps) freshId now
        store := (deleteMany store fun f => scopeFilter tid (some e) f && rrOrLegacy f) ++
          insertMany (roundRobinDocs tid (some e) ps) freshId now } := by
  unfold generateFixtures
  rw [ht]
  simp only
  rw [hp]
  simp only [if_neg (not_lt.mpr h2), hrr, hh, if_true, Bool.false_eq_true, if_false,
    existingRR_after_erasure, List.length_nil, gt_iff_lt, lt_self_iff_false]

/-- C13, the code at the failing input. The hybrid event `6` of tournament `5`
holds the played round-robin fixture `rrPlayed` (result 2 : 1, winner `1`).
`generateFixtures` without `force` reports success, the played fixture is gone
from the store, and the store holds one newly inserted fixture `1 v 2` without
scores, which is also what is sent back: the erasure of the round-robin and
legacy fixtures runs before the check for existing round-robin fixtures, so
that check finds none. The same happens when the played fixture is stored
without a `phase`. -/
theorem hybrid_regeneration_not_refused :
    (generateFixtures [rrPlayed] 5 (some 6) false hybridEnv id (fun i => 200 + i) 9).success
      = true ∧
    rrPlayed ∉ (generateFixtures [rrPlayed] 5 (some 6) false hybridEnv id
      (fun i => 200 + i) 9).store ∧
    (generateFixtures [rrPlayed] 5 (some 6) false hybridEnv id (fun i => 200 + i) 9).store =
      [{ id := 200, tournament := 5, event := some 6, round := 0, roundName := "Matchday 1"
         matchIndex := 0, teamA := some 1, teamB := some 2, scheduledAt := some 9
         status := some Status.scheduled, scoreA := none, scoreB := none, winner := none
         notes := none, phase := none }] ∧
    (generateFixtures [rrPlayed] 5 (some 6) false hybridEnv id (fun i => 200 + i) 9).fixtures =
      (generateFixtures [rrPlayed] 5 (some 6) false hybridEnv id (fun i => 200 + i) 9).store ∧
    isHybridRRKO (some 6) hybridEnv = true ∧
    ([rrPlayed].filter fun f => inScope 5 (some 6) f && decide (f.phase = some Phase.rr)) =
      [rrPlayed] ∧
    (generateFixtures [rrPlayedLegacy] 5 (some 6) false hybridEnv id
      (fun i => 200 + i) 9).store =
      (generateFixtures [rrPlayed] 5 (some 6) false hybridEnv id (fun i => 200 + i) 9).store := by
  rw [generateFixtures_hybrid [rrPlayed] 5 6 hybridEnv [] [1, 2] id _ 9 rfl (by decide)
    (by decide) (by decide) (by decide),
    generateFixtures_hybrid [rrPlayedLegacy] 5 6 hybridEnv [] [1, 2] id _ 9 rfl (by decide)
    (by decide) (by decide) (by decide)]
  decide

theorem insertManyFrom_map {β : Type} (g : Fixture → β) (g' : FixtureDoc → β)
    (h : ∀ d id now, g (d.toFixture id now) = g' d) (freshId : Nat → Id) (now : Nat) :
    ∀ (docs : List FixtureDoc) (i : Nat),
      (insertManyFrom freshId now i docs).map g = docs.map g' := by
  intro docs
  induction docs with
  | nil => intro i; rfl
  | cons d ds ih =>
    intro i
    simp only [insertManyFrom, List.map_cons, h, ih]

theorem insertMany_map {β : Type} (g : Fixture → β) (g' : FixtureDoc → β)
    (h : ∀ d id now, g (d.toFixture id now) = g' d) (docs : List FixtureDoc)
    (freshId : Nat → Id) (now : Nat) :
    (insertMany docs freshId now).map g = docs.map g' :=
  insertManyFrom_map g g' h freshId now docs 0

theorem mem_insertMany (docs : List FixtureDoc) (freshId : Nat → Id) (now : Nat) (f : Fixture)
    (hf : f ∈ insertMany docs freshId now) :
    ∃ d ∈ docs, f.tournament = d.tournament ∧ f.event = d.event ∧ f.phase = none := by
  have h := insertMany_map (fun f => (f.tournament, f.event, f.phase))
    (fun d => (d.tournament, d.event, none)) (fun _ _ _ => rfl) docs freshId now
  have hm : (f.tournament, f.event, f.phase) ∈
      (insertMany docs freshId now).map fun f => (f.tournament, f.event, f.phase) :=
    List.mem_map_of_mem _ hf
  rw [h] at hm
  obtain ⟨d, hd, he⟩ := List.mem_map.mp hm
  simp only [Prod.mk.injEq] at he
  exact ⟨d, hd, he.1.symm, he.2.1.symm, he.2.2.symm⟩

theorem uniqueIndex_insertMany (docs : List FixtureDoc) (freshId : Nat → Id) (now : Nat)
    (h : (docs.map FixtureDoc.pos).Nodup) : UniqueIndex (insertMany docs freshId now) := by
  have hm := insertMany_map (fun f => (f.round, f.matchIndex)) FixtureDoc.pos
    (fun _ _ _ => rfl) docs freshId now
  rw [← hm, List.Nodup, List.pairwise_map] at h
  unfold UniqueIndex
  refine h.imp ?_
  intro f g hne _ hpos
  exact hne (by rw [hpos.1, hpos.2])

theorem roundRobinDocs_scope (tid : Id) (eid : Option Id) (ps : List Id) (hN : 2 ≤ ps.length) :
    ∀ d ∈ roundRobinDocs tid eid ps, d.tournament = tid ∧ d.event = eid := by
  intro d hd
  obtain ⟨r, i, _, _, h⟩ := (mem_roundRobinDocs tid eid ps hN d).mp hd
  unfold slotDoc at h
  simp only at h
  split_ifs at h
  cases h
  exact ⟨rfl, rfl⟩

theorem roundRobinDocs_pos_nodup (tid : Id) (eid : Option Id) (ps : List Id)
    (hN : 2 ≤ ps.length) : ((roundRobinDocs tid eid ps).map FixtureDoc.pos).Nodup := by
  rw [List.Nodup, List.pairwise_map, roundRobinDocs_closed tid eid ps hN, List.pairwise_flatMap]
  constructor
  · intro r _
    rw [List.pairwise_filterMap]
    apply (List.nodup_range _).pairwise_of_forall_ne
    intro i _ i' _ hne d hd d' hd' hs
    have h1 := slotDoc_round _ _ _ _ _ _ _ hd
    have h2 := slotDoc_round _ _ _ _ _ _ _ hd'
    simp only [FixtureDoc.pos, Prod.mk.injEq] at hs
    exact hne (by rw [← h1.2, ← h2.2, hs.2])
  · apply (List.nodup_range _).pairwise_of_forall_ne
    intro r _ r' _ hne d hd d' hd' hs
    obtain ⟨i, _, hd⟩ := List.mem_filterMap.mp hd
    obtain ⟨i', _, hd'⟩ := List.mem_filterMap.mp hd'
    have h1 := slotDoc_round _ _ _ _ _ _ _ hd
    have h2 := slotDoc_round _ _ _ _ _ _ _ hd'
    simp only [FixtureDoc.pos, Prod.mk.injEq] at hs
    exact hne (by rw [← h1.1, ← h2.1, hs.1])

theorem bracketRounds_scope (tid : Id) (eid : Option Id) (name : Nat → String) (start : Nat) :
    ∀ (j : Nat) (current : List (Option Id)) (rel : Nat),
      ∀ d ∈ bracketRounds tid eid name start j current rel,
        d.tournament = tid ∧ d.event = eid := by
  intro j
  induction j with
  | zero => intro current rel d hd; simp [bracketRounds] at hd
  | succ j ih =>
    intro current rel d hd
    rw [bracketRounds, List.mem_append] at hd
    rcases hd with hd | hd
    · simp only [koRound, List.mem_map, List.mem_range] at hd
      obtain ⟨i, _, rfl⟩ := hd
      exact ⟨rfl, rfl⟩
    · exact ih _ _ d hd

theorem knockoutDocs_pos_nodup (tid : Id) (eid : Option Id) (ps : List Id) :
    ((knockoutDocs tid eid ps).map FixtureDoc.pos).Nodup := by
  rw [knockoutDocs_pos]
  exact bracketPositions_nodup _ _

theorem generatedDocs_scope (tid : Id) (eventId : Option Id) (env : Lookups) (ps : List Id)
    (shuffle : List Id → List Id) (h2 : 2 ≤ ps.length) :
    ∀ d ∈ generatedDocs tid eventId env ps shuffle, d.tournament = tid ∧ d.event = eventId := by
  intro d hd
  unfold generatedDocs at hd
  split_ifs at hd
  · exact roundRobinDocs_scope tid eventId ps h2 d hd
  · rw [knockoutDocs_closed] at hd
    exact bracketRounds_scope _ _ _ _ _ _ _ d hd

theorem generatedDocs_pos_nodup (tid : Id) (eventId : Option Id) (env : Lookups) (ps : List Id)
    (shuffle : List Id → List Id) (h2 : 2 ≤ ps.length) :
    ((generatedDocs tid eventId env ps shuffle).map FixtureDoc.pos).Nodup := by
  unfold generatedDocs
  split_ifs
  · exact roundRobinDocs_pos_nodup tid eventId ps h2
  · exact knockoutDocs_pos_nodup tid eventId _

/-- With `force`, the erasures of the round-robin branch remove every fixture
of the scope. -/
theorem erasure_force (store : Store) (tid e : Id) :
    (deleteMany (deleteMany store fun f =>
        scopeFilter tid (some e) f && decide (f.phase = some Phase.ko))
      fun f => scopeFilter tid (some e) f && rrOrLegacy f) =
      deleteMany store (scopeFilter tid (some e)) := by
  unfold deleteMany
  rw [List.filter_filter]
  apply List.filter_congr
  intro f _
  unfold rrOrLegacy
  dsimp only
  generalize scopeFilter tid (some e) f = s
  generalize f.phase = ph
  cases s <;> rcases ph with _ | _ | _ <;> simp

theorem deleteMany_idem (store : Store) (p : Fixture → Bool) :
    deleteMany (deleteMany store p) p = deleteMany store p := by
  unfold deleteMany
  rw [List.filter_filter]
  apply List.filter_congr
  intro f _
  simp

theorem existing_after_force (store : Store) (tid e : Id) :
    ((deleteMany store (scopeFilter tid (some e))).filter fun f =>
      decide (f.tournament = tid) && decide (f.event = some e) &&
        decide (f.phase = some Phase.rr)) = [] := by
  unfold deleteMany
  rw [List.filter_filter, List.filter_eq_nil_iff]
  intro f _
  simp only [scopeFilter_some]
  cases decide (f.tournament = tid) <;> cases decide (f.event = some e) <;> simp

/-- With `force`, `generateFixtures` replaces the fixtures of the scope by the
generated documents. -/
theorem generateFixtures_force (store : Store) (tid : Id) (eventId : Option Id) (env : Lookups)
    (teams ps : List Id) (shuffle : List Id → List Id) (freshId : Nat → Id) (now : Nat)
    (ht : env.tournamentTeams = some teams)
    (hp : resolveParticipants eventId env teams = some ps) (h2 : 2 ≤ ps.length) :
    generateFixtures store tid eventId true env shuffle freshId now =
      { success := true
        fixtures := insertMany (generatedDocs tid eventId env ps shuffle) freshId now
        store := deleteMany store (scopeFilter tid eventId) ++
          insertMany (generatedDocs tid eventId env ps shuffle) freshId now } := by
  unfold generateFixtures generatedDocs
  rw [ht]
  simp only
  rw [hp]
  simp only [if_neg (not_lt.mpr h2)]
  by_cases hrr : isRoundRobin eventId env = true
  · obtain ⟨e, rfl⟩ := isRoundRobin_event eventId env hrr
    simp only [hrr, if_true, erasure_force, existing_after_force, deleteMany_idem,
      List.length_nil, gt_iff_lt, lt_self_iff_false, if_false, ite_self]
  · simp only [hrr, if_false, Bool.false_eq_true]

theorem deleteMany_append_scope (store created : Store) (p : Fixture → Bool)
    (h : ∀ f ∈ created, p f = true) :
    deleteMany (deleteMany store p ++ created) p = deleteMany store p := by
  unfold deleteMany
  rw [List.filter_append, List.filter_filter]
  have : created.filter (fun f => !p f) = [] := by
    rw [List.filter_eq_nil_iff]
    intro f hf
    simp [h f hf]
  rw [this, List.append_nil]
  apply List.filter_congr
  intro f _
  simp

theorem created_in_scope (tid : Id) (eventId : Option Id) (env : Lookups) (ps : List Id)
    (shuffle : List Id → List Id) (freshId : Nat → Id) (now : Nat) (h2 : 2 ≤ ps.length) :
    ∀ f ∈ insertMany (generatedDocs tid eventId env ps shuffle) freshId now,
      scopeFilter tid eventId f = true ∧ inScope tid eventId f = true := by
  intro f hf
  obtain ⟨d, hd, h1, h2', _⟩ := mem_insertMany _ _ _ f hf
  obtain ⟨hd1, hd2⟩ := generatedDocs_scope tid eventId env ps shuffle h2 d hd
  rw [hd1] at h1
  rw [hd2] at h2'
  unfold scopeFilter inScope
  cases eventId <;> simp [h1, h2']

theorem inScope_scopeFilter (tid : Id) (eventId : Option Id) (f : Fixture)
    (h : inScope tid eventId f = true) : scopeFilter tid eventId f = true := by
  unfold inScope at h
  unfold scopeFilter
  cases eventId <;> simp_all

/-- C14, erasure idempotence and index uniqueness. For a scope whose lookups
give at least two participants, `generateFixtures` with `force` succeeds both
times it is called in a row, and afterwards the fixtures of the scope have,
within one phase, pairwise different `(round, matchIndex)`. On the round-robin
branch the store after the second call holds the same fixtures as the store
after the first, up to the `_id` and the insertion time `insertMany` gives
them; it is the same store when those coincide. -/
theorem force_twice (store : Store) (tid : Id) (eventId : Option Id) (env : Lookups)
    (teams ps : List Id) (shuffle₁ shuffle₂ : List Id → List Id) (freshId₁ freshId₂ : Nat → Id)
    (now₁ now₂ : Nat) (ht : env.tournamentTeams = some teams)
    (hp : resolveParticipants eventId env teams = some ps) (h2 : 2 ≤ ps.length) :
    (generateFixtures store tid eventId true env shuffle₁ freshId₁ now₁).success = true ∧
    (generateFixtures
      (generateFixtures store tid eventId true env shuffle₁ freshId₁ now₁).store
      tid eventId true env shuffle₂ freshId₂ now₂).success = true ∧
    UniqueIndex ((generateFixtures
      (generateFixtures store tid eventId true env shuffle₁ freshId₁ now₁).store
      tid eventId true env shuffle₂ freshId₂ now₂).store.filter (inScope tid eventId)) ∧
    (isRoundRobin eventId env = true →
      (generateFixtures
        (generateFixtures store tid eventId true env shuffle₁ freshId₁ now₁).store
        tid eventId true env shuffle₂ freshId₂ now₂).store.map Fixture.content =
      (generateFixtures store tid eventId true env shuffle₁ freshId₁ now₁).store.map
        Fixture.content) ∧
    (isRoundRobin eventId env = true → freshId₂ = freshId₁ → now₂ = now₁ →
      (generateFixtures
        (generateFixtures store tid eventId true env shuffle₁ freshId₁ now₁).store
        tid eventId true env shuffle₂ freshId₂ now₂).store =
      (generateFixtures store tid eventId true env shuffle₁ freshId₁ now₁).store) := by
  rw [generateFixtures_force _ tid eventId env teams ps shuffle₂ freshId₂ now₂ ht hp h2,
    generateFixtures_force store tid eventId env teams ps shuffle₁ freshId₁ now₁ ht hp h2]
  simp only
  rw [deleteMany_append_scope _ _ _
    (fun f hf => (created_in_scope tid eventId env ps shuffle₁ freshId₁ now₁ h2 f hf).1)]
  refine ⟨trivial, trivial, ?_, ?_, ?_⟩
  · rw [List.filter_append]
    have h1 : (deleteMany store (scopeFilter tid eventId)).filter (inScope tid eventId) = [] := by
      unfold deleteMany
      rw [List.filter_filter, List.filter_eq_nil_iff]
      intro f _ hf
      simp only [Bool.and_eq_true, Bool.not_eq_true', ] at hf
      rw [inScope_scopeFilter tid eventId f hf.1] at hf
      exact absurd hf.2 (by simp)
    have h3 : (insertMany (generatedDocs tid eventId env ps shuffle₂) freshId₂ now₂).filter
        (inScope tid eventId) =
        insertMany (generatedDocs tid eventId env ps shuffle₂) freshId₂ now₂ := by
      rw [List.filter_eq_self]
      intro f hf
      exact (created_in_scope tid eventId env ps shuffle₂ freshId₂ now₂ h2 f hf).2
    rw [h1, h3, List.nil_append]
    exact uniqueIndex_insertMany _ _ _ (generatedDocs_pos_nodup tid eventId env ps shuffle₂ h2)
  · intro hrr
    have hc : ∀ (sh : List Id → List Id) (fr : Nat → Id) (nw : Nat),
        (insertMany (generatedDocs tid eventId env ps sh) fr nw).map Fixture.content =
          (roundRobinDocs tid eventId ps).map fun d => (d.toFixture 0 0).content := by
      intro sh fr nw
      unfold generatedDocs
      rw [if_pos hrr]
      exact insertMany_map _ _ (fun _ _ _ => rfl) _ _ _
    rw [List.map_append, List.map_append, hc, hc]
  · intro hrr hf hn
    unfold generatedDocs
    simp only [if_pos hrr, hf, hn]

/-- The theorem applied to the hybrid example event, starting from a store
with a played round-robin and a played knockout fixture. -/
theorem force_twice_witness :
    hybridEnv.tournamentTeams = some [] ∧
    resolveParticipants (some 6) hybridEnv [] = some [1, 2] ∧ 2 ≤ [1, 2].length ∧
    UniqueIndex ((generateFixtures
      (generateFixtures [rrPlayed, koPlayed] 5 (some 6) true hybridEnv id
        (fun i => 200 + i) 9).store
      5 (some 6) true hybridEnv id (fun i => 400 + i) 11).store.filter (inScope 5 (some 6))) :=
  ⟨rfl, by decide, by decide,
    (force_twice [rrPlayed, koPlayed] 5 (some 6) hybridEnv [] [1, 2] id id
      (fun i => 200 + i) (fun i => 400 + i) 9 11 rfl (by decide) (by decide)).2.2.1⟩

/-! ## Theorems: the qualification bridge -/

theorem seedOrder_length (q : List Id) : (seedOrder q).length = q.length := by
  rw [seedOrder_eq]; exact weave_length q _ 0 (by omega)

/-- The bridge on a request that passes the precondition checks. -/
theorem generateKnockoutFromStandings_pass (store : Store) (tid eid : Id) (K : Nat)
    (e : Event) (freshId : Nat → Id) (now : Nat) (q : List Id)
    (h1 : isRRKO e = true) (h2 : (rrFixturesOf store tid eid).length ≠ 0)
    (hq : ((bridgeStandings (rrFixturesOf store tid eid)).take K).map (fun s => s.teamId) = q)
    (h3 : ¬ q.length < 2) :
    generateKnockoutFromStandings store tid eid K (some e) freshId now =
      { success := true
        fixtures := insertMany
          (bracketRounds tid (some eid) (fun r => getRoundName r (Nat.clog 2 q.length))
            (startRoundOf store tid eid) (Nat.clog 2 q.length)
            (padWithByes (weave q 0 q.length)) 0) freshId now
        store := (deleteMany store fun f =>
            decide (f.tournament = tid) && decide (f.event = some eid) &&
              decide (f.round ≥ startRoundOf store tid eid) && decide (f.phase = some Phase.ko)) ++
          insertMany
            (bracketRounds tid (some eid) (fun r => getRoundName r (Nat.clog 2 q.length))
              (startRoundOf store tid eid) (Nat.clog 2 q.length)
              (padWithByes (weave q 0 q.length)) 0) freshId now } := by
  unfold generateKnockoutFromStandings
  simp only [h1, Bool.not_true, Bool.false_eq_true, if_false, h2, hq, h3]
  rw [knockoutFromStandingsDocs_closed, seedOrder_length, seedOrder_eq]

/-- C15, preconditions of the qualification bridge.
`generateKnockoutFromStandings` fails exactly when the event is not found or
its `matchType` does not contain both "round-robin" and "knockout", or no
fixture of the scope has phase `rr` or no phase, or fewer than two participants
stand among the first `K` entries of the round-robin standings; when it fails,
the store is unchanged and no fixture is sent back. -/
theorem bridge_preconditions (store : Store) (tid eid : Id) (K : Nat)
    (event : Option Event) (freshId : Nat → Id) (now : Nat) :
    ((generateKnockoutFromStandings store tid eid K event freshId now).success = false ↔
      ((∀ e, event = some e → ∀ m, e.matchType = some m →
          ¬ (includes m "round-robin" = true ∧ includes m "knockout" = true)) ∨
        (∀ f ∈ store, ¬ (f.tournament = tid ∧ f.event = some eid ∧
          (f.phase = some Phase.rr ∨ f.phase = none))) ∨
        ((bridgeStandings (rrFixturesOf store tid eid)).take K).length < 2)) ∧
    ((generateKnockoutFromStandings store tid eid K event freshId now).success = false →
      (generateKnockoutFromStandings store tid eid K event freshId now).store = store ∧
      (generateKnockoutFromStandings store tid eid K event freshId now).fixtures = []) := by
  have hrr : (rrFixturesOf store tid eid).length = 0 ↔
      ∀ f ∈ store, ¬ (f.tournament = tid ∧ f.event = some eid ∧
        (f.phase = some Phase.rr ∨ f.phase = none)) := by
    rw [List.length_eq_zero]
    unfold rrFixturesOf rrOrLegacy
    rw [List.filter_eq_nil_iff]
    apply forall_congr'
    intro f
    apply imp_congr_right
    intro _
    simp only [Bool.and_eq_true, Bool.or_eq_true, decide_eq_true_eq, and_assoc]
  unfold generateKnockoutFromStandings
  cases event with
  | none => simp
  | some e =>
    have hk : isRRKO e = true ↔
        ∃ m, e.matchType = some m ∧ includes m "round-robin" = true ∧
          includes m "knockout" = true := by
      unfold isRRKO
      cases e.matchType <;> simp
    by_cases h1 : isRRKO e = true
    · obtain ⟨m, hm, hm1, hm2⟩ := hk.mp h1
      have hno : ¬ ∀ e', some e = some e' → ∀ m, e'.matchType = some m →
          ¬ (includes m "round-robin" = true ∧ includes m "knockout" = true) :=
        fun h => h e rfl m hm ⟨hm1, hm2⟩
      simp only [h1, Bool.not_true, Bool.false_eq_true, if_false]
      by_cases h2 : (rrFixturesOf store tid eid).length = 0
      · simp only [h2, if_true, true_and]
        exact ⟨⟨fun _ => Or.inr (Or.inl (hrr.mp h2)), fun _ => trivial⟩, fun _ => trivial⟩
      · simp only [h2, if_false, List.length_map]
        by_cases h3 : ((bridgeStandings (rrFixturesOf store tid eid)).take K).length < 2
        · rw [if_pos h3]
          exact ⟨⟨fun _ => Or.inr (Or.inr h3), fun _ => rfl⟩, fun _ => ⟨rfl, rfl⟩⟩
        · rw [if_neg h3]
          refine ⟨⟨fun h => by simp at h, fun h => ?_⟩, fun h => by simp at h⟩
          rcases h with h | h | h
          · exact absurd h hno
          · exact absurd (hrr.mpr h) h2
          · exact absurd h h3
    · have h1f : isRRKO e = false := by simpa using h1
      simp only [h1f, Bool.not_false, if_true, true_and]
      refine ⟨⟨fun _ => Or.inl ?_, fun _ => trivial⟩, fun _ => trivial⟩
      intro e' he' m hm hboth
      cases he'
      exact h1 (hk.mpr ⟨m, hm, hboth.1, hboth.2⟩)

/-- C16, the code at the failing input. The store holds a played round robin of
three entrants over the rounds `0, 1, 2` whose fixtures carry no `phase`. All
three feed the standings of `generateKnockoutFromStandings`, but the query for
the last round-robin round asks for `phase = rr` only: `startRound` is `0` and
the Final `1 v 3` is emitted at round `0`, not after round `2`. With the same
fixtures tagged `rr`, `startRound` is `3`. -/
theorem knockout_rounds_ignore_legacy :
    rrFixturesOf legacyStore 5 6 = legacyStore ∧
    (generateKnockoutFromStandings legacyStore 5 6 2 (some hybridEvent)
        (fun i => 200 + i) 9).success = true ∧
    startRoundOf legacyStore 5 6 = 0 ∧
    ((generateKnockoutFromStandings legacyStore 5 6 2 (some hybridEvent)
        (fun i => 200 + i) 9).fixtures.map
        fun f => (f.round, f.roundName, f.teamA, f.teamB, f.phase)) =
      [(0, "Final", some 1, some 3, none)] ∧
    (legacyStore.map fun f => f.round) = [0, 1, 2] ∧
    startRoundOf (legacyStore.map fun f => { f with phase := some Phase.rr }) 5 6 = 3 := by
  have hq : ((bridgeStandings (rrFixturesOf legacyStore 5 6)).take 2).map
      (fun s => s.teamId) = [1, 3] := by decide
  have hc : Nat.clog 2 ([1, 3] : List Id).length = 1 := by simp [Nat.clog]
  have hw : weave [1, 3] 0 ([1, 3] : List Id).length = [1, 3] := rfl
  rw [generateKnockoutFromStandings_pass legacyStore 5 6 2 hybridEvent _ 9 [1, 3]
    (by decide) (by decide) hq (by decide), hc, hw]
  unfold padWithByes nextPowerOfTwo
  rw [hc]
  refine ⟨by decide, rfl, by decide, by decide, by decide, by decide⟩

/-- C17, the code at the failing input. An event with
`matchType = "round-robin + knockout"` passes the hybrid test of
`generateKnockoutFromStandings`, but `getStandings` restricts its query to
round-robin fixtures only for the exact value `"round-robin-knockout"`: adding
the scored knockout fixture `koPlayed` to the store changes the standings of
the event. For the exact value the standings do not depend on the knockout
fixtures of the store. -/
theorem standings_count_knockout_of_hybrid :
    isRRKO { eventType2 := "individual", matchType := some "round-robin + knockout" } = true ∧
    getStandings [rrPlayed] 5 (some 6) (some "round-robin + knockout") =
      [{ teamId := 1, played := 1, won := 1, draw := 0, lost := 0, goalsFor := 2
         goalsAgainst := 1, points := 3 },
       { teamId := 2, played := 1, won := 0, draw := 0, lost := 1, goalsFor := 1
         goalsAgainst := 2, points := 0 }] ∧
    getStandings [rrPlayed, koPlayed] 5 (some 6) (some "round-robin + knockout") =
      [{ teamId := 2, played := 2, won := 1, draw := 0, lost := 1, goalsFor := 5
         goalsAgainst := 2, points := 3 },
       { teamId := 1, played := 2, won := 1, draw := 0, lost := 1, goalsFor := 2
         goalsAgainst := 5, points := 3 }] ∧
    koPlayed.phase = some Phase.ko ∧
    (∀ (store : Store) (tid e : Id),
      getStandings store tid (some e) (some "round-robin-knockout") =
        getStandings (store.filter fun f => decide (f.phase ≠ some Phase.ko)) tid (some e)
          (some "round-robin-knockout")) := by
  refine ⟨by decide, by decide, by decide, rfl, ?_⟩
  intro store tid e
  unfold getStandings
  rw [List.filter_filter]
  congr 1
  apply List.filter_congr
  intro f _
  unfold standingsFilter
  simp only [if_true]
  rcases hph : f.phase with _ | ph
  · simp
  · cases ph <;> simp

/-! ## Theorems: byes in the first knockout round -/

theorem bracketRounds_round_ge (tid : Id) (eid : Option Id) (name : Nat → String) (start : Nat) :
    ∀ (j : Nat) (current : List (Option Id)) (rel : Nat),
      ∀ d ∈ bracketRounds tid eid name start j current rel, start + rel ≤ d.round := by
  intro j
  induction j with
  | zero => intro current rel d hd; simp [bracketRounds] at hd
  | succ j ih =>
    intro current rel d hd
    rw [bracketRounds, List.mem_append] at hd
    rcases hd with hd | hd
    · simp only [koRound, List.mem_map, List.mem_range] at hd
      obtain ⟨i, _, rfl⟩ := hd
      exact le_rfl
    · have := ih _ _ d hd
      omega

theorem bracketRounds_filter_first (tid : Id) (eid : Option Id) (name : Nat → String)
    (start j : Nat) (current : List (Option Id)) (rel : Nat) :
    (bracketRounds tid eid name start (j + 1) current rel).filter
        (fun d => decide (d.round = start + rel)) =
      koRound tid eid current (start + rel) (name rel) := by
  rw [bracketRounds, List.filter_append]
  have h1 : (koRound tid eid current (start + rel) (name rel)).filter
      (fun d => decide (d.round = start + rel)) =
      koRound tid eid current (start + rel) (name rel) := by
    rw [List.filter_eq_self]
    intro d hd
    simp only [koRound, List.mem_map, List.mem_range] at hd
    obtain ⟨i, _, rfl⟩ := hd
    simp
  have h2 : (bracketRounds tid eid name start j (List.replicate (2 ^ j) none) (rel + 1)).filter
      (fun d => decide (d.round = start + rel)) = [] := by
    rw [List.filter_eq_nil_iff]
    intro d hd
    have := bracketRounds_round_ge tid eid name start j _ _ d hd
    simp only [decide_eq_true_eq]
    omega
  rw [h1, h2, List.append_nil]

theorem padWithByes_getElem?_join (ps : List Id) (i : Nat) :
    ((padWithByes ps)[i]?).join = ps[i]? := by
  unfold padWithByes
  by_cases h : i < ps.length
  · rw [List.getElem?_append_left (by simpa using h)]
    simp [List.getElem?_eq_getElem h]
  · rw [List.getElem?_append_right (by simpa using h), List.getElem?_replicate,
      List.getElem?_eq_none (by omega)]
    split_ifs <;> rfl

theorem koRound_padded (tid : Id) (eid : Option Id) (ps : List Id) (round : Nat)
    (roundName : String) (hP : 2 ≤ ps.length) :
    (koRound tid eid (padWithByes ps) round roundName).map
        (fun d => (d.matchIndex, d.teamA, d.teamB)) =
      (List.range (2 ^ (Nat.clog 2 ps.length - 1))).map
        fun j => (j, ps[2 * j]?, ps[2 * j + 1]?) := by
  have hk : 1 ≤ Nat.clog 2 ps.length := Nat.clog_pos (by norm_num) hP
  have hlen : ((padWithByes ps).length + 1) / 2 = 2 ^ (Nat.clog 2 ps.length - 1) := by
    rw [padWithByes_length]
    obtain ⟨m, hm⟩ : ∃ m, Nat.clog 2 ps.length = m + 1 := ⟨_, (Nat.sub_add_cancel hk).symm⟩
    rw [hm, pow_succ]
    simp only [Nat.add_sub_cancel]
    omega
  unfold koRound
  rw [hlen, List.map_map]
  apply List.map_congr_left
  intro j _
  simp only [Function.comp, padWithByes_getElem?_join]

theorem length_filter_range_ge (n c : Nat) :
    ((List.range n).filter fun j => decide (c ≤ j)).length = n - c := by
  induction n with
  | zero => simp
  | succ n ih =>
    rw [List.range_succ, List.filter_append, List.length_append, ih]
    by_cases h : c ≤ n
    · simp [h]; omega
    · simp [h]; omega

theorem length_filter_slots (ps : List Id) (n : Nat) :
    (((List.range n).map fun j => (j, ps[2 * j]?, ps[2 * j + 1]?)).filter
        fun t => decide (t.2.1 = none ∨ t.2.2 = none)).length = n - ps.length / 2 ∧
    (((List.range n).map fun j => (j, ps[2 * j]?, ps[2 * j + 1]?)).filter
        fun t => decide (t.2.1 = none ∧ t.2.2 = none)).length = n - (ps.length + 1) / 2 := by
  constructor
  · rw [List.filter_map, List.length_map, ← length_filter_range_ge n (ps.length / 2)]
    congr 1
    apply List.filter_congr
    intro j _
    simp only [Function.comp, List.getElem?_eq_none_iff, decide_eq_decide]
    omega
  · rw [List.filter_map, List.length_map, ← length_filter_range_ge n ((ps.length + 1) / 2)]
    congr 1
    apply List.filter_congr
    intro j _
    simp only [Function.comp, List.getElem?_eq_none_iff, decide_eq_decide]
    omega

theorem length_filter_sides (docs : List FixtureDoc) (p : Nat × Option Id × Option Id → Bool) :
    (docs.filter fun d => p (d.matchIndex, d.teamA, d.teamB)).length =
      ((docs.map fun d => (d.matchIndex, d.teamA, d.teamB)).filter p).length := by
  rw [List.filter_map, List.length_map]
  rfl

/-- C18, the claim at `P = 5`. The first round of the bracket of five
participants is `1 v 2`, `3 v 4`, `5 v null`, `null v null`: the fixture at
index `3` has no participant at all, and two of the four fixtures contain a
`null` side. -/
theorem bye_pairs_counterexample :
    (((knockoutDocs 0 none [1, 2, 3, 4, 5]).filter fun d => decide (d.round = 0)).map
        fun d => (d.matchIndex, d.teamA, d.teamB)) =
      [(0, some 1, some 2), (1, some 3, some 4), (2, some 5, none), (3, none, none)] ∧
    (∃ d ∈ knockoutDocs 0 none [1, 2, 3, 4, 5], d.round = 0 ∧ d.teamA = none ∧ d.teamB = none) ∧
    ((knockoutDocs 0 none [1, 2, 3, 4, 5]).filter fun d =>
      decide (d.round = 0) && decide (d.teamA = none ∨ d.teamB = none)).length = 2 := by
  have h5 : Nat.clog 2 [1, 2, 3, 4, 5].length = 3 := by simp [Nat.clog]
  have hd : knockoutDocs 0 none [1, 2, 3, 4, 5] =
      bracketRounds 0 none (fun r => getRoundName r 3) 0 3
        ((([1, 2, 3, 4, 5] : List Id).map some) ++ List.replicate 3 none) 0 := by
    rw [knockoutDocs_closed, h5]
    unfold padWithByes nextPowerOfTwo
    rw [h5]
    rfl
  rw [hd]
  refine ⟨by decide, ?_, by decide⟩
  exact ⟨{ tournament := 0, event := none, round := 0, roundName := "Quarter-Final",
           matchIndex := 3, teamA := none, teamB := none, phase := some Phase.ko,
           status := Status.scheduled }, by decide, rfl, rfl, rfl⟩

/-- C18 as amended. For `P ≥ 2` participants the first-round fixture at index `j`
of either bracket builder has `teamA = ps[2j]` and `teamB = ps[2j+1]`, `null`
past the end of the list. Both sides are participants exactly for
`j < ⌊P/2⌋`, a participant meets `null` exactly at `j = ⌊P/2⌋` for odd `P`,
both sides are `null` exactly for `j ≥ ⌈P/2⌉`, and no fixture has only `teamB`.
So `2^(k-1) - ⌊P/2⌋` first-round fixtures contain a `null` side and
`2^(k-1) - ⌈P/2⌉` of them have no participant, where `k = ⌈log2 P⌉`. -/
theorem bye_pairs_amended (tid : Id) (eid : Option Id) (start : Nat) (ps : List Id)
    (hP : 2 ≤ ps.length) :
    (((knockoutDocs tid eid ps).filter fun d => decide (d.round = 0)).map
        fun d => (d.matchIndex, d.teamA, d.teamB)) =
      ((List.range (2 ^ (Nat.clog 2 ps.length - 1))).map
        fun j => (j, ps[2 * j]?, ps[2 * j + 1]?)) ∧
    (((knockoutFromStandingsDocs tid eid start ps).filter fun d => decide (d.round = start)).map
        fun d => (d.matchIndex, d.teamA, d.teamB)) =
      ((List.range (2 ^ (Nat.clog 2 ps.length - 1))).map
        fun j => (j, ps[2 * j]?, ps[2 * j + 1]?)) ∧
    (∀ j, (ps[2 * j]? ≠ none ∧ ps[2 * j + 1]? ≠ none ↔ j < ps.length / 2) ∧
      (ps[2 * j]? ≠ none ∧ ps[2 * j + 1]? = none ↔ ps.length % 2 = 1 ∧ j = ps.length / 2) ∧
      (ps[2 * j]? = none ∧ ps[2 * j + 1]? = none ↔ (ps.length + 1) / 2 ≤ j) ∧
      ¬ (ps[2 * j]? = none ∧ ps[2 * j + 1]? ≠ none)) ∧
    (((knockoutDocs tid eid ps).filter fun d => decide (d.round = 0)).filter
        fun d => decide (d.teamA = none ∨ d.teamB = none)).length =
      2 ^ (Nat.clog 2 ps.length - 1) - ps.length / 2 ∧
    (((knockoutDocs tid eid ps).filter fun d => decide (d.round = 0)).filter
        fun d => decide (d.teamA = none ∧ d.teamB = none)).length =
      2 ^ (Nat.clog 2 ps.length - 1) - (ps.length + 1) / 2 ∧
    (((knockoutFromStandingsDocs tid eid start ps).filter
        fun d => decide (d.round = start)).filter
        fun d => decide (d.teamA = none ∨ d.teamB = none)).length =
      2 ^ (Nat.clog 2 ps.length - 1) - ps.length / 2 ∧
    (((knockoutFromStandingsDocs tid eid start ps).filter
        fun d => decide (d.round = start)).filter
        fun d => decide (d.teamA = none ∧ d.teamB = none)).length =
      2 ^ (Nat.clog 2 ps.length - 1) - (ps.length + 1) / 2 := by
  have hk : 1 ≤ Nat.clog 2 ps.length := Nat.clog_pos (by norm_num) hP
  obtain ⟨m, hm⟩ : ∃ m, Nat.clog 2 ps.length = m + 1 := ⟨_, (Nat.sub_add_cancel hk).symm⟩
  have hA : (knockoutDocs tid eid ps).filter (fun d => decide (d.round = 0)) =
      koRound tid eid (padWithByes ps) 0 (getRoundName (0 : Nat) (Nat.clog 2 ps.length)) := by
    rw [knockoutDocs_closed]
    have := bracketRounds_filter_first tid eid
      (fun r => getRoundName r (Nat.clog 2 ps.length)) 0 m (padWithByes ps) 0
    rw [← hm] at this
    simpa using this
  have hB : (knockoutFromStandingsDocs tid eid start ps).filter
        (fun d => decide (d.round = start)) =
      koRound tid eid (padWithByes ps) start
        (getRoundName (0 : Nat) (Nat.clog 2 ps.length)) := by
    rw [knockoutFromStandingsDocs_closed]
    have := bracketRounds_filter_first tid eid
      (fun r => getRoundName r (Nat.clog 2 ps.length)) start m (padWithByes ps) 0
    rw [← hm] at this
    simpa using this
  have hs := length_filter_slots ps (2 ^ (Nat.clog 2 ps.length - 1))
  refine ⟨?_, ?_, ?_, ?_, ?_, ?_, ?_⟩
  · rw [hA]; exact koRound_padded tid eid ps _ _ hP
  · rw [hB]; exact koRound_padded tid eid ps _ _ hP
  · intro j
    simp only [ne_eq, List.getElem?_eq_none_iff, not_le]
    refine ⟨?_, ?_, ?_, ?_⟩ <;> omega
  · rw [hA, length_filter_sides _ (fun t => decide (t.2.1 = none ∨ t.2.2 = none)),
      koRound_padded tid eid ps _ _ hP]
    exact hs.1
  · rw [hA, length_filter_sides _ (fun t => decide (t.2.1 = none ∧ t.2.2 = none)),
      koRound_padded tid eid ps _ _ hP]
    exact hs.2
  · rw [hB, length_filter_sides _ (fun t => decide (t.2.1 = none ∨ t.2.2 = none)),
      koRound_padded tid eid ps _ _ hP]
    exact hs.1
  · rw [hB, length_filter_sides _ (fun t => decide (t.2.1 = none ∧ t.2.2 = none)),
      koRound_padded tid eid ps _ _ hP]
    exact hs.2

/-- The amended statement applied to three participants. -/
theorem bye_pairs_amended_witness :
    2 ≤ [1, 2, 3].length ∧
    (((knockoutDocs 7 (some 8) [1, 2, 3]).filter fun d => decide (d.round = 0)).map
        fun d => (d.matchIndex, d.teamA, d.teamB)) =
      ((List.range (2 ^ (Nat.clog 2 [1, 2, 3].length - 1))).map
        fun j => (j, [1, 2, 3][2 * j]?, [1, 2, 3][2 * j + 1]?)) ∧
    (((knockoutDocs 7 (some 8) [1, 2, 3]).filter fun d => decide (d.round = 0)).filter
        fun d => decide (d.teamA = none ∨ d.teamB = none)).length =
      2 ^ (Nat.clog 2 [1, 2, 3].length - 1) - [1, 2, 3].length / 2 :=
  ⟨by decide, (bye_pairs_amended 7 (some 8) 0 [1, 2, 3] (by decide)).1,
    (bye_pairs_amended 7 (some 8) 0 [1, 2, 3] (by decide)).2.2.2.1⟩

/-! ## Theorems: frame of result entry -/

theorem finishUpdate_frame (body : UpdateBody) (d : Option (Option Id)) (f : Fixture) :
    (finishUpdate body d f).roundName = f.roundName ∧ (finishUpdate body d f).phase = f.phase := by
  cases d <;> exact ⟨rfl, rfl⟩

theorem setSlot_frame (m : Nat) (w : Id) (x : Fixture) :
    (setSlot m w x).roundName = x.roundName ∧ (setSlot m w x).scheduledAt = x.scheduledAt ∧
    (setSlot m w x).status = x.status ∧ (setSlot m w x).scoreA = x.scoreA ∧
    (setSlot m w x).scoreB = x.scoreB ∧ (setSlot m w x).winner = x.winner ∧
    (setSlot m w x).notes = x.notes ∧ (setSlot m w x).phase = x.phase ∧
    (m % 2 = 0 → (setSlot m w x).teamA = some w ∧ (setSlot m w x).teamB = x.teamB) ∧
    (m % 2 = 1 → (setSlot m w x).teamB = some w ∧ (setSlot m w x).teamA = x.teamA) := by
  unfold setSlot
  split_ifs with h
  · exact ⟨rfl, rfl, rfl, rfl, rfl, rfl, rfl, rfl, fun _ => ⟨rfl, rfl⟩, fun h1 => by omega⟩
  · exact ⟨rfl, rfl, rfl, rfl, rfl, rfl, rfl, rfl, fun h0 => absurd h0 h, fun _ => ⟨rfl, rfl⟩⟩

theorem propagationTarget_some (store : Store) (body : UpdateBody) (f : Fixture) (nid w : Id)
    (ht : propagationTarget store body f = some (nid, w)) :
    ∃ nf, store.find? (nextFilter f) = some nf ∧ nf.id = nid ∧ knownWinner body f = some w := by
  unfold propagationTarget at ht
  cases hk : knownWinner body f with
  | none => rw [hk] at ht; simp at ht
  | some w' =>
    rw [hk] at ht
    simp only at ht
    cases hn : store.find? (nextFilter f) with
    | none => rw [hn] at ht; simp at ht
    | some nf =>
      rw [hn] at ht
      simp only [Option.map_some', Option.some.injEq, Prod.mk.injEq] at ht
      exact ⟨nf, rfl, ht.1, by rw [ht.2]⟩

theorem propagationTarget_none (store : Store) (body : UpdateBody) (f : Fixture)
    (hn : store.find? (nextFilter f) = none) : propagationTarget store body f = none := by
  unfold propagationTarget
  rw [hn]
  cases knownWinner body f <;> rfl

theorem updateStep_other (fid : Id) (body : UpdateBody) (d : Option (Option Id))
    (t : Option (Id × Id)) (m : Nat) (x : Fixture) (hx : x.id ≠ fid) :
    updateStep fid body d t m x =
      match t with
      | some (nid, w) => if x.id = nid then setSlot m w x else x
      | none => x := by
  rcases t with _ | ⟨nid, w⟩ <;> simp [updateStep, hx]

theorem findById_updateFixture (store : Store) (hwf : store.WF) (fid : Id) (body : UpdateBody)
    (f : Fixture) (hf : findById store fid = some f) (x : Fixture) (hx : x ∈ store) :
    findById (updateFixture store fid body).store x.id =
      some (updateStep fid body
        (secondPass (updateDataWinner body).truthy (applyUpdateData body f))
        (propagationTarget store body f) f.matchIndex x) := by
  rw [(updateFixture_store store fid body f hf).1,
    findById_map _ _ (fun y => (updateStep_pos _ _ _ _ _ y).1),
    findById_of_mem store hwf x hx, Option.map_some']

theorem updateFixture_frame_found (store : Store) (fid : Id) (body : UpdateBody)
    (f : Fixture) (hwf : store.WF) (hf : findById store fid = some f) :
    ∃ g, findById (updateFixture store fid body).store fid = some g ∧
      (updateFixture store fid body).fixture = some g ∧
      g.id = f.id ∧ g.tournament = f.tournament ∧ g.event = f.event ∧ g.round = f.round ∧
      g.roundName = f.roundName ∧ g.matchIndex = f.matchIndex ∧ g.teamA = f.teamA ∧
      g.teamB = f.teamB ∧ g.phase = f.phase ∧
      g = { f with status := g.status, scoreA := g.scoreA, scoreB := g.scoreB,
                   winner := g.winner, scheduledAt := g.scheduledAt, notes := g.notes } := by
  obtain ⟨hfm, hfid⟩ := findById_some store fid f hf
  have h1 := findById_updateFixture store hwf fid body f hf f hfm
  rw [hfid, updateStep_found fid body _ _ _ f hfid
    (fun nid w ht => propagationTarget_ne store hwf fid body f hf nid w ht)] at h1
  have hp := finishUpdate_pos body
    (secondPass (updateDataWinner body).truthy (applyUpdateData body f)) f
  have hq := finishUpdate_frame body
    (secondPass (updateDataWinner body).truthy (applyUpdateData body f)) f
  refine ⟨_, h1, (updateFixture_store store fid body f hf).2.2.2, hp.1, hp.2.1, hp.2.2.1,
    hp.2.2.2.1, hq.1, hp.2.2.2.2.1, hp.2.2.2.2.2.1, hp.2.2.2.2.2.2, hq.2, ?_⟩
  cases secondPass (updateDataWinner body).truthy (applyUpdateData body f) <;> rfl

/-- C19, immutable fields. On a store with unique ids `updateFixture` leaves the
fixture with the given id with the same tournament, event, round, round name,
match index, `teamA`, `teamB` and phase, whatever the request body holds: the
fixture afterwards (stored, and sent back) is the old one with at most status,
scores, winner, `scheduledAt` and notes replaced. When no fixture has the id,
the store is unchanged. -/
theorem updateFixture_immutable_fields (store : Store) (fid : Id) (body : UpdateBody)
    (hwf : store.WF) :
    (∀ f, findById store fid = some f →
      ∃ g, findById (updateFixture store fid body).store fid = some g ∧
        (updateFixture store fid body).fixture = some g ∧
        g.id = f.id ∧ g.tournament = f.tournament ∧ g.event = f.event ∧ g.round = f.round ∧
        g.roundName = f.roundName ∧ g.matchIndex = f.matchIndex ∧ g.teamA = f.teamA ∧
        g.teamB = f.teamB ∧ g.phase = f.phase ∧
        g = { f with status := g.status, scoreA := g.scoreA, scoreB := g.scoreB,
                     winner := g.winner, scheduledAt := g.scheduledAt, notes := g.notes }) ∧
    (findById store fid = none → (updateFixture store fid body).store = store) :=
  ⟨fun f hf => updateFixture_frame_found store fid body f hwf hf,
    updateFixture_not_found store fid body⟩

/-- The frame theorem applied to the example store and a request with a
result, a status and a stray `teamA`. -/
theorem updateFixture_immutable_fields_witness :
    sampleStore.WF ∧ findById sampleStore 1 = some sampleMatch ∧
    ∃ g, findById (updateFixture sampleStore 1
        { scoreA := Field.val 3, scoreB := Field.val 1, teamA := Field.val 99,
          status := Field.val Status.completed }).store 1 = some g ∧
      (updateFixture sampleStore 1
        { scoreA := Field.val 3, scoreB := Field.val 1, teamA := Field.val 99,
          status := Field.val Status.completed }).fixture = some g ∧
      g.id = sampleMatch.id ∧ g.tournament = sampleMatch.tournament ∧
      g.event = sampleMatch.event ∧ g.round = sampleMatch.round ∧
      g.roundName = sampleMatch.roundName ∧ g.matchIndex = sampleMatch.matchIndex ∧
      g.teamA = sampleMatch.teamA ∧ g.teamB = sampleMatch.teamB ∧ g.phase = sampleMatch.phase ∧
      g = { sampleMatch with status := g.status, scoreA := g.scoreA, scoreB := g.scoreB,
                             winner := g.winner, scheduledAt := g.scheduledAt, notes := g.notes } :=
  ⟨by decide, by decide,
    (updateFixture_immutable_fields sampleStore 1
      { scoreA := Field.val 3, scoreB := Field.val 1, teamA := Field.val 99,
        status := Field.val Status.completed } (by decide)).1 sampleMatch (by decide)⟩

/-- C20, single-hop propagation. On a store with unique ids an update of the
stored fixture `f` at `(r, m)` succeeds, keeps the ids of the store, and
changes no fixture other than `f` except the one `findOne` returns at
`(r + 1, ⌊m / 2⌋)` of the same tournament and event. That fixture becomes
`setSlot m w` of itself for the known winner `w`: only `teamA` (even `m`) or
`teamB` (odd `m`) can differ, its winner, scores, status and every other field
are kept. When the store holds no fixture at `(r + 1, ⌊m / 2⌋)`, every other
fixture is unchanged. -/
theorem updateFixture_single_hop (store : Store) (fid : Id) (body : UpdateBody)
    (f : Fixture) (hwf : store.WF) (hf : findById store fid = some f) :
    (updateFixture store fid body).success = true ∧
    ((updateFixture store fid body).store.map fun x => x.id) = (store.map fun x => x.id) ∧
    (∀ x ∈ store, x.id ≠ fid →
      ∃ y, findById (updateFixture store fid body).store x.id = some y ∧
        (y ≠ x →
          store.find? (nextFilter f) = some x ∧
          x.tournament = f.tournament ∧ x.event = f.event ∧ x.round = f.round + 1 ∧
          x.matchIndex = f.matchIndex / 2 ∧
          ∃ w, (updateFixture store fid body).winnerId = some w ∧
            y = setSlot f.matchIndex w x) ∧
        y.id = x.id ∧ y.tournament = x.tournament ∧ y.event = x.event ∧ y.round = x.round ∧
        y.roundName = x.roundName ∧ y.matchIndex = x.matchIndex ∧
        y.scheduledAt = x.scheduledAt ∧ y.status = x.status ∧ y.scoreA = x.scoreA ∧
        y.scoreB = x.scoreB ∧ y.winner = x.winner ∧ y.notes = x.notes ∧ y.phase = x.phase ∧
        (f.matchIndex % 2 = 0 → y.teamB = x.teamB) ∧
        (f.matchIndex % 2 = 1 → y.teamA = x.teamA)) ∧
    ((∀ x ∈ store, ¬ (x.tournament = f.tournament ∧ x.event = f.event ∧
        x.round = f.round + 1 ∧ x.matchIndex = f.matchIndex / 2)) →
      ∀ x ∈ store, x.id ≠ fid →
        findById (updateFixture store fid body).store x.id = some x) := by
  obtain ⟨hstore, hwin, hsucc, _⟩ := updateFixture_store store fid body f hf
  refine ⟨hsucc, ?_, ?_, ?_⟩
  · rw [hstore, List.map_map]
    apply List.map_congr_left
    intro x _
    exact (updateStep_pos _ _ _ _ _ x).1
  · intro x hx hne
    refine ⟨_, findById_updateFixture store hwf fid body f hf x hx, ?_⟩
    rw [updateStep_other _ _ _ _ _ x hne]
    cases ht : propagationTarget store body f with
    | none =>
      dsimp only
      exact ⟨fun h => absurd rfl h, rfl, rfl, rfl, rfl, rfl, rfl, rfl, rfl, rfl, rfl, rfl, rfl,
        rfl, fun _ => rfl, fun _ => rfl⟩
    | some t =>
      obtain ⟨nid, w⟩ := t
      dsimp only
      by_cases hxn : x.id = nid
      · rw [if_pos hxn]
        obtain ⟨nf, hn, hnid, hk⟩ := propagationTarget_some store body f nid w ht
        have hxe : x = nf :=
          hwf.unique hx (List.mem_of_find?_eq_some hn) (hxn.trans hnid.symm)
        have hnf := List.find?_some hn
        have hpos : nf.tournament = f.tournament ∧ nf.event = f.event ∧
            nf.round = f.round + 1 ∧ nf.matchIndex = f.matchIndex / 2 := by
          simpa [nextFilter] using hnf
        have hs := setSlot_frame f.matchIndex w x
        have hp := setSlot_pos f.matchIndex w x
        refine ⟨fun _ => ⟨by rw [hxe]; exact hn, by rw [hxe]; exact hpos.1,
            by rw [hxe]; exact hpos.2.1, by rw [hxe]; exact hpos.2.2.1,
            by rw [hxe]; exact hpos.2.2.2, w, by rw [hwin]; exact hk, rfl⟩,
          hp.1, hp.2.1, hp.2.2.1, hp.2.2.2.1, hs.1, hp.2.2.2.2, hs.2.1, hs.2.2.1, hs.2.2.2.1,
          hs.2.2.2.2.1, hs.2.2.2.2.2.1, hs.2.2.2.2.2.2.1, hs.2.2.2.2.2.2.2.1,
          fun h0 => (hs.2.2.2.2.2.2.2.2.1 h0).2, fun h1 => (hs.2.2.2.2.2.2.2.2.2 h1).2⟩
      · rw [if_neg hxn]
        exact ⟨fun h => absurd rfl h, rfl, rfl, rfl, rfl, rfl, rfl, rfl, rfl, rfl, rfl, rfl,
          rfl, rfl, fun _ => rfl, fun _ => rfl⟩
  · intro hnone x hx hne
    have hn : store.find? (nextFilter f) = none := by
      rw [List.find?_eq_none]
      intro y hy
      have := hnone y hy
      simpa [nextFilter] using this
    rw [findById_updateFixture store hwf fid body f hf x hx, updateStep_other _ _ _ _ _ x hne,
      propagationTarget_none store body f hn]

/-- The theorem applied to the example store and a request naming team `20`
the winner. -/
theorem updateFixture_single_hop_witness :
    sampleStore.WF ∧ findById sampleStore 1 = some sampleMatch ∧
    (updateFixture sampleStore 1 { winner := Field.val 20 }).success = true ∧
    ((updateFixture sampleStore 1 { winner := Field.val 20 }).store.map fun x => x.id) =
      (sampleStore.map fun x => x.id) :=
  ⟨by decide, by decide,
    (updateFixture_single_hop sampleStore 1 { winner := Field.val 20 } sampleMatch
      (by decide) (by decide)).1,
    (updateFixture_single_hop sampleStore 1 { winner := Field.val 20 } sampleMatch
      (by decide) (by decide)).2.1⟩

/-! ## Theorems: derivation and propagation across requests -/

/-- C21, the claim at a request that sends only `notes`. The fixture at `(0, 3)`
holds the result 3 : 1 with team `20` stored as its winner (named by the request
that entered the result), and the next-round fixture holds `20`. A request that
sends only `notes` succeeds, replaces the stored winner by team `10`, the side
with the higher stored score, and writes `10` over `20` in the next-round
fixture: the second derivation pass tests the winner of the request, not the
stored one. -/
theorem second_pass_overwrites_stored_winner :
    (updateFixture sampleStore 1
      { scoreA := Field.val 3, scoreB := Field.val 1, winner := Field.val 20 }).store
      = awardedStore ∧
    ((findById awardedStore 1).map fun f => (f.scoreA, f.scoreB, f.winner)) =
      some (some 3, some 1, some 20) ∧
    (updateFixture awardedStore 1 { notes := Field.val "venue changed" }).success = true ∧
    ((findById (updateFixture awardedStore 1 { notes := Field.val "venue changed" }).store 1).map
      fun f => (f.scoreA, f.scoreB, f.winner)) = some (some 3, some 1, some 10) ∧
    (updateFixture awardedStore 1 { notes := Field.val "venue changed" }).winnerId = some 10 ∧
    ((findById awardedStore 2).map fun f => f.teamB) = some (some 20) ∧
    ((findById (updateFixture awardedStore 1 { notes := Field.val "venue changed" }).store 2).map
      fun f => f.teamB) = some (some 10) := by
  decide

theorem updateDataWinner_no_scores (body : UpdateBody) (hA : body.scoreA = Field.absent) :
    updateDataWinner body = body.winner := by
  unfold updateDataWinner
  rw [if_neg]
  intro h
  exact h.1 hA

/-- C21 as amended. On a store with unique ids, for a request that sends none
of `scoreA`, `scoreB` and `winner`, the update succeeds and leaves the scores
and sides of the fixture as stored. If both stored scores are present and
differ, the stored winner afterwards is the side with the higher stored score,
whatever winner was stored before, and that side is the winner known at the
propagation step. If a stored score is missing or the two are equal, the stored
winner is unchanged, no winner is known at the propagation step and every other
fixture is unchanged. -/
theorem second_pass_amended (store : Store) (fid : Id) (body : UpdateBody) (f : Fixture)
    (hwf : store.WF) (hf : findById store fid = some f)
    (hA : body.scoreA = Field.absent) (hB : body.scoreB = Field.absent)
    (hW : body.winner = Field.absent) :
    (updateFixture store fid body).success = true ∧
    ∃ g, findById (updateFixture store fid body).store fid = some g ∧
      g.scoreA = f.scoreA ∧ g.scoreB = f.scoreB ∧ g.teamA = f.teamA ∧ g.teamB = f.teamB ∧
      (∀ a b, f.scoreA = some a → f.scoreB = some b → a ≠ b →
        g.winner = (if a > b then f.teamA else f.teamB) ∧
        (updateFixture store fid body).winnerId = (if a > b then f.teamA else f.teamB)) ∧
      ((f.scoreA = none ∨ f.scoreB = none ∨ f.scoreA = f.scoreB) →
        g.winner = f.winner ∧ (updateFixture store fid body).winnerId = none ∧
        ∀ x ∈ store, x.id ≠ fid →
          findById (updateFixture store fid body).store x.id = some x) := by
  obtain ⟨hfm, hfid⟩ := findById_some store fid f hf
  obtain ⟨_, hwin, hsucc, _⟩ := updateFixture_store store fid body f hf
  have hudw : updateDataWinner body = Field.absent := by
    rw [updateDataWinner_no_scores body hA, hW]
  have hsA : (applyUpdateData body f).scoreA = f.scoreA := by
    show body.scoreA.assign f.scoreA = f.scoreA
    rw [hA]; rfl
  have hsB : (applyUpdateData body f).scoreB = f.scoreB := by
    show body.scoreB.assign f.scoreB = f.scoreB
    rw [hB]; rfl
  have hwn : (applyUpdateData body f).winner = f.winner := by
    show (updateDataWinner body).assign f.winner = f.winner
    rw [hudw]; rfl
  have h1 := findById_updateFixture store hwf fid body f hf f hfm
  rw [hfid, updateStep_found fid body _ _ _ f hfid
    (fun nid w ht => propagationTarget_ne store hwf fid body f hf nid w ht)] at h1
  rw [hwin]
  unfold knownWinner
  rw [hudw] at h1 ⊢
  have htr : (Field.absent : Field Id).truthy = none := rfl
  rw [htr] at h1 ⊢
  refine ⟨hsucc, _, h1, ?_, ?_, (finishUpdate_pos _ _ _).2.2.2.2.2.1,
    (finishUpdate_pos _ _ _).2.2.2.2.2.2, ?_, ?_⟩
  · cases secondPass none (applyUpdateData body f) <;> exact hsA
  · cases secondPass none (applyUpdateData body f) <;> exact hsB
  · intro a b ha hb hab
    have hsp : secondPass none (applyUpdateData body f) =
        some (if a > b then f.teamA else f.teamB) := by
      unfold secondPass
      rw [hsA, hsB, ha, hb]
      simp only [ne_eq, hab, not_false_eq_true, if_true]
      rfl
    rw [hsp]
    exact ⟨rfl, rfl⟩
  · intro hno
    have hsp : secondPass none (applyUpdateData body f) = none := by
      unfold secondPass
      rw [hsA, hsB]
      rcases hA' : f.scoreA with _ | a
      · rfl
      · rcases hB' : f.scoreB with _ | b
        · rfl
        · have hab : a = b := by
            rcases hno with h | h | h
            · rw [hA'] at h; cases h
            · rw [hB'] at h; cases h
            · rw [hA', hB'] at h; exact Option.some.inj h
          simp [hab]
    rw [hsp]
    refine ⟨hwn, rfl, ?_⟩
    intro x hx hne
    have ht : propagationTarget store body f = none := by
      unfold propagationTarget knownWinner
      rw [hudw, htr, hsp]
    rw [findById_updateFixture store hwf fid body f hf x hx, updateStep_other _ _ _ _ _ x hne, ht]

/-- The amended statement applied to the store with the result 3 : 1 and the
stored winner `20`, and the request that sends only `notes`. -/
theorem second_pass_amended_witness :
    awardedStore.WF ∧
    (updateFixture awardedStore 1 { notes := Field.val "venue changed" }).success = true :=
  ⟨by decide,
    (second_pass_amended awardedStore 1 { notes := Field.val "venue changed" }
      { sampleMatch with scoreA := some 3, scoreB := some 1, winner := some 20 }
      (by decide) (by decide) rfl rfl rfl).1⟩

/-- C25, the code at the failing input. `generateFixtures` makes the schedule
`rrSchedule` of the entrants `1, 2, 3, 4`. Entering 2 : 1 on the matchday-1
fixture `2 v 3` at index `1` succeeds and writes the winner `2` into `teamB` of
the matchday-2 fixture at index `0`: `1 v 3` becomes `1 v 2`, so `1` and `3` no
longer meet and `1` and `2` meet twice; the six fixtures are stored without a
`phase`, and the propagation filter does not look at one. -/
theorem roundRobin_pairing_overwritten :
    (generateFixtures [] 5 (some 6) false rrEnv id (fun i => 100 + i) 0).store = rrSchedule ∧
    (rrSchedule.map fun f => (f.id, f.round, f.matchIndex, f.teamA, f.teamB)) =
      [(100, 0, 0, some 1, some 4), (101, 0, 1, some 2, some 3), (102, 1, 0, some 1, some 3),
       (103, 1, 1, some 4, some 2), (104, 2, 0, some 1, some 2), (105, 2, 1, some 3, some 4)] ∧
    (updateFixture rrSchedule 101 { scoreA := Field.val 2, scoreB := Field.val 1 }).success
      = true ∧
    ((updateFixture rrSchedule 101 { scoreA := Field.val 2, scoreB := Field.val 1 }).store.map
      fun f => (f.id, f.round, f.matchIndex, f.teamA, f.teamB)) =
      [(100, 0, 0, some 1, some 4), (101, 0, 1, some 2, some 3), (102, 1, 0, some 1, some 2),
       (103, 1, 1, some 4, some 2), (104, 2, 0, some 1, some 2), (105, 2, 1, some 3, some 4)] ∧
    ((updateFixture rrSchedule 101 { scoreA := Field.val 2, scoreB := Field.val 1 }).store.filter
      (meets 1 3)).length = 0 ∧
    ((updateFixture rrSchedule 101 { scoreA := Field.val 2, scoreB := Field.val 1 }).store.filter
      (meets 1 2)).length = 2 ∧
    ((updateFixture rrSchedule 101 { scoreA := Field.val 2, scoreB := Field.val 1 }).store.map
      fun f => f.phase) = List.replicate 6 none := by
  refine ⟨by decide, by decide, by decide, by decide, by decide, by decide, by decide⟩

/-- C27, the claim at a request naming a winner. The request `winner = 99` on the
fixture of teams `10` and `20` succeeds, stores `99` as the winner and writes
`99` into the next-round fixture. -/
theorem winner_not_a_side_counterexample :
    (updateFixture sampleStore 1 { winner := Field.val 99 }).success = true ∧
    ((findById (updateFixture sampleStore 1 { winner := Field.val 99 }).store 1).map
      fun f => (f.teamA, f.teamB, f.winner)) = some (some 10, some 20, some 99) ∧
    ((findById (updateFixture sampleStore 1 { winner := Field.val 99 }).store 2).map
      fun f => f.teamB) = some (some 99) := by
  decide

theorem updateDataWinner_plain_assign (body : UpdateBody) (hw : ∀ w, body.winner ≠ Field.val w)
    (hA : body.teamA = Field.absent) (hB : body.teamB = Field.absent) (o : Option Id) :
    (updateDataWinner body).assign o = o ∨ (updateDataWinner body).assign o = none := by
  unfold updateDataWinner
  rcases hbw : body.winner with _ | _ | w
  · simp only [hA, hB]
    split_ifs <;> exact Or.inl rfl
  · right
    simp [Field.assign]
  · exact absurd hbw (hw w)

theorem secondPass_side (f : Fixture) (w : Option Id)
    (h : secondPass none f = some w) : w = f.teamA ∨ w = f.teamB := by
  unfold secondPass at h
  rcases hA : f.scoreA with _ | a
  · rw [hA] at h; simp at h
  · rcases hB : f.scoreB with _ | b
    · rw [hA, hB] at h; simp at h
    · rw [hA, hB] at h
      simp only at h
      split_ifs at h with h1 h2
      · left; exact (Option.some.inj h).symm
      · right; exact (Option.some.inj h).symm

/-- C27 as amended. On a store with unique ids, for a request that names no
winner and carries no `teamA` / `teamB`, on a fixture whose stored winner is
`null` or one of its sides: the update succeeds, the stored winner afterwards is
`null` or one of the two sides, the winner known at the propagation step is one
of the two sides, and any other fixture that changes has had one of the two
sides written into its slot. -/
theorem winner_is_a_side_amended (store : Store) (fid : Id) (body : UpdateBody) (f : Fixture)
    (hwf : store.WF) (hf : findById store fid = some f)
    (hw : ∀ w, body.winner ≠ Field.val w)
    (hA : body.teamA = Field.absent) (hB : body.teamB = Field.absent)
    (hold : f.winner = none ∨ f.winner = f.teamA ∨ f.winner = f.teamB) :
    (updateFixture store fid body).success = true ∧
    (∃ g, findById (updateFixture store fid body).store fid = some g ∧
      g.teamA = f.teamA ∧ g.teamB = f.teamB ∧
      (g.winner = none ∨ g.winner = g.teamA ∨ g.winner = g.teamB)) ∧
    (∀ w, (updateFixture store fid body).winnerId = some w →
      f.teamA = some w ∨ f.teamB = some w) ∧
    (∀ x ∈ store, x.id ≠ fid →
      ∃ y, findById (updateFixture store fid body).store x.id = some y ∧
        (y = x ∨ ∃ w, (f.teamA = some w ∨ f.teamB = some w) ∧ y = setSlot f.matchIndex w x)) := by
  obtain ⟨hfm, hfid⟩ := findById_some store fid f hf
  obtain ⟨hstore, hwin, hsucc, _⟩ := updateFixture_store store fid body f hf
  have ht := updateDataWinner_plain body hw hA hB
  have hkw : ∀ w, knownWinner body f = some w → f.teamA = some w ∨ f.teamB = some w := by
    intro w hk
    unfold knownWinner at hk
    rw [ht] at hk
    cases hs : secondPass none (applyUpdateData body f) with
    | none => rw [hs] at hk; simp at hk
    | some d =>
      rw [hs] at hk
      simp only at hk
      have := secondPass_side _ _ hs
      rw [hk] at this
      rcases this with h | h
      · left; exact h.symm
      · right; exact h.symm
  refine ⟨hsucc, ?_, ?_, ?_⟩
  · have h1 := findById_updateFixture store hwf fid body f hf f hfm
    rw [hfid, updateStep_found fid body _ _ _ f hfid
      (fun nid w ht => propagationTarget_ne store hwf fid body f hf nid w ht)] at h1
    have hgw : (finishUpdate body
        (secondPass (updateDataWinner body).truthy (applyUpdateData body f)) f).winner = none ∨
        (finishUpdate body
          (secondPass (updateDataWinner body).truthy (applyUpdateData body f)) f).winner
          = f.teamA ∨
        (finishUpdate body
          (secondPass (updateDataWinner body).truthy (applyUpdateData body f)) f).winner
          = f.teamB := by
      rw [ht]
      cases hs : secondPass none (applyUpdateData body f) with
      | none =>
        have : (finishUpdate body none f).winner = (updateDataWinner body).assign f.winner := rfl
        rw [this]
        rcases updateDataWinner_plain_assign body hw hA hB f.winner with h | h
        · rw [h]; exact hold
        · left; exact h
      | some d =>
        have : (finishUpdate body (some d) f).winner = d := rfl
        rw [this]
        exact Or.inr (secondPass_side (applyUpdateData body f) d hs)
    refine ⟨_, h1, (finishUpdate_pos _ _ _).2.2.2.2.2.1, (finishUpdate_pos _ _ _).2.2.2.2.2.2, ?_⟩
    rw [(finishUpdate_pos _ _ _).2.2.2.2.2.1, (finishUpdate_pos _ _ _).2.2.2.2.2.2]
    exact hgw
  · intro w h
    rw [hwin] at h
    exact hkw w h
  · intro x hx hne
    refine ⟨_, findById_updateFixture store hwf fid body f hf x hx, ?_⟩
    rw [updateStep_other _ _ _ _ _ x hne]
    cases htg : propagationTarget store body f with
    | none => left; rfl
    | some t =>
      obtain ⟨nid, w⟩ := t
      dsimp only
      by_cases hxn : x.id = nid
      · rw [if_pos hxn]
        obtain ⟨nf, _, _, hk⟩ := propagationTarget_some store body f nid w htg
        exact Or.inr ⟨w, hkw w hk, rfl⟩
      · rw [if_neg hxn]; left; rfl

/-- The amended statement applied to the example store and the result 1 : 4. -/
theorem winner_is_a_side_amended_witness :
    sampleStore.WF ∧ findById sampleStore 1 = some sampleMatch ∧
    (updateFixture sampleStore 1 { scoreA := Field.val 1, scoreB := Field.val 4 }).success
      = true ∧
    (∀ w, (updateFixture sampleStore 1
        { scoreA := Field.val 1, scoreB := Field.val 4 }).winnerId = some w →
      sampleMatch.teamA = some w ∨ sampleMatch.teamB = some w) :=
  ⟨by decide, by decide,
    (winner_is_a_side_amended sampleStore 1 { scoreA := Field.val 1, scoreB := Field.val 4 }
      sampleMatch (by decide) (by decide) (fun _ h => by cases h) rfl rfl (by decide)).1,
    (winner_is_a_side_amended sampleStore 1 { scoreA := Field.val 1, scoreB := Field.val 4 }
      sampleMatch (by decide) (by decide) (fun _ h => by cases h) rfl rfl (by decide)).2.2.1⟩

/-! ## Theorems: the qualification bridge, repeated and compared -/

/-- C22, the code at the failing input. The round robin of three entrants has the
fixture `2 v 3` without a result. `generateKnockoutFromStandings` with two
qualifiers succeeds and inserts the Final `1 v 3` (at round `0`, the stored
round robin carrying no `phase`), leaving the round-robin fixtures as they are:
the query result is only checked for being non-empty, and a fixture without a
result is skipped by the standings. -/
theorem bridge_accepts_unscored_round_robin :
    (partialStore.map fun f => (f.round, f.teamA, f.teamB, f.scoreA, f.scoreB)) =
      [(0, some 2, some 3, none, none), (1, some 1, some 3, some 1, some 0),
       (2, some 1, some 2, some 2, some 0)] ∧
    rrFixturesOf partialStore 5 6 = partialStore ∧
    (generateKnockoutFromStandings partialStore 5 6 2 (some hybridEvent)
        (fun i => 200 + i) 9).success = true ∧
    ((generateKnockoutFromStandings partialStore 5 6 2 (some hybridEvent)
        (fun i => 200 + i) 9).fixtures.map
        fun f => (f.round, f.roundName, f.teamA, f.teamB, f.phase)) =
      [(0, "Final", some 1, some 3, none)] ∧
    (generateKnockoutFromStandings partialStore 5 6 2 (some hybridEvent)
        (fun i => 200 + i) 9).store =
      partialStore ++ (generateKnockoutFromStandings partialStore 5 6 2 (some hybridEvent)
        (fun i => 200 + i) 9).fixtures := by
  have hq : ((bridgeStandings (rrFixturesOf partialStore 5 6)).take 2).map
      (fun s => s.teamId) = [1, 3] := by decide
  have hc : Nat.clog 2 ([1, 3] : List Id).length = 1 := by simp [Nat.clog]
  have hw : weave [1, 3] 0 ([1, 3] : List Id).length = [1, 3] := rfl
  rw [generateKnockoutFromStandings_pass partialStore 5 6 2 hybridEvent _ 9 [1, 3]
    (by decide) (by decide) hq (by decide), hc, hw]
  unfold padWithByes nextPowerOfTwo
  rw [hc]
  refine ⟨by decide, by decide, rfl, by decide, by decide⟩

theorem bridgeCompare_eq (x y : Standing) : bridgeCompare x y = standingsCompare x y := by
  unfold bridgeCompare standingsCompare Standing.goalDiff
  split_ifs with h1 h2 h2
  · rfl
  · omega
  · omega
  · rfl

theorem orderedInsert_bridge (a : Standing) (l : List Standing) :
    List.orderedInsert bridgeBefore a l = List.orderedInsert rankedBefore a l := by
  induction l with
  | nil => rfl
  | cons b l ih =>
    have h : bridgeBefore a b ↔ rankedBefore a b := by
      unfold bridgeBefore rankedBefore
      rw [bridgeCompare_eq]
    by_cases hb : bridgeBefore a b
    · simp [List.orderedInsert, hb, h.mp hb]
    · have hr : ¬ rankedBefore a b := fun hr => hb (h.mpr hr)
      simp [List.orderedInsert, hb, hr, ih]

theorem insertionSort_bridge (l : List Standing) :
    l.insertionSort bridgeBefore = l.insertionSort rankedBefore := by
  induction l with
  | nil => rfl
  | cons a l ih => simp only [List.insertionSort, ih, orderedInsert_bridge]

theorem bridgeTally_eq (stats : List Standing) (fx : Fixture) :
    bridgeTally stats fx = tally stats fx := rfl

theorem rrFixturesOf_eq_filter (store : Store) (tid eid : Id) :
    rrFixturesOf store tid eid =
      store.filter (standingsFilter tid (some eid) (some "round-robin-knockout")) := by
  unfold rrFixturesOf
  apply List.filter_congr
  intro f _
  unfold standingsFilter rrOrLegacy
  simp only [if_true]
  by_cases h1 : f.phase = some Phase.rr <;> by_cases h2 : f.phase = none <;>
    simp [h1, h2, Bool.and_assoc]

/-- C29, the two standings implementations agree. For every fixture list the
ranked list computed inside `generateKnockoutFromStandings` is the list
`getStandings` computes from the same fixtures, record for record and in the
same order, so the qualifiers are the first `K` rows; and for an event of match
type `"round-robin-knockout"` the list the bridge ranks is the answer of
`getStandings` for the event. -/
theorem standings_implementations_agree (fixtures : List Fixture) (K : Nat)
    (store : Store) (tid eid : Id) :
    bridgeStandings fixtures = computeStandings fixtures ∧
    ((bridgeStandings fixtures).take K).map (fun s => s.teamId) =
      ((computeStandings fixtures).take K).map (fun s => s.teamId) ∧
    bridgeStandings (rrFixturesOf store tid eid) =
      getStandings store tid (some eid) (some "round-robin-knockout") := by
  have h : ∀ fs, bridgeStandings fs = computeStandings fs := by
    intro fs
    unfold bridgeStandings computeStandings sortStandings
    rw [insertionSort_bridge]
    rfl
  refine ⟨h _, by rw [h], ?_⟩
  rw [h, rrFixturesOf_eq_filter]
  rfl

theorem generateKnockoutFromStandings_success (store : Store) (tid eid : Id) (K : Nat)
    (event : Option Event) (freshId : Nat → Id) (now : Nat)
    (h : (generateKnockoutFromStandings store tid eid K event freshId now).success = true) :
    ∃ e, event = some e ∧ isRRKO e = true ∧ (rrFixturesOf store tid eid).length ≠ 0 ∧
      ¬ (((bridgeStandings (rrFixturesOf store tid eid)).take K).map
        fun s => s.teamId).length < 2 := by
  unfold generateKnockoutFromStandings at h
  cases event with
  | none => simp at h
  | some e =>
    refine ⟨e, rfl, ?_⟩
    simp only at h
    by_cases h1 : isRRKO e = true
    · simp only [h1, Bool.not_true, Bool.false_eq_true, if_false] at h
      by_cases h2 : (rrFixturesOf store tid eid).length = 0
      · simp [h2] at h
      · simp only [h2, if_false] at h
        by_cases h3 : (((bridgeStandings (rrFixturesOf store tid eid)).take K).map
            fun s => s.teamId).length < 2
        · rw [if_pos h3] at h; simp at h
        · exact ⟨h1, h2, h3⟩
    · have h1f : isRRKO e = false := by simpa using h1
      simp [h1f] at h

theorem bracketRounds_phase (tid : Id) (eid : Option Id) (name : Nat → String) (start : Nat) :
    ∀ (j : Nat) (current : List (Option Id)) (rel : Nat),
      ∀ d ∈ bracketRounds tid eid name start j current rel,
        d.phase = some Phase.ko ∧ d.status = Status.scheduled := by
  intro j
  induction j with
  | zero => intro current rel d hd; simp [bracketRounds] at hd
  | succ j ih =>
    intro current rel d hd
    rw [bracketRounds, List.mem_append] at hd
    rcases hd with hd | hd
    · simp only [koRound, List.mem_map, List.mem_range] at hd
      obtain ⟨i, _, rfl⟩ := hd
      exact ⟨rfl, rfl⟩
    · exact ih _ _ d hd

theorem filter_erase_created (store created : Store) (p q : Fixture → Bool)
    (hpq : ∀ f, q f = true → p f = false) (hc : ∀ f ∈ created, q f = false) :
    (deleteMany store p ++ created).filter q = store.filter q := by
  unfold deleteMany
  rw [List.filter_append, List.filter_filter]
  have : created.filter q = [] := by
    rw [List.filter_eq_nil_iff]
    intro f hf
    simp [hc f hf]
  rw [this, List.append_nil]
  apply List.filter_congr
  intro f _
  by_cases h : q f = true
  · simp [h, hpq f h]
  · simp [h]

/-- C23, the code at the failing input. On the played round robin `legacyStore`
of three entrants, `generateKnockoutFromStandings` with two qualifiers succeeds
and leaves `bridgedStore`: the round robin and the Final `1 v 3` at round `0`.
A second call with the same arguments succeeds and inserts a second Final
`1 v 3` at `(0, 0)` without removing the first: the Final was stored without a
`phase`, so the erasure of the fixtures with `phase = ko` removes nothing. The
store then has five fixtures, and two fixtures of the scope with the same
phase share `(round, matchIndex)`. -/
theorem bridge_retrigger_duplicates :
    (generateKnockoutFromStandings legacyStore 5 6 2 (some hybridEvent)
      (fun i => 200 + i) 9).success = true ∧
    (generateKnockoutFromStandings legacyStore 5 6 2 (some hybridEvent)
      (fun i => 200 + i) 9).store = bridgedStore ∧
    (generateKnockoutFromStandings bridgedStore 5 6 2 (some hybridEvent)
      (fun i => 300 + i) 11).success = true ∧
    ((generateKnockoutFromStandings bridgedStore 5 6 2 (some hybridEvent)
      (fun i => 300 + i) 11).store.map
      fun f => (f.id, f.round, f.matchIndex, f.roundName, f.phase)) =
      [(100, 0, 0, "Matchday 1", none), (101, 1, 0, "Matchday 2", none),
       (102, 2, 0, "Matchday 3", none), (200, 0, 0, "Final", none),
       (300, 0, 0, "Final", none)] ∧
    (((generateKnockoutFromStandings bridgedStore 5 6 2 (some hybridEvent)
      (fun i => 300 + i) 11).store.filter fun f => decide (f.roundName = "Final")).map
      fun f => (f.id, f.teamA, f.teamB)) = [(200, some 1, some 3), (300, some 1, some 3)] ∧
    ¬ UniqueIndex ((generateKnockoutFromStandings bridgedStore 5 6 2 (some hybridEvent)
      (fun i => 300 + i) 11).store.filter (inScope 5 (some 6))) := by
  have hc : Nat.clog 2 ([1, 3] : List Id).length = 1 := by simp [Nat.clog]
  have hw : weave [1, 3] 0 ([1, 3] : List Id).length = [1, 3] := rfl
  rw [generateKnockoutFromStandings_pass legacyStore 5 6 2 hybridEvent (fun i => 200 + i) 9
      [1, 3] (by decide) (by decide) (by decide) (by decide),
    generateKnockoutFromStandings_pass bridgedStore 5 6 2 hybridEvent (fun i => 300 + i) 11
      [1, 3] (by decide) (by decide) (by decide) (by decide), hc, hw]
  unfold padWithByes nextPowerOfTwo
  rw [hc]
  refine ⟨rfl, by decide, rfl, by decide, by decide, by decide⟩

/-! ## Theorems: contents and names of the bracket -/

theorem digitChar_isDigit : ∀ d, d < 10 → (Nat.digitChar d).isDigit = true := by
  decide

theorem toDigitsCore_isDigit :
    ∀ (fuel n : Nat) (ds : List Char), (∀ c ∈ ds, c.isDigit = true) →
      ∀ c ∈ Nat.toDigitsCore 10 fuel n ds, c.isDigit = true := by
  intro fuel
  induction fuel with
  | zero => intro n ds h c hc; exact h c (by simpa [Nat.toDigitsCore] using hc)
  | succ fuel ih =>
    intro n ds h c hc
    have hd : ∀ c ∈ Nat.digitChar (n % 10) :: ds, c.isDigit = true := by
      intro c hc
      rcases List.mem_cons.mp hc with rfl | hc
      · exact digitChar_isDigit _ (Nat.mod_lt _ (by norm_num))
      · exact h c hc
    unfold Nat.toDigitsCore at hc
    simp only at hc
    split_ifs at hc
    · exact hd c hc
    · exact ih _ _ hd c hc

theorem repr_isDigit (n : Nat) : ∀ c ∈ (Nat.repr n).data, c.isDigit = true := by
  intro c hc
  exact toDigitsCore_isDigit _ _ [] (fun _ h => absurd h (List.not_mem_nil _)) c hc

/-- A name `"Round n"` is none of the four names of the late rounds. -/
theorem round_name_ne (n : Nat) :
    "Round " ++ toString ((n : Int) + 1) ≠ "Final" ∧
    "Round " ++ toString ((n : Int) + 1) ≠ "Semi-Final" ∧
    "Round " ++ toString ((n : Int) + 1) ≠ "Quarter-Final" ∧
    "Round " ++ toString ((n : Int) + 1) ≠ "Round of 16" := by
  have ht : toString ((n : Int) + 1) = Nat.repr (n + 1) := rfl
  rw [ht]
  refine ⟨?_, ?_, ?_, ?_⟩
  · intro h
    have := congrArg String.data h
    simp [String.data_append] at this
  · intro h
    have := congrArg String.data h
    simp [String.data_append] at this
  · intro h
    have := congrArg String.data h
    simp [String.data_append] at this
  · intro h
    have := congrArg String.data h
    simp only [String.data_append] at this
    have h2 : (Nat.repr (n + 1)).data = ['o', 'f', ' ', '1', '6'] :=
      List.append_cancel_left (this : "Round ".data ++ _ = "Round ".data ++ _)
    have := repr_isDigit (n + 1) 'o' (by rw [h2]; simp)
    exact absurd this (by decide)

theorem getRoundName_cases (s k : Nat) (hs : s < k) :
    (getRoundName s k = "Final" ↔ k - 1 - s = 0) ∧
    (getRoundName s k = "Semi-Final" ↔ k - 1 - s = 1) ∧
    (getRoundName s k = "Quarter-Final" ↔ k - 1 - s = 2) ∧
    (getRoundName s k = "Round of 16" ↔ k - 1 - s = 3) := by
  have hn := round_name_ne s
  unfold getRoundName
  simp only
  by_cases h0 : (k : Int) - 1 - s = 0
  · have : k - 1 - s = 0 := by omega
    simp [h0, this]
  · by_cases h1 : (k : Int) - 1 - s = 1
    · have : k - 1 - s = 1 := by omega
      simp [h0, h1, this]
    · by_cases h2 : (k : Int) - 1 - s = 2
      · have : k - 1 - s = 2 := by omega
        simp [h0, h1, h2, this]
      · by_cases h3 : (k : Int) - 1 - s = 3
        · have : k - 1 - s = 3 := by omega
          simp [h0, h1, h2, h3, this]
        · have e0 : ¬ k - 1 - s = 0 := by omega
          have e1 : ¬ k - 1 - s = 1 := by omega
          have e2 : ¬ k - 1 - s = 2 := by omega
          have e3 : ¬ k - 1 - s = 3 := by omega
          simp only [h0, h1, h2, h3, if_false, e0, e1, e2, e3, iff_false]
          exact hn

theorem bracketRounds_name (tid : Id) (eid : Option Id) (name : Nat → String) (start : Nat) :
    ∀ (j : Nat) (current : List (Option Id)) (rel : Nat),
      ∀ d ∈ bracketRounds tid eid name start j current rel,
        ∃ s, s < j ∧ d.round = start + (rel + s) ∧ d.roundName = name (rel + s) := by
  intro j
  induction j with
  | zero => intro current rel d hd; simp [bracketRounds] at hd
  | succ j ih =>
    intro current rel d hd
    rw [bracketRounds, List.mem_append] at hd
    rcases hd with hd | hd
    · simp only [koRound, List.mem_map, List.mem_range] at hd
      obtain ⟨i, _, rfl⟩ := hd
      exact ⟨0, by omega, rfl, rfl⟩
    · obtain ⟨s, hs, h1, h2⟩ := ih _ _ d hd
      exact ⟨s + 1, by omega, by rw [h1]; omega, by rw [h2]; congr 1; omega⟩

theorem length_filter_round (docs : List FixtureDoc) (start k r : Nat)
    (h : docs.map FixtureDoc.pos = bracketPositions start k) :
    (docs.filter fun d => decide (d.round = r)).length =
      if start ≤ r ∧ r < start + k then 2 ^ (k - 1 - (r - start)) else 0 := by
  have := congrArg List.length (docs_round_matchIndex docs start k r h)
  rw [List.length_map] at this
  rw [this]
  split_ifs <;> simp

/-- Names and sizes of the rounds the bracket loop emits. -/
theorem roundNamesMatch_bracketRounds (tid : Id) (eid : Option Id) (start k : Nat)
    (current : List (Option Id)) (hk : 1 ≤ k) (hlen : current.length = 2 ^ k) :
    RoundNamesMatch
      (bracketRounds tid eid (fun r => getRoundName r k) start k current 0)
      (start + (k - 1)) := by
  have hpos := bracketRounds_pos tid eid (fun r => getRoundName r k) start k current 0 hlen
  rw [Nat.add_zero] at hpos
  have hcount := fun r => length_filter_round _ start k r hpos
  have hnm := bracketRounds_name tid eid (fun r => getRoundName r k) start k current 0
  simp only [Nat.zero_add] at hnm
  have hsize : ∀ d ∈ bracketRounds tid eid (fun r => getRoundName r k) start k current 0,
      ∀ (nm : String) (c : Nat),
        (∀ s, s < k → (getRoundName s k = nm ↔ k - 1 - s = c)) → d.roundName = nm →
        ((bracketRounds tid eid (fun r => getRoundName r k) start k current 0).filter
          fun e => decide (e.round = d.round)).length = 2 ^ c := by
    intro d hd nm c hc hname
    obtain ⟨s, hs, h1, h2⟩ := hnm d hd
    rw [hcount, h1, if_pos ⟨by omega, by omega⟩]
    have := (hc s hs).mp (h2 ▸ hname)
    have e : start + s - start = s := by omega
    rw [e, this]
  refine ⟨?_, ?_, ?_, ?_, ?_, ?_, ?_, ?_⟩
  · intro d hd e he hr
    obtain ⟨s, _, h1, h2⟩ := hnm d hd
    obtain ⟨s', _, h1', h2'⟩ := hnm e he
    have : s = s' := by omega
    rw [h2, h2', this]
  · intro d hd
    obtain ⟨s, hs, h1, _⟩ := hnm d hd
    omega
  · intro d hd
    obtain ⟨s, hs, h1, h2⟩ := hnm d hd
    rw [h2, h1, (getRoundName_cases s k hs).1]
    omega
  · rw [hcount, if_pos ⟨by omega, by omega⟩]
    have e : k - 1 - (start + (k - 1) - start) = 0 := by omega
    rw [e]; rfl
  · intro d hd h
    exact hsize d hd "Final" 0 (fun s hs => (getRoundName_cases s k hs).1) h
  · intro d hd h
    exact hsize d hd "Semi-Final" 1 (fun s hs => (getRoundName_cases s k hs).2.1) h
  · intro d hd h
    exact hsize d hd "Quarter-Final" 2 (fun s hs => (getRoundName_cases s k hs).2.2.1) h
  · intro d hd h
    exact hsize d hd "Round of 16" 3 (fun s hs => (getRoundName_cases s k hs).2.2.2) h

/-- C30, round names match round sizes. In the bracket either knockout builder
emits for `P ≥ 2` participants, all fixtures of a round carry the same name,
"Final" names exactly the last round, which holds one fixture, and the rounds
named "Semi-Final", "Quarter-Final" and "Round of 16" hold 2, 4 and 8 fixtures
(`generateFixtures` numbers the rounds from 0, `generateKnockoutFromStandings`
from any `startRound`). -/
theorem round_names_match_sizes (tid : Id) (eid : Option Id) (start : Nat) (ps : List Id)
    (hP : 2 ≤ ps.length) :
    RoundNamesMatch (knockoutDocs tid eid ps) (Nat.clog 2 ps.length - 1) ∧
    RoundNamesMatch (knockoutFromStandingsDocs tid eid start ps)
      (start + (Nat.clog 2 ps.length - 1)) := by
  have hk : 1 ≤ Nat.clog 2 ps.length := Nat.clog_pos (by norm_num) hP
  constructor
  · rw [knockoutDocs_closed]
    have := roundNamesMatch_bracketRounds tid eid 0 _ (padWithByes ps) hk (padWithByes_length ps)
    rwa [Nat.zero_add] at this
  · rw [knockoutFromStandingsDocs_closed]
    exact roundNamesMatch_bracketRounds tid eid start _ (padWithByes ps) hk
      (padWithByes_length ps)

/-- The theorem applied to five participants and `startRound = 3`. -/
theorem round_names_match_sizes_witness :
    2 ≤ [1, 2, 3, 4, 5].length ∧
    RoundNamesMatch (knockoutDocs 5 (some 6) [1, 2, 3, 4, 5])
      (Nat.clog 2 [1, 2, 3, 4, 5].length - 1) ∧
    RoundNamesMatch (knockoutFromStandingsDocs 5 (some 6) 3 [1, 2, 3, 4, 5])
      (3 + (Nat.clog 2 [1, 2, 3, 4, 5].length - 1)) :=
  ⟨by decide, round_names_match_sizes 5 (some 6) 3 [1, 2, 3, 4, 5] (by decide)⟩

theorem bracketRounds_later_null (tid : Id) (eid : Option Id) (name : Nat → String)
    (start : Nat) :
    ∀ (j n rel : Nat),
      ∀ d ∈ bracketRounds tid eid name start j (List.replicate n none) rel,
        d.teamA = none ∧ d.teamB = none := by
  intro j
  induction j with
  | zero => intro n rel d hd; simp [bracketRounds] at hd
  | succ j ih =>
    intro n rel d hd
    rw [bracketRounds, List.mem_append] at hd
    rcases hd with hd | hd
    · simp only [koRound, List.mem_map, List.mem_range] at hd
      obtain ⟨i, _, rfl⟩ := hd
      simp only [List.getElem?_replicate]
      constructor <;> split_ifs <;> rfl
    · exact ih _ _ d hd

theorem bracketRounds_null_after_first (tid : Id) (eid : Option Id) (name : Nat → String)
    (start j : Nat) (current : List (Option Id)) (rel : Nat) :
    ∀ d ∈ bracketRounds tid eid name start (j + 1) current rel, d.round ≠ start + rel →
      d.teamA = none ∧ d.teamB = none := by
  intro d hd hr
  rw [bracketRounds, List.mem_append] at hd
  rcases hd with hd | hd
  · simp only [koRound, List.mem_map, List.mem_range] at hd
    obtain ⟨i, _, rfl⟩ := hd
    exact absurd rfl hr
  · exact bracketRounds_later_null tid eid name start j _ _ d hd

theorem koRound_padded_slots (tid : Id) (eid : Option Id) (ps : List Id) (round : Nat)
    (roundName : String) (hP : 2 ≤ ps.length) :
    (koRound tid eid (padWithByes ps) round roundName).map
        (fun d => (d.matchIndex, some d.teamA, some d.teamB)) =
      (List.range (2 ^ (Nat.clog 2 ps.length - 1))).map
        fun j => (j, (padWithByes ps)[2 * j]?, (padWithByes ps)[2 * j + 1]?) := by
  have hk : 1 ≤ Nat.clog 2 ps.length := Nat.clog_pos (by norm_num) hP
  have hl := padWithByes_length ps
  obtain ⟨m, hm⟩ : ∃ m, Nat.clog 2 ps.length = m + 1 := ⟨_, (Nat.sub_add_cancel hk).symm⟩
  have hlen : ((padWithByes ps).length + 1) / 2 = 2 ^ (Nat.clog 2 ps.length - 1) := by
    rw [hl, hm, pow_succ]
    simp only [Nat.add_sub_cancel]
    omega
  have hl2 : (padWithByes ps).length = 2 * 2 ^ (Nat.clog 2 ps.length - 1) := by
    rw [hl, hm, pow_succ]
    simp only [Nat.add_sub_cancel]
    omega
  unfold koRound
  rw [hlen, List.map_map]
  apply List.map_congr_left
  intro j hj
  have hj' := List.mem_range.mp hj
  have h1 : 2 * j < (padWithByes ps).length := by omega
  have h2 : 2 * j + 1 < (padWithByes ps).length := by omega
  simp only [Function.comp, List.getElem?_eq_getElem h1, List.getElem?_eq_getElem h2,
    Option.join, Option.some_bind, id]

theorem getElem?_nodup_inj (ps : List Id) (hnd : ps.Nodup) (a b : Nat) (p : Id)
    (ha : ps[a]? = some p) (hb : ps[b]? = some p) : a = b := by
  obtain ⟨ha', hpa⟩ := List.getElem?_eq_some_iff.mp ha
  obtain ⟨hb', hpb⟩ := List.getElem?_eq_some_iff.mp hb
  exact (List.Nodup.getElem_inj_iff hnd).mp (hpa.trans hpb.symm)

theorem length_filter_slot_of (ps : List Id) (hnd : ps.Nodup) (n : Nat)
    (hn : ps.length ≤ 2 * n) (p : Id) (hp : p ∈ ps) :
    (((List.range n).map fun j => (j, ps[2 * j]?, ps[2 * j + 1]?)).filter
        fun t => decide (t.2.1 = some p) || decide (t.2.2 = some p)).length = 1 := by
  obtain ⟨i, hi, hpi⟩ := List.mem_iff_getElem.mp hp
  have hi' : ps[i]? = some p := by rw [List.getElem?_eq_getElem hi, hpi]
  rw [List.filter_map, List.length_map]
  apply length_filter_eq_one
  · apply (List.nodup_range n).pairwise_of_forall_ne
    intro a _ b _ hab h
    simp only [Function.comp, Bool.or_eq_true, decide_eq_true_eq] at h
    have ea : 2 * a = i ∨ 2 * a + 1 = i := by
      rcases h.1 with h | h
      · exact Or.inl (getElem?_nodup_inj ps hnd _ _ p h hi')
      · exact Or.inr (getElem?_nodup_inj ps hnd _ _ p h hi')
    have eb : 2 * b = i ∨ 2 * b + 1 = i := by
      rcases h.2 with h | h
      · exact Or.inl (getElem?_nodup_inj ps hnd _ _ p h hi')
      · exact Or.inr (getElem?_nodup_inj ps hnd _ _ p h hi')
    omega
  · refine ⟨i / 2, List.mem_range.mpr (by omega), ?_⟩
    simp only [Function.comp, Bool.or_eq_true, decide_eq_true_eq]
    rcases Nat.mod_two_eq_zero_or_one i with h | h
    · left
      have : 2 * (i / 2) = i := by omega
      rw [this]; exact hi'
    · right
      have : 2 * (i / 2) + 1 = i := by omega
      rw [this]; exact hi'

theorem length_filter_hasSide (docs : List FixtureDoc) (p : Id) :
    (docs.filter (FixtureDoc.hasSide p)).length =
      ((docs.map fun d => (d.matchIndex, d.teamA, d.teamB)).filter
        fun t => decide (t.2.1 = some p) || decide (t.2.2 = some p)).length := by
  rw [List.filter_map, List.length_map]
  rfl

/-- C24, bracket contents at generation. For a seeded list of `P ≥ 2`
participants, padded with `null` to length `2 ^ ⌈log2 P⌉`, the first round of
the bracket of `generateKnockoutFromStandings` is, for `j = 0 .. 2^(k-1) - 1`,
the fixture with `matchIndex = j`, `teamA = padded[2j]`, `teamB = padded[2j+1]`;
each of pairwise distinct participants is a side of exactly one of these
fixtures; every fixture of a later round has `teamA = teamB = null`; and every
fixture has phase `ko` and status `scheduled`. -/
theorem bracket_contents (tid : Id) (eid : Option Id) (start : Nat) (ps : List Id)
    (hP : 2 ≤ ps.length) :
    (padWithByes ps).length = 2 ^ Nat.clog 2 ps.length ∧
    (∀ i, (padWithByes ps)[i]? =
      if i < ps.length then (ps[i]?).map some
      else if i < 2 ^ Nat.clog 2 ps.length then some none else none) ∧
    (((knockoutFromStandingsDocs tid eid start ps).filter fun d => decide (d.round = start)).map
        fun d => (d.matchIndex, some d.teamA, some d.teamB)) =
      ((List.range (2 ^ (Nat.clog 2 ps.length - 1))).map
        fun j => (j, (padWithByes ps)[2 * j]?, (padWithByes ps)[2 * j + 1]?)) ∧
    (ps.Nodup → ∀ p ∈ ps,
      (((knockoutFromStandingsDocs tid eid start ps).filter
        fun d => decide (d.round = start)).filter (FixtureDoc.hasSide p)).length = 1) ∧
    (∀ d ∈ knockoutFromStandingsDocs tid eid start ps, d.round ≠ start →
      d.teamA = none ∧ d.teamB = none) ∧
    (∀ d ∈ knockoutFromStandingsDocs tid eid start ps,
      d.phase = some Phase.ko ∧ d.status = Status.scheduled) := by
  have hk : 1 ≤ Nat.clog 2 ps.length := Nat.clog_pos (by norm_num) hP
  obtain ⟨m, hm⟩ : ∃ m, Nat.clog 2 ps.length = m + 1 := ⟨_, (Nat.sub_add_cancel hk).symm⟩
  have hle := Nat.le_pow_clog (by norm_num : 1 < 2) ps.length
  have hB : (knockoutFromStandingsDocs tid eid start ps).filter
        (fun d => decide (d.round = start)) =
      koRound tid eid (padWithByes ps) start
        (getRoundName (0 : Nat) (Nat.clog 2 ps.length)) := by
    rw [knockoutFromStandingsDocs_closed]
    have := bracketRounds_filter_first tid eid
      (fun r => getRoundName r (Nat.clog 2 ps.length)) start m (padWithByes ps) 0
    rw [← hm] at this
    simpa using this
  refine ⟨padWithByes_length ps, ?_, ?_, ?_, ?_, ?_⟩
  · intro i
    unfold padWithByes nextPowerOfTwo
    by_cases h : i < ps.length
    · rw [if_pos h, List.getElem?_append_left (by simpa using h)]
      simp
    · rw [if_neg h, List.getElem?_append_right (by simpa using h), List.getElem?_replicate]
      simp only [List.length_map]
      split_ifs with h1 h2 h2
      · rfl
      · omega
      · omega
      · rfl
  · rw [hB]; exact koRound_padded_slots tid eid ps _ _ hP
  · intro hnd p hp
    rw [hB, length_filter_hasSide, koRound_padded tid eid ps _ _ hP]
    apply length_filter_slot_of ps hnd _ _ p hp
    rw [hm, Nat.add_sub_cancel]
    rw [hm, pow_succ] at hle
    omega
  · rw [knockoutFromStandingsDocs_closed, hm]
    intro d hd hr
    exact bracketRounds_null_after_first tid eid _ start m _ 0 d hd (by simpa using hr)
  · rw [knockoutFromStandingsDocs_closed]
    exact bracketRounds_phase tid eid _ start _ _ 0

/-- The theorem applied to the seeded list `[1, 4, 2, 3]` and `startRound = 3`. -/
theorem bracket_contents_witness :
    2 ≤ [1, 4, 2, 3].length ∧
    (((knockoutFromStandingsDocs 5 (some 6) 3 [1, 4, 2, 3]).filter
        fun d => decide (d.round = 3)).map
        fun d => (d.matchIndex, some d.teamA, some d.teamB)) =
      ((List.range (2 ^ (Nat.clog 2 [1, 4, 2, 3].length - 1))).map
        fun j => (j, (padWithByes [1, 4, 2, 3])[2 * j]?, (padWithByes [1, 4, 2, 3])[2 * j + 1]?)) ∧
    (∀ d ∈ knockoutFromStandingsDocs 5 (some 6) 3 [1, 4, 2, 3], d.round ≠ 3 →
      d.teamA = none ∧ d.teamB = none) :=
  ⟨by decide, (bracket_contents 5 (some 6) 3 [1, 4, 2, 3] (by decide)).2.2.1,
    (bracket_contents 5 (some 6) 3 [1, 4, 2, 3] (by decide)).2.2.2.2.1⟩

/-! ## Theorems: consistency of the standings table -/

theorem credit_balanced (own opp : Int) : (credit own opp).Balanced := by
  unfold Delta.Balanced credit
  simp only
  split_ifs <;> omega

theorem Delta.balanced_plus (x y : Delta) (hx : x.Balanced) (hy : y.Balanced) :
    (x.plus y).Balanced := by
  unfold Delta.Balanced Delta.plus at *
  simp only
  omega

theorem Delta.balanced_zero : Delta.Balanced {} := ⟨rfl, rfl⟩

theorem fixtureDelta_balanced (p : Id) (fx : Fixture) : (fixtureDelta p fx).Balanced := by
  unfold fixtureDelta
  split
  · apply Delta.balanced_plus <;> split_ifs <;>
      first | exact credit_balanced _ _ | exact Delta.balanced_zero
  · exact Delta.balanced_zero

theorem totalDelta_balanced (p : Id) (fs : List Fixture) : (totalDelta p fs).Balanced := by
  induction fs with
  | nil => exact Delta.balanced_zero
  | cons fx fs ih => exact Delta.balanced_plus _ _ (fixtureDelta_balanced p fx) ih

theorem Delta.plus_comm (x y : Delta) : x.plus y = y.plus x := by
  unfold Delta.plus
  congr 1 <;> first | exact Nat.add_comm _ _ | exact Int.add_comm _ _

theorem totalDelta_perm (p : Id) (fs fs' : List Fixture) (h : fs.Perm fs') :
    totalDelta p fs = totalDelta p fs' := by
  induction h with
  | nil => rfl
  | cons x _ ih => simp only [totalDelta, ih]
  | swap x y l =>
    simp only [totalDelta]
    rw [← Delta.plus_assoc, ← Delta.plus_assoc, Delta.plus_comm (fixtureDelta p y)]
  | trans _ _ ih1 ih2 => exact ih1.trans ih2

theorem keys_tally (stats : List Standing) (fx : Fixture) :
    (tally stats fx).map (fun s => s.teamId) = (ensured stats fx).map fun s => s.teamId := by
  rw [tally_eq, List.map_map]
  rfl

theorem mem_keys_foldl (fs : List Fixture) :
    ∀ (stats : List Standing) (p : Id),
      p ∈ (fs.foldl tally stats).map (fun s => s.teamId) ↔
        p ∈ stats.map (fun s => s.teamId) ∨ hasRecord p fs := by
  induction fs with
  | nil => intro stats p; simp [hasRecord]
  | cons fx fs ih =>
    intro stats p
    rw [List.foldl_cons, ih, keys_tally, mem_keys_ensured]
    unfold hasRecord
    simp only [List.mem_cons, exists_eq_or_imp, or_assoc]

/-- The records of the standings: one for each participant with a record, and
it is `recordOf`. -/
theorem mem_computeStandings_iff (fs : List Fixture) (rec : Standing) :
    rec ∈ computeStandings fs ↔ hasRecord rec.teamId fs ∧ rec = recordOf rec.teamId fs := by
  rw [mem_computeStandings]
  obtain ⟨h1, h2, _, _⟩ := tracks_all fs
  constructor
  · intro h
    refine ⟨?_, h2 rec h⟩
    have := (mem_keys_foldl fs [] rec.teamId).mp (List.mem_map_of_mem _ h)
    simpa using this
  · rintro ⟨hr, he⟩
    have := (mem_keys_foldl fs [] rec.teamId).mpr (Or.inr hr)
    obtain ⟨s, hs, hid⟩ := List.mem_map.mp this
    have hs' := h2 s hs
    rw [hid] at hs'
    rw [he, ← hs']
    exact hs

theorem sum_map_ite_not_mem {M : Type} [AddCommMonoid M] (stats : List Standing) (a : Id)
    (v : M) (ha : a ∉ stats.map fun s => s.teamId) :
    (stats.map fun s => if a = s.teamId then v else 0).sum = 0 := by
  induction stats with
  | nil => rfl
  | cons s t ih =>
    simp only [List.map_cons, List.mem_cons, not_or] at ha
    rw [List.map_cons, List.sum_cons, if_neg ha.1, ih ha.2, add_zero]

theorem sum_map_ite_key {M : Type} [AddCommMonoid M] (stats : List Standing) (a : Id) (v : M)
    (hnd : (stats.map fun s => s.teamId).Nodup) (ha : a ∈ stats.map fun s => s.teamId) :
    (stats.map fun s => if a = s.teamId then v else 0).sum = v := by
  induction stats with
  | nil => simp at ha
  | cons s t ih =>
    rw [List.map_cons, List.nodup_cons] at hnd
    rw [List.map_cons, List.sum_cons]
    by_cases h : a = s.teamId
    · rw [if_pos h, sum_map_ite_not_mem t a v (h ▸ hnd.1), add_zero]
    · rw [if_neg h]
      rw [List.map_cons, List.mem_cons] at ha
      rcases ha with ha | ha
      · exact absurd ha h
      · rw [ih hnd.2 ha, zero_add]

/-- What one fixture adds to the column sums of a table that has a record for
each of its sides: as many goals for as against, as many wins as losses. -/
theorem fixtureDelta_sums (stats : List Standing) (fx : Fixture)
    (hnd : (stats.map fun s => s.teamId).Nodup)
    (hmem : fx.scoreA ≠ none → fx.scoreB ≠ none → ∀ p, fx.teamA = some p ∨ fx.teamB = some p →
      p ∈ stats.map fun s => s.teamId) :
    (stats.map fun s => (fixtureDelta s.teamId fx).goalsFor).sum =
      (stats.map fun s => (fixtureDelta s.teamId fx).goalsAgainst).sum ∧
    (stats.map fun s => (fixtureDelta s.teamId fx).won).sum =
      (stats.map fun s => (fixtureDelta s.teamId fx).lost).sum := by
  unfold fixtureDelta
  rcases hA : fx.scoreA with _ | sA
  · simp
  · rcases hB : fx.scoreB with _ | sB
    · simp
    · rcases ha : fx.teamA with _ | a
      · simp
      · rcases hb : fx.teamB with _ | b
        · simp
        · have hma := hmem (by simp [hA]) (by simp [hB]) a (Or.inl ha)
          have hmb := hmem (by simp [hA]) (by simp [hB]) b (Or.inr hb)
          have e1 : ∀ s : Standing,
              ((if a = s.teamId then credit sA sB else {}).plus
                (if b = s.teamId then credit sB sA else {})).goalsFor =
              (if a = s.teamId then sA else 0) + (if b = s.teamId then sB else 0) := by
            intro s; split_ifs <;> simp [Delta.plus, credit]
          have e2 : ∀ s : Standing,
              ((if a = s.teamId then credit sA sB else {}).plus
                (if b = s.teamId then credit sB sA else {})).goalsAgainst =
              (if a = s.teamId then sB else 0) + (if b = s.teamId then sA else 0) := by
            intro s; split_ifs <;> simp [Delta.plus, credit]
          have e3 : ∀ s : Standing,
              ((if a = s.teamId then credit sA sB else {}).plus
                (if b = s.teamId then credit sB sA else {})).won =
              (if a = s.teamId then (if sA > sB then 1 else 0) else 0) +
                (if b = s.teamId then (if sB > sA then 1 else 0) else 0) := by
            intro s; split_ifs <;> simp [Delta.plus, credit, *]
          have e4 : ∀ s : Standing,
              ((if a = s.teamId then credit sA sB else {}).plus
                (if b = s.teamId then credit sB sA else {})).lost =
              (if a = s.teamId then (if sA < sB then 1 else 0) else 0) +
                (if b = s.teamId then (if sB < sA then 1 else 0) else 0) := by
            intro s; split_ifs <;> simp [Delta.plus, credit, *]
          simp only [e1, e2, e3, e4, List.sum_map_add, sum_map_ite_key stats a _ hnd hma,
            sum_map_ite_key stats b _ hnd hmb]
          constructor
          · ring
          · split_ifs <;> omega

theorem sums_ensure (stats : List Standing) (o : Option Id) :
    ((ensure stats o).map fun s => s.goalsFor).sum = (stats.map fun s => s.goalsFor).sum ∧
    ((ensure stats o).map fun s => s.goalsAgainst).sum =
      (stats.map fun s => s.goalsAgainst).sum ∧
    ((ensure stats o).map fun s => s.won).sum = (stats.map fun s => s.won).sum ∧
    ((ensure stats o).map fun s => s.lost).sum = (stats.map fun s => s.lost).sum := by
  unfold ensure
  rcases o with _ | i
  · exact ⟨rfl, rfl, rfl, rfl⟩
  · simp only
    split_ifs
    · exact ⟨rfl, rfl, rfl, rfl⟩
    · simp [Standing.zero]

theorem sums_ensured (stats : List Standing) (fx : Fixture) :
    ((ensured stats fx).map fun s => s.goalsFor).sum = (stats.map fun s => s.goalsFor).sum ∧
    ((ensured stats fx).map fun s => s.goalsAgainst).sum =
      (stats.map fun s => s.goalsAgainst).sum ∧
    ((ensured stats fx).map fun s => s.won).sum = (stats.map fun s => s.won).sum ∧
    ((ensured stats fx).map fun s => s.lost).sum = (stats.map fun s => s.lost).sum := by
  unfold ensured
  split
  · have h1 := sums_ensure (ensure stats fx.teamA) fx.teamB
    have h2 := sums_ensure stats fx.teamA
    exact ⟨h1.1.trans h2.1, h1.2.1.trans h2.2.1, h1.2.2.1.trans h2.2.2.1,
      h1.2.2.2.trans h2.2.2.2⟩
  · exact ⟨rfl, rfl, rfl, rfl⟩

theorem sums_tally (stats : List Standing) (fx : Fixture)
    (hnd : (stats.map fun s => s.teamId).Nodup)
    (h : (stats.map fun s => s.goalsFor).sum = (stats.map fun s => s.goalsAgainst).sum ∧
      (stats.map fun s => s.won).sum = (stats.map fun s => s.lost).sum) :
    ((tally stats fx).map fun s => s.goalsFor).sum =
      ((tally stats fx).map fun s => s.goalsAgainst).sum ∧
    ((tally stats fx).map fun s => s.won).sum = ((tally stats fx).map fun s => s.lost).sum := by
  have hd := fixtureDelta_sums (ensured stats fx) fx (nodup_keys_ensured stats fx hnd)
    (fun hA hB p hp => (mem_keys_ensured stats fx p).mpr (Or.inr ⟨hA, hB, hp⟩))
  have he := sums_ensured stats fx
  rw [tally_eq]
  have g1 : (((ensured stats fx).map fun s => s.add (fixtureDelta s.teamId fx)).map
      fun s => s.goalsFor).sum = ((ensured stats fx).map fun s => s.goalsFor).sum +
        ((ensured stats fx).map fun s => (fixtureDelta s.teamId fx).goalsFor).sum := by
    rw [List.map_map, ← List.sum_map_add]; rfl
  have g2 : (((ensured stats fx).map fun s => s.add (fixtureDelta s.teamId fx)).map
      fun s => s.goalsAgainst).sum = ((ensured stats fx).map fun s => s.goalsAgainst).sum +
        ((ensured stats fx).map fun s => (fixtureDelta s.teamId fx).goalsAgainst).sum := by
    rw [List.map_map, ← List.sum_map_add]; rfl
  have g3 : (((ensured stats fx).map fun s => s.add (fixtureDelta s.teamId fx)).map
      fun s => s.won).sum = ((ensured stats fx).map fun s => s.won).sum +
        ((ensured stats fx).map fun s => (fixtureDelta s.teamId fx).won).sum := by
    rw [List.map_map, ← List.sum_map_add]; rfl
  have g4 : (((ensured stats fx).map fun s => s.add (fixtureDelta s.teamId fx)).map
      fun s => s.lost).sum = ((ensured stats fx).map fun s => s.lost).sum +
        ((ensured stats fx).map fun s => (fixtureDelta s.teamId fx).lost).sum := by
    rw [List.map_map, ← List.sum_map_add]; rfl
  rw [g1, g2, g3, g4, he.1, he.2.1, he.2.2.1, he.2.2.2, hd.1, hd.2, h.1, h.2]
  exact ⟨rfl, rfl⟩

theorem sums_foldl (fs : List Fixture) :
    ∀ stats : List Standing, (stats.map fun s => s.teamId).Nodup →
      ((stats.map fun s => s.goalsFor).sum = (stats.map fun s => s.goalsAgainst).sum ∧
        (stats.map fun s => s.won).sum = (stats.map fun s => s.lost).sum) →
      (((fs.foldl tally stats).map fun s => s.goalsFor).sum =
          ((fs.foldl tally stats).map fun s => s.goalsAgainst).sum ∧
        ((fs.foldl tally stats).map fun s => s.won).sum =
          ((fs.foldl tally stats).map fun s => s.lost).sum) := by
  induction fs with
  | nil => intro stats _ h; exact h
  | cons fx fs ih =>
    intro stats hnd h
    rw [List.foldl_cons]
    apply ih
    · rw [keys_tally]; exact nodup_keys_ensured stats fx hnd
    · exact sums_tally stats fx hnd h

/-- C28, consistency of the standings table. For every fixture list, every
record of the standings has `played = won + draw + lost` and
`points = 3 * won + draw`, the goals for sum to the goals against and the wins
to the losses over the table, there is one record per participant, and the
records are the same for every reordering of the fixture list. -/
theorem standings_consistent (fs : List Fixture) :
    (∀ rec ∈ computeStandings fs,
      rec.played = rec.won + rec.draw + rec.lost ∧ rec.points = 3 * rec.won + rec.draw) ∧
    ((computeStandings fs).map fun s => s.goalsFor).sum =
      ((computeStandings fs).map fun s => s.goalsAgainst).sum ∧
    ((computeStandings fs).map fun s => s.won).sum =
      ((computeStandings fs).map fun s => s.lost).sum ∧
    ((computeStandings fs).map fun s => s.teamId).Nodup ∧
    (∀ fs', fs.Perm fs' → ∀ rec, rec ∈ computeStandings fs ↔ rec ∈ computeStandings fs') := by
  have hperm : (computeStandings fs).Perm (fs.foldl tally []) := by
    unfold computeStandings sortStandings
    exact List.perm_insertionSort _ _
  have hs := sums_foldl fs [] (by simp) ⟨rfl, rfl⟩
  refine ⟨?_, ?_, ?_, ?_, ?_⟩
  · intro rec hrec
    have he := ((mem_computeStandings_iff fs rec).mp hrec).2
    have hb := totalDelta_balanced rec.teamId fs
    rw [he]
    unfold recordOf Standing.add Standing.zero Delta.Balanced at *
    simp only
    omega
  · rw [(hperm.map _).sum_eq, (hperm.map _).sum_eq]; exact hs.1
  · rw [(hperm.map _).sum_eq, (hperm.map _).sum_eq]; exact hs.2
  · exact (hperm.map _).nodup_iff.mpr (tracks_all fs).1
  · intro fs' hp rec
    rw [mem_computeStandings_iff, mem_computeStandings_iff]
    have h1 : hasRecord rec.teamId fs ↔ hasRecord rec.teamId fs' := by
      unfold hasRecord
      constructor
      · rintro ⟨fx, hfx, h⟩; exact ⟨fx, hp.mem_iff.mp hfx, h⟩
      · rintro ⟨fx, hfx, h⟩; exact ⟨fx, hp.mem_iff.mpr hfx, h⟩
    have h2 : recordOf rec.teamId fs = recordOf rec.teamId fs' := by
      unfold recordOf
      rw [totalDelta_perm _ _ _ hp]
    rw [h1, h2]

/-! ## Theorems: one fixture per participant and matchday -/

theorem slotOf_iff (k r i x : Nat) (hk : 1 ≤ k) (hr : r < 2 * k - 1) (hi : i < k)
    (hx : x ≤ 2 * k - 1) :
    (circleIdx (2 * k - 1) r i = x ∨ circleIdx (2 * k - 1) r (2 * k - 1 - i) = x) ↔
      i = slotOf (2 * k - 1) r x := by
  have h1 := circleIdx_spec (2 * k - 1) r i (by omega) (by omega)
  have h2 := circleIdx_spec (2 * k - 1) r (2 * k - 1 - i) (by omega) (by omega)
  generalize circleIdx (2 * k - 1) r i = a at *
  generalize circleIdx (2 * k - 1) r (2 * k - 1 - i) = b at *
  unfold slotOf roundPos circlePos
  split_ifs <;> omega

theorem slotOf_lt (k r x : Nat) (hk : 1 ≤ k) (hr : r < 2 * k - 1) :
    slotOf (2 * k - 1) r x < k := by
  unfold slotOf roundPos circlePos
  split_ifs <;> omega

theorem range_filterMap_ite {β : Type} (o : Option β) (n s : Nat) (hs : s < n) :
    (List.range n).filterMap (fun i => if i = s then o else none) = o.toList := by
  induction n with
  | zero => omega
  | succ n ih =>
    rw [List.range_succ, List.filterMap_append]
    by_cases h : s = n
    · subst h
      have : (List.range s).filterMap (fun i => if i = s then o else none) = [] := by
        rw [List.filterMap_eq_nil_iff]
        intro i hi
        have := List.mem_range.mp hi
        rw [if_neg (by omega)]
      rw [this]
      cases o <;> simp
    · rw [ih (by omega)]
      have hn : ¬ n = s := fun e => h e.symm
      simp [hn]

theorem length_filter_filterMap_one {β : Type} (f : Nat → Option β) (q : β → Bool)
    (n s : Nat) (hs : s < n)
    (h : ∀ i, i < n → ∀ d, f i = some d → (q d = true ↔ i = s)) :
    (((List.range n).filterMap f).filter q).length = if (f s).isSome then 1 else 0 := by
  rw [List.filter_filterMap]
  have : (List.range n).filterMap (fun i => (f i).filter q) =
      (List.range n).filterMap (fun i => if i = s then f s else none) := by
    apply List.filterMap_congr
    intro i hi
    have hi' := List.mem_range.mp hi
    cases hfi : f i with
    | none =>
      by_cases his : i = s
      · rw [if_pos his, ← his, hfi]; rfl
      · rw [if_neg his]; rfl
    | some d =>
      have := h i hi' d hfi
      by_cases his : i = s
      · rw [if_pos his, ← his, hfi]
        simp [Option.filter, this.mpr his]
      · rw [if_neg his]
        have hq : q d = false := by
          cases hqd : q d
          · rfl
          · exact absurd (this.mp hqd) his
        simp [Option.filter, hq]
  rw [this, range_filterMap_ite _ n s hs]
  cases f s <;> rfl

theorem hasSide_rrDoc (tid : Id) (eid : Option Id) (ps : List Id) (hnd : ps.Nodup)
    (r i p q x : Nat) (hp : p < ps.length) (hq : q < ps.length) (hx : x < ps.length) :
    FixtureDoc.hasSide ps[x] (rrDoc tid eid r i ps[p]? ps[q]?) = true ↔ p = x ∨ q = x := by
  unfold FixtureDoc.hasSide rrDoc
  simp only [Bool.or_eq_true, decide_eq_true_eq]
  have e : ∀ j, j < ps.length → (ps[j]? = some ps[x] ↔ j = x) := by
    intro j hj
    rw [← List.getElem?_eq_getElem hx]
    constructor
    · intro h; exact List.getElem?_inj hj hnd h
    · intro h; rw [h]
  rw [e p hp, e q hq]

/-- In a round of the schedule the participant at index `x` takes part in the
fixture of its slot, when that slot is stored, and in no other. -/
theorem appearances_slot (tid : Id) (eid : Option Id) (ps : List Id) (hN : 2 ≤ ps.length)
    (hnd : ps.Nodup) (r x : Nat) (hr : r < (rrArray ps).length - 1) (hx : x < ps.length) :
    appearances (roundRobinDocs tid eid ps) r ps[x] =
      if (slotDoc tid eid (rrArray ps) ((rrArray ps).length - 1) r
          (slotOf ((rrArray ps).length - 1) r x)).isSome then 1 else 0 := by
  have hl := rrArray_length ps
  have hk : (rrArray ps).length - 1 = 2 * ((rrArray ps).length / 2) - 1 := by omega
  unfold appearances
  rw [roundRobinDocs_filter_round tid eid ps hN r, if_pos hr]
  apply length_filter_filterMap_one
  · rw [hk]; exact slotOf_lt _ r x (by omega) (by omega)
  · intro i hi d hd
    obtain ⟨p, q, hp, hq, hpl, hql, rfl⟩ := slotDoc_some tid eid ps hN r i hr hi d hd
    rw [hasSide_rrDoc tid eid ps hnd r i p q x hpl hql hx, hp, hq]
    have := slotOf_iff ((rrArray ps).length / 2) r i x (by omega) (by omega) hi (by omega)
    rw [← hk] at this
    exact this

theorem appearances_late (tid : Id) (eid : Option Id) (ps : List Id) (hN : 2 ≤ ps.length)
    (r : Nat) (p : Id) (hr : ¬ r < (rrArray ps).length - 1) :
    appearances (roundRobinDocs tid eid ps) r p = 0 := by
  unfold appearances
  rw [roundRobinDocs_filter_round tid eid ps hN r, if_neg hr]
  rfl

theorem slotDoc_isSome_even (tid : Id) (eid : Option Id) (ps : List Id) (hN : 2 ≤ ps.length)
    (hev : ps.length % 2 = 0) (r i : Nat) (hr : r < (rrArray ps).length - 1)
    (hi : i < (rrArray ps).length / 2) :
    (slotDoc tid eid (rrArray ps) ((rrArray ps).length - 1) r i).isSome = true := by
  have hl := rrArray_length ps
  rw [slotDoc_rrArray tid eid ps hN r i (by omega) (by omega)]
  have h1 := circleIdx_le ((rrArray ps).length - 1) r i (by omega) (by omega)
  have h2 := circleIdx_le ((rrArray ps).length - 1) r ((rrArray ps).length - 1 - i)
    (by omega) (by omega)
  rw [if_pos ⟨by omega, by omega⟩]
  rfl

theorem slotDoc_isSome_odd (tid : Id) (eid : Option Id) (ps : List Id) (hN : 2 ≤ ps.length)
    (hodd : ps.length % 2 = 1) (r i : Nat) (hr : r < (rrArray ps).length - 1)
    (hi : i < (rrArray ps).length / 2) :
    (slotDoc tid eid (rrArray ps) ((rrArray ps).length - 1) r i).isSome = true ↔
      i ≠ byeSlot ((rrArray ps).length - 1) r := by
  have hl := rrArray_length ps
  have hk : (rrArray ps).length - 1 = 2 * ((rrArray ps).length / 2) - 1 := by omega
  rw [slotDoc_rrArray tid eid ps hN r i (by omega) (by omega)]
  have hb := circleIdx_bye ((rrArray ps).length / 2) r i (by omega) (by omega) hi
  rw [← hk] at hb
  have h1 := circleIdx_le ((rrArray ps).length - 1) r i (by omega) (by omega)
  have h2 := circleIdx_le ((rrArray ps).length - 1) r ((rrArray ps).length - 1 - i)
    (by omega) (by omega)
  rw [ne_eq, ← hb]
  have hm : (rrArray ps).length - 1 = ps.length := by omega
  constructor
  · intro h hcon
    rw [if_neg (by omega)] at h
    exact absurd h (by simp)
  · intro h
    rw [if_pos ⟨by omega, by omega⟩]
    rfl

/-- The participant the bye is paired with in round `r` (odd number of
participants): the one index below `m` whose slot is the bye slot. -/
theorem bye_partner (k r : Nat) (hk : 1 ≤ k) (hr : r < 2 * k - 1) :
    ∃ y, y < 2 * k - 1 ∧
      ∀ x, x < 2 * k - 1 → (slotOf (2 * k - 1) r x = byeSlot (2 * k - 1) r ↔ x = y) := by
  have hb := byeSlot_lt k r hk hr
  have hbye := (circleIdx_bye k r (byeSlot (2 * k - 1) r) hk hr hb).mpr rfl
  have hne := circleIdx_ne k r (byeSlot (2 * k - 1) r) hk hr hb
  have h1 := circleIdx_le (2 * k - 1) r (byeSlot (2 * k - 1) r) (by omega) (by omega)
  have h2 := circleIdx_le (2 * k - 1) r (2 * k - 1 - byeSlot (2 * k - 1) r) (by omega) (by omega)
  have hs := fun x (hx : x < 2 * k - 1) =>
    slotOf_iff k r (byeSlot (2 * k - 1) r) x hk hr hb (by omega)
  generalize circleIdx (2 * k - 1) r (byeSlot (2 * k - 1) r) = a at *
  generalize circleIdx (2 * k - 1) r (2 * k - 1 - byeSlot (2 * k - 1) r) = b at *
  rcases hbye with ha | hb'
  · refine ⟨b, by omega, fun x hx => ?_⟩
    rw [eq_comm, ← hs x hx]
    omega
  · refine ⟨a, by omega, fun x hx => ?_⟩
    rw [eq_comm, ← hs x hx]
    omega

/-- For an odd number of participants the participant at index `x` has its
slot on the bye in exactly the rounds where it is paired with index `m`. -/
theorem meets_bye_iff (k r x : Nat) (hk : 1 ≤ k) (hr : r < 2 * k - 1) (hx : x < 2 * k - 1) :
    slotOf (2 * k - 1) r x = byeSlot (2 * k - 1) r ↔
      ∃ i, i < k ∧
        ((circleIdx (2 * k - 1) r i = x ∧ circleIdx (2 * k - 1) r (2 * k - 1 - i) = 2 * k - 1) ∨
         (circleIdx (2 * k - 1) r i = 2 * k - 1 ∧ circleIdx (2 * k - 1) r (2 * k - 1 - i) = x)) := by
  constructor
  · intro h
    have hb := byeSlot_lt k r hk hr
    refine ⟨byeSlot (2 * k - 1) r, hb, ?_⟩
    have hbye := (circleIdx_bye k r (byeSlot (2 * k - 1) r) hk hr hb).mpr rfl
    have hs := (slotOf_iff k r (byeSlot (2 * k - 1) r) x hk hr hb (by omega)).mpr h.symm
    omega
  · rintro ⟨i, hi, h⟩
    have hib := (circleIdx_bye k r i hk hr hi).mp (by omega)
    have his := (slotOf_iff k r i x hk hr hi (by omega)).mp (by omega)
    rw [← his, ← hib]

/-- C26, no double booking within a matchday. For `N ≥ 2` pairwise distinct
participants, a participant takes part in at most one fixture of any round of
the generated schedule; for even `N` in exactly one fixture of each of the
`N - 1` rounds; for odd `N` exactly one participant has no fixture in each of the
`N` rounds, and each participant has no fixture in exactly one round. -/
theorem no_double_booking (tid : Id) (eid : Option Id) (ps : List Id) (hN : 2 ≤ ps.length)
    (hnd : ps.Nodup) :
    (∀ r, ∀ p ∈ ps, appearances (roundRobinDocs tid eid ps) r p ≤ 1) ∧
    (ps.length % 2 = 0 → ∀ r, r < ps.length - 1 → ∀ p ∈ ps,
      appearances (roundRobinDocs tid eid ps) r p = 1) ∧
    (ps.length % 2 = 1 → ∀ r, r < ps.length →
      (ps.filter fun p => decide (appearances (roundRobinDocs tid eid ps) r p = 0)).length = 1) ∧
    (ps.length % 2 = 1 → ∀ p ∈ ps,
      ((List.range ps.length).filter
        fun r => decide (appearances (roundRobinDocs tid eid ps) r p = 0)).length = 1) := by
  have hl := rrArray_length ps
  have hk : (rrArray ps).length - 1 = 2 * ((rrArray ps).length / 2) - 1 := by omega
  have hk1 : 1 ≤ (rrArray ps).length / 2 := by omega
  -- the number of fixtures of a participant in a round of an odd schedule
  have hodd_app : ps.length % 2 = 1 → ∀ r x (hr : r < ps.length) (hx : x < ps.length),
      (appearances (roundRobinDocs tid eid ps) r ps[x] = 0 ↔
        slotOf ((rrArray ps).length - 1) r x = byeSlot ((rrArray ps).length - 1) r) := by
    intro hodd r x hr hx
    have hr' : r < (rrArray ps).length - 1 := by omega
    have hslot : slotOf ((rrArray ps).length - 1) r x < (rrArray ps).length / 2 := by
      rw [hk]; exact slotOf_lt _ r x hk1 (by omega)
    rw [appearances_slot tid eid ps hN hnd r x hr' hx]
    have := slotDoc_isSome_odd tid eid ps hN hodd r _ hr' hslot
    by_cases hs : (slotDoc tid eid (rrArray ps) ((rrArray ps).length - 1) r
        (slotOf ((rrArray ps).length - 1) r x)).isSome = true
    · rw [if_pos hs]
      have := this.mp hs
      constructor
      · intro h; omega
      · intro h; exact absurd h this
    · rw [if_neg hs]
      have : ¬ slotOf ((rrArray ps).length - 1) r x ≠ byeSlot ((rrArray ps).length - 1) r :=
        fun h => hs (this.mpr h)
      constructor
      · intro _; exact not_not.mp this
      · intro _; rfl
  refine ⟨?_, ?_, ?_, ?_⟩
  · intro r p hp
    obtain ⟨x, hx, rfl⟩ := List.mem_iff_getElem.mp hp
    by_cases hr : r < (rrArray ps).length - 1
    · rw [appearances_slot tid eid ps hN hnd r x hr hx]
      split_ifs <;> omega
    · rw [appearances_late tid eid ps hN r _ hr]
      omega
  · intro hev r hr p hp
    obtain ⟨x, hx, rfl⟩ := List.mem_iff_getElem.mp hp
    have hr' : r < (rrArray ps).length - 1 := by omega
    rw [appearances_slot tid eid ps hN hnd r x hr' hx,
      if_pos (slotDoc_isSome_even tid eid ps hN hev r _ hr'
        (by rw [hk]; exact slotOf_lt _ r x hk1 (by omega)))]
  · intro hodd r hr
    have hm : (rrArray ps).length - 1 = ps.length := by omega
    obtain ⟨y, hy, hyx⟩ := bye_partner ((rrArray ps).length / 2) r hk1 (by omega)
    rw [← hk] at hy hyx
    apply length_filter_eq_one
    · apply hnd.pairwise_of_forall_ne
      intro a ha b hb hab h
      obtain ⟨xa, hxa, rfl⟩ := List.mem_iff_getElem.mp ha
      obtain ⟨xb, hxb, rfl⟩ := List.mem_iff_getElem.mp hb
      simp only [decide_eq_true_eq] at h
      have e1 := (hyx xa (by omega)).mp ((hodd_app hodd r xa hr hxa).mp h.1)
      have e2 := (hyx xb (by omega)).mp ((hodd_app hodd r xb hr hxb).mp h.2)
      apply hab
      subst e1
      subst e2
      rfl
    · have hyl : y < ps.length := by omega
      refine ⟨ps[y], List.getElem_mem _, ?_⟩
      simp only [decide_eq_true_eq]
      exact (hodd_app hodd r y hr hyl).mpr ((hyx y hy).mpr rfl)
  · intro hodd p hp
    obtain ⟨x, hx, rfl⟩ := List.mem_iff_getElem.mp hp
    have hm : (rrArray ps).length - 1 = ps.length := by omega
    have hmeet : ∀ r, r < ps.length →
        (appearances (roundRobinDocs tid eid ps) r ps[x] = 0 ↔
          ∃ i, i < (rrArray ps).length / 2 ∧
            ((circleIdx ((rrArray ps).length - 1) r i = x ∧
                circleIdx ((rrArray ps).length - 1) r ((rrArray ps).length - 1 - i) =
                  (rrArray ps).length - 1) ∨
              (circleIdx ((rrArray ps).length - 1) r i = (rrArray ps).length - 1 ∧
                circleIdx ((rrArray ps).length - 1) r ((rrArray ps).length - 1 - i) = x))) := by
      intro r hr
      have := meets_bye_iff ((rrArray ps).length / 2) r x hk1 (by omega) (by omega)
      rw [← hk] at this
      exact (hodd_app hodd r x hr hx).trans this
    apply length_filter_eq_one
    · apply (List.nodup_range _).pairwise_of_forall_ne
      intro r hr r' hr' hne h
      simp only [decide_eq_true_eq] at h
      have hr1 := List.mem_range.mp hr
      have hr2 := List.mem_range.mp hr'
      obtain ⟨i, hi, h1⟩ := (hmeet r hr1).mp h.1
      obtain ⟨i', hi', h2⟩ := (hmeet r' hr2).mp h.2
      apply hne
      have := circleIdx_inj ((rrArray ps).length / 2) r r' i i' hk1 (by omega) (by omega) hi hi'
      rw [← hk] at this
      refine (this ?_).1
      rcases h1 with ⟨a1, a2⟩ | ⟨a1, a2⟩ <;> rcases h2 with ⟨b1, b2⟩ | ⟨b1, b2⟩
      · exact Or.inl ⟨a1.trans b1.symm, a2.trans b2.symm⟩
      · exact Or.inr ⟨a1.trans b2.symm, a2.trans b1.symm⟩
      · exact Or.inr ⟨a1.trans b2.symm, a2.trans b1.symm⟩
      · exact Or.inl ⟨a1.trans b1.symm, a2.trans b2.symm⟩
    · obtain ⟨r, i, hr, hi, h⟩ := circleIdx_surj ((rrArray ps).length / 2) x
        ((rrArray ps).length - 1) hk1 (by omega) (by omega)
      rw [← hk] at hr h
      have hr' : r < ps.length := by omega
      refine ⟨r, List.mem_range.mpr hr', ?_⟩
      simp only [decide_eq_true_eq]
      exact (hmeet r hr').mpr ⟨i, hi, h⟩

/-- The theorem applied to three participants. -/
theorem no_double_booking_witness :
    2 ≤ [1, 2, 3].length ∧ [1, 2, 3].Nodup ∧
    (∀ r, ∀ p ∈ [1, 2, 3], appearances (roundRobinDocs 5 (some 6) [1, 2, 3]) r p ≤ 1) ∧
    ([1, 2, 3].length % 2 = 1 → ∀ r, r < [1, 2, 3].length →
      ([1, 2, 3].filter
        fun p => decide (appearances (roundRobinDocs 5 (some 6) [1, 2, 3]) r p = 0)).length
        = 1) :=
  ⟨by decide, by decide, (no_double_booking 5 (some 6) [1, 2, 3] (by decide) (by decide)).1,
    (no_double_booking 5 (some 6) [1, 2, 3] (by decide) (by decide)).2.2.1⟩

end Tourney
